import Mathlib

/-! Matrix rotation benchmark (`matrix_rotation.cpp`).

A shallow embedding of the two rotators, the validator and the benchmark
harness of `src/MatrixRotation/src/matrix_rotation.cpp`.

* A C `int` is a 32-bit two's-complement integer: every `int` operation of the
  source is passed through `wrap32`. Signed overflow is undefined behaviour in
  C++; the embedding gives it the wrapped value.
* A `double *` buffer is a `List` of elements; an access outside the list is
  reported as `Halt.outOfBounds` instead of being undefined behaviour.
* `new double[size]` with a negative `size` throws, and the exception is not
  caught: `Halt.badAlloc`. An allocation of a non-negative size is taken to
  succeed.
* The program only copies doubles and applies one test to them,
  `std::abs(a - b) > 1e-10`. Elements are of an arbitrary type and the test is
  a parameter `exceeds` of the validator and of the harness: `exceeds a b` is
  the value of that test in double arithmetic.
* Every `for` loop is run by `forLoop`, which takes a bound on the number of
  times the loop body may be executed; exceeding it is `Halt.outOfFuel`.
  A function passes the same bound to each of its loops.
* `exit(1)` is `Halt.exit 1`; `return 0` from `main` is a `Report` of status 0.
* The state carries a ghost `trace` of the assignments `dest[w] = src[r]`
  performed, as pairs `(w, r)`.
* The definitions whose name ends in `_unbounded` are the same loops read with
  mathematical integers. They are the reference the 32-bit program is compared
  with, not the program.
-/

namespace MatrixRotation

/-- Ways in which a run stops without returning normally. -/
inductive Halt where
  | outOfFuel
  | outOfBounds
  | badAlloc
  | exit (status : Int)
  deriving DecidableEq, Repr

/-- The two buffers a rotator works on, together with a ghost record of the
accesses performed so far: each entry is `(destination index, source index)`. -/
structure Mem (α : Type) where
  src : List α
  dest : List α
  trace : List (Int × Int)
  deriving DecidableEq, Repr

/-- The read `buf[i]`. -/
def readAt {α : Type} (buf : List α) (i : Int) : Option α :=
  if 0 ≤ i then buf[i.toNat]? else none

/-- The write `buf[i] = v`. -/
def writeAt {α : Type} (buf : List α) (i : Int) (v : α) : Option (List α) :=
  if 0 ≤ i ∧ i < (buf.length : Int) then some (buf.set i.toNat v) else none

/-- The assignment `dest[w] = src[r]`. -/
def Mem.copy {α : Type} (m : Mem α) (w r : Int) : Except Halt (Mem α) :=
  match readAt m.src r with
  | none => .error .outOfBounds
  | some v =>
    match writeAt m.dest w v with
    | none => .error .outOfBounds
    | some d => .ok { src := m.src, dest := d, trace := m.trace ++ [(w, r)] }

/-- The value a 32-bit two's-complement `int` holds when the mathematical
result of an operation is `x`. -/
def wrap32 (x : Int) : Int :=
  (x + 2147483648) % 4294967296 - 2147483648

/-- The loop `for (int i = start; i < bound; i += step) body(i)`, started at
`start` in state `s`, with at most `fuel` executions of the body. -/
def forLoop {σ : Type} (bound step : Int) (body : Int → σ → Except Halt σ) :
    Nat → Int → σ → Except Halt σ
  | 0, i, s => if i < bound then .error .outOfFuel else .ok s
  | fuel + 1, i, s =>
    if i < bound then
      match body i s with
      | .ok s' => forLoop bound step body fuel (wrap32 (i + step)) s'
      | .error e => .error e
    else .ok s

/-- Source: `rotate_naive(src, dest, n)`. -/
def rotate_naive {α : Type} (fuel : Nat) (n : Int) (m : Mem α) : Except Halt (Mem α) :=
  forLoop n 1 (fun i m =>
    forLoop n 1 (fun j m =>
      m.copy (wrap32 (wrap32 (j * n) + i))
        (wrap32 (wrap32 (wrap32 (wrap32 (n - 1) - i) * n) + j))) fuel 0 m) fuel 0 m

/-- Source: `rotate_blocked(src, dest, n, B)`. -/
def rotate_blocked {α : Type} (fuel : Nat) (n B : Int) (m : Mem α) : Except Halt (Mem α) :=
  forLoop n B (fun i m =>
    forLoop n B (fun j m =>
      forLoop (min (wrap32 (i + B)) n) 1 (fun bi m =>
        forLoop (min (wrap32 (j + B)) n) 1 (fun bj m =>
          m.copy (wrap32 (wrap32 (bj * n) + bi))
            (wrap32 (wrap32 (wrap32 (wrap32 (n - 1) - bi) * n) + bj)))
          fuel j m) fuel i m) fuel 0 m) fuel 0 m

/-- A buffer of `size` elements whose contents are whatever `junk` happens to
be. -/
def newBuffer {α : Type} (size : Int) (junk : Nat → α) : List α :=
  (List.range size.toNat).map junk

/-- Source: `new double[size]` for an `int` expression `size`. A negative size
throws `std::bad_array_new_length`, which nothing catches. -/
def allocate {α : Type} (size : Int) (junk : Nat → α) : Except Halt (List α) :=
  if size < 0 then .error .badAlloc else .ok (newBuffer size junk)

/-- Source: the comparison loop of `validate_results`,
`for (int i = 0; i < n * n; i++) if (std::abs(naive_dest[i] - blocked_dest[i]) > 1e-10) exit(1)`,
with `exceeds a b` for the test `std::abs(a - b) > 1e-10`. -/
def compare_results {α : Type} (exceeds : α → α → Bool) (fuel : Nat) (n : Int)
    (naive_dest blocked_dest : List α) : Except Halt Unit :=
  forLoop (wrap32 (n * n)) 1 (fun i _ =>
    match readAt naive_dest i, readAt blocked_dest i with
    | some a, some b => if exceeds a b then .error (.exit 1) else .ok ()
    | _, _ => .error .outOfBounds) fuel 0 ()

/-- Source: `validate_results(src, dest, n, B)`. The state `m` holds the
caller's `src` and `dest`; `junk1` and `junk2` are the initial contents of the
two temporary buffers. -/
def validate_results {α : Type} (exceeds : α → α → Bool) (fuel : Nat) (n B : Int)
    (junk1 junk2 : Nat → α) (m : Mem α) : Except Halt (Mem α) :=
  match allocate (wrap32 (n * n)) junk1 with
  | .error e => .error e
  | .ok naive_dest =>
    match rotate_naive fuel n { src := m.src, dest := naive_dest, trace := [] } with
    | .error e => .error e
    | .ok mn =>
      match allocate (wrap32 (n * n)) junk2 with
      | .error e => .error e
      | .ok blocked_dest =>
        match rotate_blocked fuel n B { src := mn.src, dest := blocked_dest, trace := [] } with
        | .error e => .error e
        | .ok mb =>
          match compare_results exceeds fuel n mn.dest mb.dest with
          | .error e => .error e
          | .ok _ => .ok { src := mb.src, dest := m.dest, trace := m.trace }

/-- What a run of `main` that reaches `return 0` leaves behind: the returned
status, the block size that was printed, and the two buffers. -/
structure Report (α : Type) where
  status : Int
  block_size : Int
  mem : Mem α

/-- Source: `main`. `method` is `argv[1]`, `n` is `atoi(argv[2])`, `argv4` is
`atoi(argv[4])`, `content` is what `src` holds after `readMatrix` and `junk0`
what the fresh `dest` holds. -/
def main {α : Type} (exceeds : α → α → Bool) (fuel : Nat) (method : String) (n argv4 : Int)
    (content junk0 junk1 junk2 : Nat → α) : Except Halt (Report α) :=
  let block_size := if method = "blocked" then argv4 else n
  match allocate (wrap32 (n * n)) content with
  | .error e => .error e
  | .ok src =>
    match allocate (wrap32 (n * n)) junk0 with
    | .error e => .error e
    | .ok dest =>
      match (if method = "blocked" then
            validate_results exceeds fuel n block_size junk1 junk2
              { src := src, dest := dest, trace := [] }
          else .ok { src := src, dest := dest, trace := [] }) with
      | .error e => .error e
      | .ok m1 =>
        match (if method = "blocked" then rotate_blocked fuel n block_size m1
               else rotate_naive fuel n m1) with
        | .error e => .error e
        | .ok m2 => .ok { status := 0, block_size := block_size, mem := m2 }

/-- The exit status of the process, when the run comes to an end by `return`
or `exit`. -/
def exitStatus {α : Type} : Except Halt (Report α) → Option Int
  | .ok r => some r.status
  | .error (.exit status) => some status
  | .error _ => none

/-- The loop `for (i = start; i < bound; i += step) body(i)` read with
mathematical integers: the index does not wrap. -/
def forLoop_unbounded {σ : Type} (bound step : Int) (body : Int → σ → Except Halt σ) :
    Nat → Int → σ → Except Halt σ
  | 0, i, s => if i < bound then .error .outOfFuel else .ok s
  | fuel + 1, i, s =>
    if i < bound then
      match body i s with
      | .ok s' => forLoop_unbounded bound step body fuel (i + step) s'
      | .error e => .error e
    else .ok s

/-- The loop nest of `rotate_naive` read with mathematical integers. -/
def rotate_naive_unbounded {α : Type} (fuel : Nat) (n : Int) (m : Mem α) :
    Except Halt (Mem α) :=
  forLoop_unbounded n 1 (fun i m =>
    forLoop_unbounded n 1 (fun j m => m.copy (j * n + i) ((n - 1 - i) * n + j)) fuel 0 m)
    fuel 0 m

/-- The loop nest of `rotate_blocked` read with mathematical integers. -/
def rotate_blocked_unbounded {α : Type} (fuel : Nat) (n B : Int) (m : Mem α) :
    Except Halt (Mem α) :=
  forLoop_unbounded n B (fun i m =>
    forLoop_unbounded n B (fun j m =>
      forLoop_unbounded (min (i + B) n) 1 (fun bi m =>
        forLoop_unbounded (min (j + B) n) 1 (fun bj m =>
          m.copy (bj * n + bi) ((n - 1 - bi) * n + bj)) fuel j m) fuel i m) fuel 0 m) fuel 0 m

/-- The body of `validate_results` read with mathematical integers: buffers of
`n * n` elements and a comparison loop up to `n * n`. -/
def validate_results_unbounded {α : Type} (exceeds : α → α → Bool) (fuel : Nat) (n B : Int)
    (junk1 junk2 : Nat → α) (m : Mem α) : Except Halt (Mem α) :=
  match rotate_naive_unbounded fuel n
      { src := m.src, dest := newBuffer (n * n) junk1, trace := [] } with
  | .error e => .error e
  | .ok mn =>
    match rotate_blocked_unbounded fuel n B
        { src := mn.src, dest := newBuffer (n * n) junk2, trace := [] } with
    | .error e => .error e
    | .ok mb =>
      match forLoop_unbounded (n * n) 1 (fun i _ =>
          match readAt mn.dest i, readAt mb.dest i with
          | some a, some b => if exceeds a b then .error (.exit 1) else .ok ()
          | _, _ => .error .outOfBounds) fuel 0 () with
      | .error e => .error e
      | .ok _ => .ok { src := mb.src, dest := m.dest, trace := m.trace }

/-- The two buffers fail the test of `validate_results` at index `i`. -/
def Mismatch {α : Type} (exceeds : α → α → Bool) (a b : List α) (i : Int) : Prop :=
  ∃ x y, readAt a i = some x ∧ readAt b i = some y ∧ exceeds x y = true

/-- State `m` is what state `m0` becomes once exactly the cells `(r, c)` of the
index square selected by `P` have been assigned: `src` is untouched, the
selected cells of `dest` hold the rotated values, all other cells of `dest`
are as before, and the trace has grown by one entry per selected cell. -/
structure RotOn {α : Type} (n : Int) (P : Int → Int → Prop) (m0 m : Mem α) : Prop where
  src_eq : m.src = m0.src
  len_eq : m.dest.length = m0.dest.length
  done : ∀ r c, 0 ≤ r → r < n → 0 ≤ c → c < n → P r c →
    readAt m.dest (c * n + r) = readAt m0.src ((n - 1 - r) * n + c)
  frame : ∀ k, (∀ r c, 0 ≤ r → r < n → 0 ≤ c → c < n → P r c → k ≠ c * n + r) →
    readAt m.dest k = readAt m0.dest k
  trace : ∃ t, m.trace = m0.trace ++ t ∧ t.Nodup ∧
    ∀ e, e ∈ t ↔ ∃ r c, 0 ≤ r ∧ r < n ∧ 0 ≤ c ∧ c < n ∧ P r c ∧
      e = (c * n + r, (n - 1 - r) * n + c)

/-! ## Buffers -/

section Buffers
variable {α : Type}

theorem readAt_of_lt (buf : List α) (i : Int) (h0 : 0 ≤ i) (h1 : i < (buf.length : Int)) :
    ∃ v, readAt buf i = some v := by
  have h : i.toNat < buf.length := by omega
  exact ⟨buf[i.toNat], by simp [readAt, h0, List.getElem?_eq_getElem h]⟩

theorem readAt_natCast (buf : List α) (k : Nat) : readAt buf (k : Int) = buf[k]? := by
  simp [readAt]

theorem writeAt_of_lt (buf : List α) (i : Int) (v : α) (h0 : 0 ≤ i)
    (h1 : i < (buf.length : Int)) : writeAt buf i v = some (buf.set i.toNat v) := by
  simp [writeAt, h0, h1]

theorem length_of_writeAt {buf d : List α} {i : Int} {v : α} (h : writeAt buf i v = some d) :
    d.length = buf.length := by
  unfold writeAt at h
  split at h
  · cases h; simp
  · cases h

theorem readAt_of_writeAt {buf d : List α} {i : Int} {v : α} (h : writeAt buf i v = some d)
    (k : Int) : readAt d k = if k = i then some v else readAt buf k := by
  unfold writeAt at h
  split at h
  · rename_i hi
    cases h
    by_cases hk : k = i
    · subst hk
      have : k.toNat < buf.length := by omega
      simp [readAt, hi.1, List.getElem?_set, this]
    · simp only [hk, if_false, readAt]
      by_cases hk0 : 0 ≤ k
      · have hne : i.toNat ≠ k.toNat := by omega
        simp [hk0, List.getElem?_set, hne]
      · simp [hk0]
  · cases h

theorem length_newBuffer (n : Int) (junk : Nat → α) :
    ((newBuffer (n * n) junk).length : Int) = n * n := by
  have := mul_self_nonneg n
  simp [newBuffer]
  omega

theorem Mem.copy_ok_frame {m m' : Mem α} {w r : Int} (h : m.copy w r = .ok m') :
    m'.src = m.src ∧ m'.dest.length = m.dest.length := by
  unfold Mem.copy at h
  split at h
  · cases h
  · split at h
    · cases h
    · rename_i d hd
      cases h
      exact ⟨rfl, length_of_writeAt hd⟩

theorem Mem.copy_error {m : Mem α} {w r : Int} {e : Halt} (h : m.copy w r = .error e) :
    e = .outOfBounds := by
  unfold Mem.copy at h
  split at h
  · cases h; rfl
  · split at h
    · cases h; rfl
    · cases h

/-- The indices `0, ..., N - 1` as integers are pairwise distinct. -/
theorem nodup_intRange (N : Nat) : ((List.range N).map (fun k : Nat => (k : Int))).Nodup :=
  List.Nodup.map (fun a b h => by simpa using h) (List.nodup_range N)

theorem mem_intRange (N : Nat) (x : Int) :
    x ∈ (List.range N).map (fun k : Nat => (k : Int)) ↔ (0 ≤ x ∧ x < (N : Int)) := by
  rw [List.mem_map]
  constructor
  · rintro ⟨k, hk, rfl⟩
    rw [List.mem_range] at hk
    omega
  · rintro ⟨h0, h1⟩
    exact ⟨x.toNat, List.mem_range.2 (by omega), by omega⟩

/-- Reading a buffer at every index in turn gives back its elements. -/
theorem map_readAt_intRange (buf : List α) :
    ((List.range buf.length).map (fun k : Nat => (k : Int))).map (readAt buf) = buf.map some := by
  apply List.ext_getElem?
  intro k
  by_cases hk : k < buf.length
  · simp [List.getElem?_range hk, readAt_natCast, List.getElem?_eq_getElem hk]
  · rw [List.getElem?_eq_none (by simpa using hk), List.getElem?_eq_none (by simpa using hk)]

end Buffers

/-! ## Lists -/

/-- An element of a list without duplicates occurs in it once. -/
theorem count_eq_one_of_nodup {β : Type} [BEq β] [LawfulBEq β] {a : β} {l : List β}
    (d : l.Nodup) (h : a ∈ l) : l.count a = 1 := by
  induction l with
  | nil => cases h
  | cons x xs ih =>
    rw [List.nodup_cons] at d
    rw [List.count_cons]
    by_cases hax : x = a
    · subst hax
      simp [List.count_eq_zero_of_not_mem d.1]
    · have hmem : a ∈ xs := by
        rcases List.mem_cons.1 h with h | h
        · exact absurd h.symm hax
        · exact h
      simp [ih d.2 hmem, hax]

/-! ## 32-bit integers -/

theorem wrap32_eq {x : Int} (h0 : -2147483648 ≤ x) (h1 : x < 2147483648) : wrap32 x = x := by
  unfold wrap32
  omega

/-- Up to `n = 46340` the square `n * n` fits in a signed 32-bit integer. -/
theorem square_fits {n : Int} (h0 : 0 ≤ n) (h1 : n ≤ 46340) : n * n ≤ 2147395600 := by
  have : n * n ≤ 46340 * 46340 := mul_le_mul h1 h1 h0 (by omega)
  omega

/-! ## Loops -/

section Loops
variable {σ : Type}

/-- Total-correctness rule for `forLoop_unbounded`: a positive step, an invariant kept by
every iteration and enough fuel give a normal exit in a state satisfying the
invariant at an index that is no longer below the bound. -/
theorem forLoop_unbounded_spec (I : Int → σ → Prop) (bound step lo : Int)
    (body : Int → σ → Except Halt σ) (hstep : 0 < step)
    (hbody : ∀ i s, lo ≤ i → i < bound → I i s → ∃ s', body i s = .ok s' ∧ I (i + step) s') :
    ∀ (fuel : Nat) (i : Int) (s : σ), lo ≤ i → bound - i ≤ (fuel : Int) → I i s →
      ∃ s' i', forLoop_unbounded bound step body fuel i s = .ok s' ∧ bound ≤ i' ∧ I i' s' := by
  intro fuel
  induction fuel with
  | zero =>
    intro i s _ hf hI
    have hnot : ¬ i < bound := by simp at hf; omega
    exact ⟨s, i, by simp [forLoop_unbounded, hnot], by omega, hI⟩
  | succ k ih =>
    intro i s hlo hf hI
    by_cases hlt : i < bound
    · obtain ⟨s1, hb, hI1⟩ := hbody i s hlo hlt hI
      obtain ⟨s2, i2, hrun, hge, hI2⟩ := ih (i + step) s1 (by omega) (by push_cast at hf; omega) hI1
      exact ⟨s2, i2, by simp [forLoop_unbounded, hlt, hb, hrun], hge, hI2⟩
    · exact ⟨s, i, by simp [forLoop_unbounded, hlt], by omega, hI⟩

/-- Partial-correctness rule: a property kept by every iteration that returns
normally holds after a loop that returns normally. -/
theorem forLoop_ok_inv (I : σ → Prop) (bound step : Int) (body : Int → σ → Except Halt σ)
    (hbody : ∀ i s s', I s → body i s = .ok s' → I s') :
    ∀ (fuel : Nat) (i : Int) (s s' : σ), I s →
      forLoop bound step body fuel i s = .ok s' → I s' := by
  intro fuel
  induction fuel with
  | zero =>
    intro i s s' hI h
    unfold forLoop at h
    split at h
    · cases h
    · cases h; exact hI
  | succ k ih =>
    intro i s s' hI h
    unfold forLoop at h
    split at h
    · split at h
      · rename_i s1 hb
        exact ih _ _ _ (hbody i s s1 hI hb) h
      · cases h
    · cases h; exact hI

/-- A loop stops abnormally only by running out of fuel or because its body
stopped abnormally. -/
theorem forLoop_error (E : Halt → Prop) (bound step : Int) (body : Int → σ → Except Halt σ)
    (hfuel : E .outOfFuel) (hbody : ∀ i s e, body i s = .error e → E e) :
    ∀ (fuel : Nat) (i : Int) (s : σ) (e : Halt),
      forLoop bound step body fuel i s = .error e → E e := by
  intro fuel
  induction fuel with
  | zero =>
    intro i s e h
    unfold forLoop at h
    split at h
    · cases h; exact hfuel
    · cases h
  | succ k ih =>
    intro i s e h
    unfold forLoop at h
    split at h
    · split at h
      · exact ih _ _ _ h
      · rename_i e1 hb
        cases h
        exact hbody i s _ hb
    · cases h

/-- More fuel does not change the result of a loop that returns: the same holds
with a body that returns whatever the first body returns. -/
theorem forLoop_unbounded_mono (bound step : Int) (body body' : Int → σ → Except Halt σ)
    (hbody : ∀ i s s', body i s = .ok s' → body' i s = .ok s') :
    ∀ (f f' : Nat) (i : Int) (s s' : σ), f ≤ f' →
      forLoop_unbounded bound step body f i s = .ok s' → forLoop_unbounded bound step body' f' i s = .ok s' := by
  intro f
  induction f with
  | zero =>
    intro f' i s s' _ h
    unfold forLoop_unbounded at h
    split at h
    · cases h
    · rename_i hnot
      cases h
      cases f' <;> simp [forLoop_unbounded, hnot]
  | succ k ih =>
    intro f' i s s' hle h
    obtain ⟨k', rfl⟩ : ∃ k', f' = k' + 1 := ⟨f' - 1, by omega⟩
    unfold forLoop_unbounded at h
    split at h
    · rename_i hlt
      split at h
      · rename_i s1 hb
        have := ih k' (i + step) s1 s' (by omega) h
        simp [forLoop_unbounded, hlt, hbody i s s1 hb, this]
      · cases h
    · rename_i hnot
      cases h
      simp [forLoop_unbounded, hnot]

/-- A loop with a positive step and at least `bound - i` units of fuel does not
run out of fuel unless its body does. -/
theorem forLoop_unbounded_no_timeout (bound step lo : Int) (body : Int → σ → Except Halt σ)
    (hstep : 0 < step)
    (hbody : ∀ i s, lo ≤ i → i < bound → body i s ≠ .error .outOfFuel) :
    ∀ (fuel : Nat) (i : Int) (s : σ), lo ≤ i → bound - i ≤ (fuel : Int) →
      forLoop_unbounded bound step body fuel i s ≠ .error .outOfFuel := by
  intro fuel
  induction fuel with
  | zero =>
    intro i s _ hf
    have hnot : ¬ i < bound := by simp at hf; omega
    simp [forLoop_unbounded, hnot]
  | succ k ih =>
    intro i s hlo hf
    by_cases hlt : i < bound
    · unfold forLoop_unbounded
      rw [if_pos hlt]
      split
      · exact ih _ _ (by omega) (by push_cast at hf; omega)
      · rename_i e hb
        intro h
        cases h
        exact hbody i s hlo hlt hb
    · simp [forLoop_unbounded, hlt]

/-- A loop whose step is zero and whose body returns the state unchanged never
leaves its first index: below the bound, no amount of fuel is enough. -/
theorem forLoop_stuck (bound : Int) (body : Int → σ → Except Halt σ) (i : Int) (s : σ)
    (hlt : i < bound) (hw : wrap32 (i + 0) = i) (hbody : body i s = .ok s) :
    ∀ fuel : Nat, forLoop bound 0 body fuel i s = .error .outOfFuel := by
  intro fuel
  induction fuel with
  | zero => simp [forLoop, hlt]
  | succ k ih => simp only [forLoop, hlt, if_true, hbody, hw, ih]

/-- Under the hypotheses of `forLoop_stuck`, any number `k` of executions of
the body leaves the loop at the same index in the same state. -/
theorem forLoop_stuck_steps (bound : Int) (body : Int → σ → Except Halt σ) (i : Int) (s : σ)
    (hlt : i < bound) (hw : wrap32 (i + 0) = i) (hbody : body i s = .ok s) :
    ∀ k fuel : Nat, forLoop bound 0 body (k + fuel) i s = forLoop bound 0 body fuel i s := by
  intro k
  induction k with
  | zero => intro fuel; simp
  | succ k ih =>
    intro fuel
    have : k + 1 + fuel = (k + fuel) + 1 := by omega
    rw [this]
    show forLoop bound 0 body ((k + fuel) + 1) i s = _
    rw [← ih fuel]
    simp only [forLoop, hlt, if_true, hbody, hw]

/-- A loop whose index stays within the 32-bit range is the same with a 32-bit
index as with an unbounded one. `P` is a property of the indices the loop
goes through. -/
theorem forLoop_eq (P : Int → Prop) (bound step lo : Int)
    (body32 body : Int → σ → Except Halt σ)
    (hstep : 0 ≤ step) (hlo : -2147483648 ≤ lo)
    (hnext : ∀ i, lo ≤ i → i < bound → P i → i + step < 2147483648 ∧ P (i + step))
    (hbody : ∀ i s, lo ≤ i → i < bound → P i → body32 i s = body i s) :
    ∀ (fuel : Nat) (i : Int) (s : σ), lo ≤ i → P i →
      forLoop bound step body32 fuel i s = forLoop_unbounded bound step body fuel i s := by
  intro fuel
  induction fuel with
  | zero => intro i s _ _; simp [forLoop, forLoop_unbounded]
  | succ k ih =>
    intro i s hi hP
    by_cases hlt : i < bound
    · obtain ⟨hn1, hn2⟩ := hnext i hi hlt hP
      have hw : wrap32 (i + step) = i + step := wrap32_eq (by omega) hn1
      unfold forLoop forLoop_unbounded
      rw [if_pos hlt, if_pos hlt, hbody i s hi hlt hP, hw]
      split
      · exact ih _ _ (by omega) hn2
      · rfl
    · simp [forLoop, forLoop_unbounded, hlt]

/-- A loop with step one that would reach an index `k` below its bound at
which the body fails in every state never returns normally. -/
theorem forLoop_never_ok (bound k : Int) (body : Int → σ → Except Halt σ)
    (hk : k < bound) (hk' : k < 2147483647)
    (hfail : ∀ s s', body k s ≠ .ok s') :
    ∀ (fuel : Nat) (i : Int) (s s' : σ), -2147483648 ≤ i → i ≤ k →
      forLoop bound 1 body fuel i s ≠ .ok s' := by
  intro fuel
  induction fuel with
  | zero =>
    intro i s s' _ hi
    have : i < bound := by omega
    simp [forLoop, this]
  | succ f ih =>
    intro i s s' hlo hi
    have hlt : i < bound := by omega
    unfold forLoop
    rw [if_pos hlt]
    split
    · rename_i s1 hb
      have hne : i ≠ k := by
        rintro rfl
        exact hfail _ _ hb
      have hw : wrap32 (i + 1) = i + 1 := wrap32_eq (by omega) (by omega)
      rw [hw]
      exact ih _ _ _ (by omega) (by omega)
    · intro h; cases h

/-- A loop whose first iteration never returns normally never returns
normally. -/
theorem forLoop_first_never_ok (bound step i : Int) (body : Int → σ → Except Halt σ)
    (s : σ) (hlt : i < bound) (hfail : ∀ s', body i s ≠ .ok s') :
    ∀ (fuel : Nat) (s' : σ), forLoop bound step body fuel i s ≠ .ok s' := by
  intro fuel s'
  cases fuel with
  | zero => simp [forLoop, hlt]
  | succ f =>
    unfold forLoop
    rw [if_pos hlt]
    split
    · rename_i s1 hb
      exact absurd hb (hfail s1)
    · intro h; cases h

end Loops

/-! ## Row-major index arithmetic -/

theorem idx_nonneg {n r c : Int} (hr : 0 ≤ r) (hc : 0 ≤ c) (hn : 0 < n) : 0 ≤ c * n + r := by
  have := mul_nonneg hc hn.le
  omega

theorem idx_lt {n r c : Int} (hr : r < n) (hc : c < n) (hn : 0 < n) : c * n + r < n * n := by
  have h : (c + 1) * n ≤ n * n := mul_le_mul_of_nonneg_right (by omega) hn.le
  have h2 : (c + 1) * n = c * n + n := by ring
  omega

theorem idx_inj {n r c r' c' : Int} (hr : 0 ≤ r) (hr1 : r < n) (hr' : 0 ≤ r') (hr1' : r' < n)
    (h : c * n + r = c' * n + r') : r = r' ∧ c = c' := by
  have hn : 0 < n := by omega
  rcases lt_trichotomy c c' with hlt | heq | hgt
  · exfalso
    have h1 : (c + 1) * n ≤ c' * n := mul_le_mul_of_nonneg_right (by omega) hn.le
    have h2 : (c + 1) * n = c * n + n := by ring
    omega
  · subst heq
    exact ⟨by omega, rfl⟩
  · exfalso
    have h1 : (c' + 1) * n ≤ c * n := mul_le_mul_of_nonneg_right (by omega) hn.le
    have h2 : (c' + 1) * n = c' * n + n := by ring
    omega

/-- The cell is recovered from its destination index. -/
theorem idx_decode {n r c : Int} (hr : 0 ≤ r) (hr1 : r < n) :
    (c * n + r) % n = r ∧ (c * n + r) / n = c := by
  have hn : n ≠ 0 := by omega
  constructor
  · rw [add_comm, Int.add_mul_emod_self, Int.emod_eq_of_lt hr hr1]
  · rw [add_comm, Int.add_mul_ediv_right _ _ hn, Int.ediv_eq_zero_of_lt hr hr1, zero_add]

/-- One-dimensional tiling: every index below `n` lies in exactly one of the
intervals `[a * B, min (a * B + B) n)` whose origin `a * B` is below `n`. -/
theorem tile_unique {n B x : Int} (hB : 1 ≤ B) (hx : 0 ≤ x) (hx1 : x < n) :
    ∃ a, (0 ≤ a ∧ a * B < n ∧ a * B ≤ x ∧ x < min (a * B + B) n) ∧
      ∀ a', (0 ≤ a' ∧ a' * B < n ∧ a' * B ≤ x ∧ x < min (a' * B + B) n) → a' = a := by
  have hB0 : 0 < B := by omega
  have h1 := Int.ediv_add_emod x B
  have h2 := Int.emod_nonneg x (by omega : B ≠ 0)
  have h3 := Int.emod_lt_of_pos x hB0
  have h4 : 0 ≤ x / B := Int.ediv_nonneg hx hB0.le
  have h5 : x / B * B = B * (x / B) := mul_comm _ _
  refine ⟨x / B, ⟨h4, by omega, by omega, by omega⟩, ?_⟩
  rintro a' ⟨_, _, hle, hlt⟩
  have hlt' : x < a' * B + B := lt_of_lt_of_le hlt (min_le_left _ _)
  rcases lt_trichotomy a' (x / B) with h | h | h
  · exfalso
    have h6 : (a' + 1) * B ≤ x / B * B := mul_le_mul_of_nonneg_right (by omega) hB0.le
    have h7 : (a' + 1) * B = a' * B + B := by ring
    omega
  · exact h
  · exfalso
    have h6 : (x / B + 1) * B ≤ a' * B := mul_le_mul_of_nonneg_right (by omega) hB0.le
    have h7 : (x / B + 1) * B = x / B * B + B := by ring
    omega

/-- Every offset below `n * n` splits into a column below `n` and a row below
`n`. -/
theorem offset_split {n d : Int} (hn : 0 < n) (h0 : 0 ≤ d) (h1 : d < n * n) :
    (0 ≤ d % n ∧ d % n < n) ∧ (0 ≤ d / n ∧ d / n < n) ∧ d / n * n + d % n = d :=
  ⟨⟨Int.emod_nonneg _ (by omega), Int.emod_lt_of_pos _ hn⟩,
    ⟨Int.ediv_nonneg h0 hn.le, Int.ediv_lt_of_lt_mul hn h1⟩,
    by rw [mul_comm]; exact Int.ediv_add_emod _ _⟩

/-- Source index of the cell whose row is `r` and column is `c` in loop
coordinates is in range. -/
theorem srcIdx_range {n r c : Int} (hr : 0 ≤ r) (hr1 : r < n) (hc : 0 ≤ c) (hc1 : c < n) :
    0 ≤ (n - 1 - r) * n + c ∧ (n - 1 - r) * n + c < n * n := by
  have hn : 0 < n := by omega
  exact ⟨idx_nonneg hc (by omega) hn, idx_lt hc1 (by omega) hn⟩

/-- The map taking the source offset `(n - 1 - i) * n + j` to the destination
offset `j * n + i`, written as a function of the source offset, is a bijection
of `[0, n * n)` onto itself. -/
theorem index_map_bijOn {n : Int} (hn : 0 < n) :
    (∀ i j, 0 ≤ i → i < n → 0 ≤ j → j < n →
      (fun s : Int => s % n * n + (n - 1 - s / n)) ((n - 1 - i) * n + j) = j * n + i) ∧
    Set.BijOn (fun s : Int => s % n * n + (n - 1 - s / n))
      (Set.Ico 0 (n * n)) (Set.Ico 0 (n * n)) := by
  refine ⟨?_, ?_, ?_, ?_⟩
  · intro i j _ _ hj hj1
    obtain ⟨e1, e2⟩ := idx_decode (c := n - 1 - i) hj hj1
    simp only [e1, e2]
    congr 1
    omega
  · intro s hs
    obtain ⟨⟨a1, a2⟩, ⟨b1, b2⟩, _⟩ := offset_split hn hs.1 hs.2
    exact ⟨idx_nonneg (by omega) a1 hn, idx_lt (by omega) a2 hn⟩
  · intro s hs s' hs' heq
    obtain ⟨⟨_, _⟩, ⟨b1, b2⟩, c1⟩ := offset_split hn hs.1 hs.2
    obtain ⟨⟨_, _⟩, ⟨b1', b2'⟩, c1'⟩ := offset_split hn hs'.1 hs'.2
    have r0 : 0 ≤ n - 1 - s / n := by omega
    have r1 : n - 1 - s / n < n := by omega
    have r0' : 0 ≤ n - 1 - s' / n := by omega
    have r1' : n - 1 - s' / n < n := by omega
    have heq' : s % n * n + (n - 1 - s / n) = s' % n * n + (n - 1 - s' / n) := heq
    obtain ⟨h1, h2⟩ := idx_inj r0 r1 r0' r1' heq'
    have h3 : s / n = s' / n := by omega
    rw [← c1, ← c1', h2, h3]
  · intro d hd
    obtain ⟨⟨a1, a2⟩, ⟨b1, b2⟩, c1⟩ := offset_split hn hd.1 hd.2
    have hr := srcIdx_range a1 a2 b1 b2
    refine ⟨(n - 1 - d % n) * n + d / n, ⟨hr.1, hr.2⟩, ?_⟩
    obtain ⟨e1, e2⟩ := idx_decode (c := n - 1 - d % n) b1 b2
    simp only [e1, e2]
    have : n - 1 - (n - 1 - d % n) = d % n := by omega
    rw [this, c1]

/-! ## The invariant shared by the two rotators -/

section Invariant
variable {α : Type}

theorem RotOn.congr {n : Int} {P Q : Int → Int → Prop} {m0 m : Mem α}
    (hPQ : ∀ r c, 0 ≤ r → r < n → 0 ≤ c → c < n → (P r c ↔ Q r c))
    (h : RotOn n P m0 m) : RotOn n Q m0 m where
  src_eq := h.src_eq
  len_eq := h.len_eq
  done := fun r c h1 h2 h3 h4 hq => h.done r c h1 h2 h3 h4 ((hPQ r c h1 h2 h3 h4).2 hq)
  frame := fun k hk => h.frame k (fun r c h1 h2 h3 h4 hp =>
    hk r c h1 h2 h3 h4 ((hPQ r c h1 h2 h3 h4).1 hp))
  trace := by
    obtain ⟨t, ht, hnd, hmem⟩ := h.trace
    refine ⟨t, ht, hnd, fun e => ?_⟩
    rw [hmem e]
    constructor
    · rintro ⟨r, c, h1, h2, h3, h4, hp, he⟩
      exact ⟨r, c, h1, h2, h3, h4, (hPQ r c h1 h2 h3 h4).1 hp, he⟩
    · rintro ⟨r, c, h1, h2, h3, h4, hq, he⟩
      exact ⟨r, c, h1, h2, h3, h4, (hPQ r c h1 h2 h3 h4).2 hq, he⟩

theorem RotOn.init {n : Int} {P : Int → Int → Prop} (m0 : Mem α)
    (hP : ∀ r c, 0 ≤ r → r < n → 0 ≤ c → c < n → ¬ P r c) : RotOn n P m0 m0 where
  src_eq := rfl
  len_eq := rfl
  done := fun r c h1 h2 h3 h4 hp => absurd hp (hP r c h1 h2 h3 h4)
  frame := fun _ _ => rfl
  trace := by
    refine ⟨[], by simp, List.nodup_nil, fun e => ?_⟩
    constructor
    · intro he; cases he
    · rintro ⟨r, c, h1, h2, h3, h4, hp, _⟩
      exact absurd hp (hP r c h1 h2 h3 h4)

/-- One execution of the assignment `dest[j * n + i] = src[(n - 1 - i) * n + j]`
at a cell that has not been assigned yet. -/
theorem RotOn.copy {n : Int} {P : Int → Int → Prop} {m0 m : Mem α} (h : RotOn n P m0 m)
    (hs : (m0.src.length : Int) = n * n) (hd : (m0.dest.length : Int) = n * n)
    {i j : Int} (hi : 0 ≤ i) (hi1 : i < n) (hj : 0 ≤ j) (hj1 : j < n) (hnew : ¬ P i j) :
    ∃ m', m.copy (j * n + i) ((n - 1 - i) * n + j) = .ok m' ∧
      RotOn n (fun r c => P r c ∨ (r = i ∧ c = j)) m0 m' := by
  have hn : 0 < n := by omega
  have hsr := srcIdx_range hi hi1 hj hj1
  obtain ⟨v, hv⟩ := readAt_of_lt m.src ((n - 1 - i) * n + j) hsr.1
    (by rw [h.src_eq, hs]; exact hsr.2)
  have hw0 : 0 ≤ j * n + i := idx_nonneg hi hj hn
  have hw1 : j * n + i < (m.dest.length : Int) := by
    rw [h.len_eq, hd]; exact idx_lt hi1 hj1 hn
  have hw := writeAt_of_lt m.dest (j * n + i) v hw0 hw1
  refine ⟨{ src := m.src, dest := m.dest.set (j * n + i).toNat v,
            trace := m.trace ++ [(j * n + i, (n - 1 - i) * n + j)] }, ?_, ?_⟩
  · simp [Mem.copy, hv, hw]
  · refine ⟨h.src_eq, by simpa using h.len_eq, ?_, ?_, ?_⟩
    · intro r c h1 h2 h3 h4 hp
      show readAt (m.dest.set (j * n + i).toNat v) (c * n + r) = _
      rw [readAt_of_writeAt hw]
      by_cases hk : c * n + r = j * n + i
      · obtain ⟨hr, hc⟩ := idx_inj h1 h2 hi hi1 hk
        subst hr; subst hc
        rw [if_pos rfl, ← hv, h.src_eq]
      · rw [if_neg hk]
        rcases hp with hp | ⟨hr, hc⟩
        · exact h.done r c h1 h2 h3 h4 hp
        · exact absurd (by rw [hr, hc]) hk
    · intro k hk
      show readAt (m.dest.set (j * n + i).toNat v) k = _
      rw [readAt_of_writeAt hw]
      have hne : k ≠ j * n + i := hk i j hi hi1 hj hj1 (Or.inr ⟨rfl, rfl⟩)
      rw [if_neg hne]
      exact h.frame k (fun r c h1 h2 h3 h4 hp => hk r c h1 h2 h3 h4 (Or.inl hp))
    · obtain ⟨t, ht, hnd, hmem⟩ := h.trace
      refine ⟨t ++ [(j * n + i, (n - 1 - i) * n + j)], ?_, ?_, ?_⟩
      · show m.trace ++ _ = _
        rw [ht, List.append_assoc]
      · refine List.Nodup.append hnd (List.nodup_singleton _) ?_
        intro e he he'
        rw [List.mem_singleton] at he'
        subst he'
        obtain ⟨r, c, h1, h2, _, _, hp, he⟩ := (hmem _).1 he
        have hk : j * n + i = c * n + r := congrArg Prod.fst he
        obtain ⟨hr, hc⟩ := idx_inj hi hi1 h1 h2 hk
        subst hr; subst hc
        exact hnew hp
      · intro e
        rw [List.mem_append, List.mem_singleton, hmem e]
        constructor
        · rintro (⟨r, c, h1, h2, h3, h4, hp, he⟩ | he)
          · exact ⟨r, c, h1, h2, h3, h4, Or.inl hp, he⟩
          · exact ⟨i, j, hi, hi1, hj, hj1, Or.inr ⟨rfl, rfl⟩, he⟩
        · rintro ⟨r, c, h1, h2, h3, h4, hp | ⟨hr, hc⟩, he⟩
          · exact Or.inl ⟨r, c, h1, h2, h3, h4, hp, he⟩
          · subst hr; subst hc
            exact Or.inr he

/-- With enough fuel and buffers of `n * n` elements `rotate_naive_unbounded` returns
normally, having assigned every cell of the index square. -/
theorem rotate_naive_unbounded_spec (n : Int) (fuel : Nat) (m0 : Mem α) (_hn : 0 < n)
    (hfuel : n ≤ (fuel : Int)) (hs : (m0.src.length : Int) = n * n)
    (hd : (m0.dest.length : Int) = n * n) :
    ∃ m, rotate_naive_unbounded fuel n m0 = .ok m ∧ RotOn n (fun _ _ => True) m0 m := by
  unfold rotate_naive_unbounded
  obtain ⟨m, i', hrun, hge, hI⟩ :=
    forLoop_unbounded_spec (fun i m => RotOn n (fun r _ => r < i) m0 m) n 1 0 _ (by omega)
      (by
        intro i m hi0 hi1 hI
        obtain ⟨m1, j', hrun, hge, hJ⟩ :=
          forLoop_unbounded_spec (fun j m' => RotOn n (fun r c => r < i ∨ (r = i ∧ c < j)) m0 m') n 1 0
            (fun j m => m.copy (j * n + i) ((n - 1 - i) * n + j)) (by omega)
            (by
              intro j m' hj0 hj1 hJ
              obtain ⟨m2, hc, hR⟩ := hJ.copy hs hd hi0 hi1 hj0 hj1 (by omega)
              exact ⟨m2, hc, hR.congr (by intro r c _ _ _ _; omega)⟩)
            fuel 0 m le_rfl (by omega) (hI.congr (by intro r c _ _ _ _; omega))
        exact ⟨m1, hrun, hJ.congr (by intro r c _ _ _ _; omega)⟩)
      fuel 0 m0 le_rfl (by omega) (RotOn.init m0 (by intro r c _ _ _ _; omega))
  exact ⟨m, hrun, hI.congr (by intro r c _ _ _ _; simp only [iff_true]; omega)⟩

/-- With enough fuel, a block size of at least one and buffers of `n * n`
elements `rotate_blocked_unbounded` returns normally, having assigned every cell of the
index square. -/
theorem rotate_blocked_unbounded_spec (n B : Int) (fuel : Nat) (m0 : Mem α) (_hn : 0 < n) (hB : 1 ≤ B)
    (hfuel : n ≤ (fuel : Int)) (hs : (m0.src.length : Int) = n * n)
    (hd : (m0.dest.length : Int) = n * n) :
    ∃ m, rotate_blocked_unbounded fuel n B m0 = .ok m ∧ RotOn n (fun _ _ => True) m0 m := by
  unfold rotate_blocked_unbounded
  obtain ⟨m, i', hrun, hge, hI⟩ :=
    forLoop_unbounded_spec (fun i m => RotOn n (fun r _ => r < i) m0 m) n B 0 _ (by omega)
      (by
        intro i m hi0 hi1 hI
        obtain ⟨m1, j', hrun, hge, hJ⟩ :=
          forLoop_unbounded_spec (fun j m' => RotOn n (fun r c => r < i ∨ (r < i + B ∧ c < j)) m0 m')
            n B 0 _ (by omega)
            (by
              intro j m' hj0 hj1 hJ
              obtain ⟨m2, bi', hrun, hge, hle, hK⟩ :=
                forLoop_unbounded_spec
                  (fun bi m'' => bi ≤ min (i + B) n ∧ RotOn n
                    (fun r c => r < i ∨ (r < i + B ∧ c < j) ∨ (r < bi ∧ c < j + B)) m0 m'')
                  (min (i + B) n) 1 i _ (by omega)
                  (by
                    intro bi m'' hbi0 hbi1 hK
                    obtain ⟨m3, bj', hrun, hge, hle, hL⟩ :=
                      forLoop_unbounded_spec
                        (fun bj m3 => bj ≤ min (j + B) n ∧ RotOn n
                          (fun r c => r < i ∨ (r < i + B ∧ c < j) ∨ (r < bi ∧ c < j + B) ∨
                            (r = bi ∧ c < bj)) m0 m3)
                        (min (j + B) n) 1 j
                        (fun bj m => m.copy (bj * n + bi) ((n - 1 - bi) * n + bj)) (by omega)
                        (by
                          intro bj m3 hbj0 hbj1 hL
                          have h1 : 0 ≤ bi := by omega
                          have h2 : bi < n := by omega
                          have h3 : 0 ≤ bj := by omega
                          have h4 : bj < n := by omega
                          obtain ⟨m4, hc, hR⟩ := hL.2.copy hs hd h1 h2 h3 h4 (by omega)
                          exact ⟨m4, hc, by omega,
                            hR.congr (by intro r c _ _ _ _; omega)⟩)
                        fuel j m'' le_rfl (by omega)
                        ⟨by omega, hK.2.congr (by intro r c _ _ _ _; omega)⟩
                    exact ⟨m3, hrun, by omega, hL.congr (by intro r c _ _ _ _; omega)⟩)
                  fuel i m' le_rfl (by omega)
                  ⟨by omega, hJ.congr (by intro r c _ _ _ _; omega)⟩
              exact ⟨m2, hrun, hK.congr (by intro r c _ _ _ _; omega)⟩)
            fuel 0 m le_rfl (by omega) (hI.congr (by intro r c _ _ _ _; omega))
        exact ⟨m1, hrun, hJ.congr (by intro r c _ _ _ _; omega)⟩)
      fuel 0 m0 le_rfl (by omega) (RotOn.init m0 (by intro r c _ _ _ _; omega))
  exact ⟨m, hrun, hI.congr (by intro r c _ _ _ _; simp only [iff_true]; omega)⟩

/-- A buffer of `n * n` elements is determined by its cells `c * n + r`. -/
theorem buffer_ext {n : Int} (hn : 0 < n) {d1 d2 : List α}
    (h1 : (d1.length : Int) = n * n) (h2 : (d2.length : Int) = n * n)
    (h : ∀ r c, 0 ≤ r → r < n → 0 ≤ c → c < n → readAt d1 (c * n + r) = readAt d2 (c * n + r)) :
    d1 = d2 := by
  apply List.ext_getElem?
  intro k
  by_cases hk : k < d1.length
  · have hkn : (k : Int) < n * n := by omega
    have hr0 : 0 ≤ (k : Int) % n := Int.emod_nonneg _ (by omega)
    have hr1 : (k : Int) % n < n := Int.emod_lt_of_pos _ hn
    have hc0 : 0 ≤ (k : Int) / n := Int.ediv_nonneg (by omega) hn.le
    have hc1 : (k : Int) / n < n := Int.ediv_lt_of_lt_mul hn hkn
    have hdecomp : (k : Int) / n * n + (k : Int) % n = k := by
      rw [mul_comm]; exact Int.ediv_add_emod _ _
    have := h _ _ hr0 hr1 hc0 hc1
    rw [hdecomp, readAt_natCast, readAt_natCast] at this
    exact this
  · have hk2 : ¬ k < d2.length := by omega
    rw [List.getElem?_eq_none (by omega), List.getElem?_eq_none (by omega)]

/-- Reading an assigned cell: the value is present and is the source value. -/
theorem RotOn.read {n : Int} {m0 m : Mem α} (h : RotOn n (fun _ _ => True) m0 m)
    (hs : (m0.src.length : Int) = n * n) {r c : Int} (hr : 0 ≤ r) (hr1 : r < n) (hc : 0 ≤ c)
    (hc1 : c < n) :
    ∃ v, readAt m0.src ((n - 1 - r) * n + c) = some v ∧ readAt m.dest (c * n + r) = some v := by
  have hsr := srcIdx_range hr hr1 hc hc1
  obtain ⟨v, hv⟩ := readAt_of_lt m0.src _ hsr.1 (by rw [hs]; exact hsr.2)
  exact ⟨v, hv, by rw [h.done r c hr hr1 hc hc1 trivial, hv]⟩

/-- Two complete rotations of the same source give the same destination. -/
theorem RotOn.dest_eq {n : Int} (hn : 0 < n) {m0 m0' m m' : Mem α}
    (h : RotOn n (fun _ _ => True) m0 m) (h' : RotOn n (fun _ _ => True) m0' m')
    (hsrc : m0'.src = m0.src) (hd : (m0.dest.length : Int) = n * n)
    (hd' : (m0'.dest.length : Int) = n * n) : m'.dest = m.dest := by
  refine buffer_ext hn (by rw [h'.len_eq]; exact hd') (by rw [h.len_eq]; exact hd) ?_
  intro r c h1 h2 h3 h4
  rw [h.done r c h1 h2 h3 h4 trivial, h'.done r c h1 h2 h3 h4 trivial, hsrc]

/-- Every access of a complete rotation that started with an empty trace is
inside a buffer of `n * n` elements. -/
theorem RotOn.trace_range {n : Int} {m0 m : Mem α} (h : RotOn n (fun _ _ => True) m0 m)
    (ht : m0.trace = []) (e : Int × Int) (he : e ∈ m.trace) :
    (0 ≤ e.1 ∧ e.1 < n * n) ∧ (0 ≤ e.2 ∧ e.2 < n * n) := by
  obtain ⟨t, htr, _, hmem⟩ := h.trace
  rw [htr, ht, List.nil_append] at he
  obtain ⟨r, c, h1, h2, h3, h4, _, rfl⟩ := (hmem e).1 he
  have hn : 0 < n := by omega
  exact ⟨⟨idx_nonneg h1 h3 hn, idx_lt h2 h4 hn⟩, srcIdx_range h1 h2 h3 h4⟩

/-- Four complete rotations in a row, each reading the previous destination,
give back the first source. -/
theorem RotOn.four {n : Int} (hn : 0 < n) {a0 a1 b0 b1 c0 c1 d0 d1 : Mem α}
    (ha : RotOn n (fun _ _ => True) a0 a1) (hb : RotOn n (fun _ _ => True) b0 b1)
    (hc : RotOn n (fun _ _ => True) c0 c1) (hd : RotOn n (fun _ _ => True) d0 d1)
    (hab : b0.src = a1.dest) (hbc : c0.src = b1.dest) (hcd : d0.src = c1.dest)
    (hlen : (a0.src.length : Int) = n * n) (hlen' : (d0.dest.length : Int) = n * n) :
    d1.dest = a0.src := by
  refine buffer_ext hn (by rw [hd.len_eq]; exact hlen') hlen ?_
  intro r c h1 h2 h3 h4
  have e4 := hd.done r c h1 h2 h3 h4 trivial
  have e3 := hc.done c (n - 1 - r) h3 h4 (by omega) (by omega) trivial
  have e2 := hb.done (n - 1 - r) (n - 1 - c) (by omega) (by omega) (by omega) (by omega) trivial
  have e1 := ha.done (n - 1 - c) r (by omega) (by omega) h1 h2 trivial
  have i1 : (n - 1 - (n - 1 - r)) * n + (n - 1 - c) = r * n + (n - 1 - c) := by
    have : n - 1 - (n - 1 - r) = r := by omega
    rw [this]
  have i0 : (n - 1 - (n - 1 - c)) * n + r = c * n + r := by
    have : n - 1 - (n - 1 - c) = c := by omega
    rw [this]
  rw [e4, hcd, e3, hbc, e2, i1, hab, e1, i0]

/-- Whenever `rotate_naive` returns, `src` is what it was and `dest` has kept
its length. -/
theorem rotate_naive_frame {fuel : Nat} {n : Int} {m m' : Mem α}
    (h : rotate_naive fuel n m = .ok m') :
    m'.src = m.src ∧ m'.dest.length = m.dest.length := by
  refine forLoop_ok_inv (fun s => s.src = m.src ∧ s.dest.length = m.dest.length) _ _ _ ?_
    fuel 0 m m' ⟨rfl, rfl⟩ h
  intro i s s' hI hrun
  refine forLoop_ok_inv (fun s => s.src = m.src ∧ s.dest.length = m.dest.length) _ _ _ ?_
    fuel 0 s s' hI hrun
  intro j t t' hJ hc
  obtain ⟨h1, h2⟩ := Mem.copy_ok_frame hc
  exact ⟨h1.trans hJ.1, h2.trans hJ.2⟩

/-- Whenever `rotate_blocked` returns, `src` is what it was and `dest` has kept
its length. -/
theorem rotate_blocked_frame {fuel : Nat} {n B : Int} {m m' : Mem α}
    (h : rotate_blocked fuel n B m = .ok m') :
    m'.src = m.src ∧ m'.dest.length = m.dest.length := by
  refine forLoop_ok_inv (fun s => s.src = m.src ∧ s.dest.length = m.dest.length) _ _ _ ?_
    fuel 0 m m' ⟨rfl, rfl⟩ h
  intro i s s' hI hrun
  refine forLoop_ok_inv (fun s => s.src = m.src ∧ s.dest.length = m.dest.length) _ _ _ ?_
    fuel 0 s s' hI hrun
  intro j s s' hI hrun
  refine forLoop_ok_inv (fun s => s.src = m.src ∧ s.dest.length = m.dest.length) _ _ _ ?_
    fuel i s s' hI hrun
  intro bi s s' hI hrun
  refine forLoop_ok_inv (fun s => s.src = m.src ∧ s.dest.length = m.dest.length) _ _ _ ?_
    fuel j s s' hI hrun
  intro bj t t' hJ hc
  obtain ⟨h1, h2⟩ := Mem.copy_ok_frame hc
  exact ⟨h1.trans hJ.1, h2.trans hJ.2⟩

/-- The naive rotator never calls `exit`. -/
theorem rotate_naive_error {fuel : Nat} {n : Int} {m : Mem α} {e : Halt}
    (h : rotate_naive fuel n m = .error e) : e = .outOfFuel ∨ e = .outOfBounds := by
  refine forLoop_error (fun e => e = .outOfFuel ∨ e = .outOfBounds) _ _ _ (Or.inl rfl) ?_
    fuel 0 m e h
  intro i s e hrun
  refine forLoop_error (fun e => e = .outOfFuel ∨ e = .outOfBounds) _ _ _ (Or.inl rfl) ?_
    fuel 0 s e hrun
  intro j t e hc
  exact Or.inr (Mem.copy_error hc)

/-- The blocked rotator never calls `exit`. -/
theorem rotate_blocked_error {fuel : Nat} {n B : Int} {m : Mem α} {e : Halt}
    (h : rotate_blocked fuel n B m = .error e) : e = .outOfFuel ∨ e = .outOfBounds := by
  refine forLoop_error (fun e => e = .outOfFuel ∨ e = .outOfBounds) _ _ _ (Or.inl rfl) ?_
    fuel 0 m e h
  intro i s e hrun
  refine forLoop_error (fun e => e = .outOfFuel ∨ e = .outOfBounds) _ _ _ (Or.inl rfl) ?_
    fuel 0 s e hrun
  intro j s e hrun
  refine forLoop_error (fun e => e = .outOfFuel ∨ e = .outOfBounds) _ _ _ (Or.inl rfl) ?_
    fuel i s e hrun
  intro bi s e hrun
  refine forLoop_error (fun e => e = .outOfFuel ∨ e = .outOfBounds) _ _ _ (Or.inl rfl) ?_
    fuel j s e hrun
  intro bj t e hc
  exact Or.inr (Mem.copy_error hc)

/-- The accesses of a complete rotation that started with an empty trace are
exactly the assignments of the index square. -/
theorem RotOn.mem_trace {n : Int} {m0 m : Mem α} (h : RotOn n (fun _ _ => True) m0 m)
    (ht : m0.trace = []) (e : Int × Int) :
    e ∈ m.trace ↔ ∃ r c, 0 ≤ r ∧ r < n ∧ 0 ≤ c ∧ c < n ∧
      e = (c * n + r, (n - 1 - r) * n + c) := by
  obtain ⟨t, htr, _, hmem⟩ := h.trace
  rw [htr, ht, List.nil_append, hmem e]
  constructor
  · rintro ⟨r, c, h1, h2, h3, h4, _, he⟩
    exact ⟨r, c, h1, h2, h3, h4, he⟩
  · rintro ⟨r, c, h1, h2, h3, h4, he⟩
    exact ⟨r, c, h1, h2, h3, h4, trivial, he⟩

/-- Four runs in a row of a routine that completes the rotation, each reading
the previous destination, return the first source. -/
theorem four_rotations (n : Int) (hn : 0 < n) (rot : Mem α → Except Halt (Mem α))
    (hrot : ∀ m0 : Mem α, (m0.src.length : Int) = n * n → (m0.dest.length : Int) = n * n →
      ∃ m, rot m0 = .ok m ∧ RotOn n (fun _ _ => True) m0 m)
    (M d1 d2 d3 d4 : List α) (hM : (M.length : Int) = n * n)
    (h1 : (d1.length : Int) = n * n) (h2 : (d2.length : Int) = n * n)
    (h3 : (d3.length : Int) = n * n) (h4 : (d4.length : Int) = n * n) :
    ∃ m1 m2 m3 m4,
      rot { src := M, dest := d1, trace := [] } = .ok m1 ∧
      rot { src := m1.dest, dest := d2, trace := [] } = .ok m2 ∧
      rot { src := m2.dest, dest := d3, trace := [] } = .ok m3 ∧
      rot { src := m3.dest, dest := d4, trace := [] } = .ok m4 ∧
      m4.dest = M := by
  obtain ⟨m1, r1, R1⟩ := hrot ⟨M, d1, []⟩ hM h1
  have l1 : (m1.dest.length : Int) = n * n := by rw [R1.len_eq]; exact h1
  obtain ⟨m2, r2, R2⟩ := hrot ⟨m1.dest, d2, []⟩ l1 h2
  have l2 : (m2.dest.length : Int) = n * n := by rw [R2.len_eq]; exact h2
  obtain ⟨m3, r3, R3⟩ := hrot ⟨m2.dest, d3, []⟩ l2 h3
  have l3 : (m3.dest.length : Int) = n * n := by rw [R3.len_eq]; exact h3
  obtain ⟨m4, r4, R4⟩ := hrot ⟨m3.dest, d4, []⟩ l3 h4
  exact ⟨m1, m2, m3, m4, r1, r2, r3, r4, RotOn.four hn R1 R2 R3 R4 rfl rfl rfl hM h4⟩

/-- A result of `rotate_naive_unbounded` is the result for every larger fuel. -/
theorem rotate_naive_unbounded_fuel_mono {f f' : Nat} {n : Int} {m m' : Mem α} (hle : f ≤ f')
    (h : rotate_naive_unbounded f n m = .ok m') : rotate_naive_unbounded f' n m = .ok m' := by
  unfold rotate_naive_unbounded at h ⊢
  refine forLoop_unbounded_mono n 1 _ _ ?_ f f' 0 m m' hle h
  intro i s s' hi
  exact forLoop_unbounded_mono n 1 _ _ (fun _ _ _ hc => hc) f f' 0 s s' hle hi

/-- A result of `rotate_blocked_unbounded` is the result for every larger fuel. -/
theorem rotate_blocked_unbounded_fuel_mono {f f' : Nat} {n B : Int} {m m' : Mem α} (hle : f ≤ f')
    (h : rotate_blocked_unbounded f n B m = .ok m') : rotate_blocked_unbounded f' n B m = .ok m' := by
  unfold rotate_blocked_unbounded at h ⊢
  refine forLoop_unbounded_mono n B _ _ ?_ f f' 0 m m' hle h
  intro i s s' hi
  refine forLoop_unbounded_mono n B _ _ ?_ f f' 0 s s' hle hi
  intro j s s' hj
  refine forLoop_unbounded_mono _ 1 _ _ ?_ f f' i s s' hle hj
  intro bi s s' hbi
  exact forLoop_unbounded_mono _ 1 _ _ (fun _ _ _ hc => hc) f f' j s s' hle hbi

/-- With `n` units of fuel per loop `rotate_naive_unbounded` does not run out of fuel,
whatever the buffers are. -/
theorem rotate_naive_unbounded_no_timeout (fuel : Nat) (n : Int) (m : Mem α) (hfuel : n ≤ (fuel : Int)) :
    rotate_naive_unbounded fuel n m ≠ .error .outOfFuel := by
  unfold rotate_naive_unbounded
  refine forLoop_unbounded_no_timeout n 1 0 _ (by omega) ?_ fuel 0 m le_rfl (by omega)
  intro i s _ _
  refine forLoop_unbounded_no_timeout n 1 0 _ (by omega) ?_ fuel 0 s le_rfl (by omega)
  intro j t _ _ hc
  cases Mem.copy_error hc

/-- With a block size of at least one and `n` units of fuel per loop
`rotate_blocked_unbounded` does not run out of fuel, whatever the buffers are. -/
theorem rotate_blocked_unbounded_no_timeout (fuel : Nat) (n B : Int) (m : Mem α) (hB : 1 ≤ B)
    (hfuel : n ≤ (fuel : Int)) : rotate_blocked_unbounded fuel n B m ≠ .error .outOfFuel := by
  unfold rotate_blocked_unbounded
  refine forLoop_unbounded_no_timeout n B 0 _ (by omega) ?_ fuel 0 m le_rfl (by omega)
  intro i s hi0 _
  refine forLoop_unbounded_no_timeout n B 0 _ (by omega) ?_ fuel 0 s le_rfl (by omega)
  intro j s hj0 _
  refine forLoop_unbounded_no_timeout _ 1 i _ (by omega) ?_ fuel i s le_rfl (by omega)
  intro bi s _ _
  refine forLoop_unbounded_no_timeout _ 1 j _ (by omega) ?_ fuel j s le_rfl (by omega)
  intro bj t _ _ hc
  cases Mem.copy_error hc

/-- The trace of a complete rotation that started with an empty trace is the
image, under the assignment `dest[c * n + r] = src[(n - 1 - r) * n + c]`, of a
list of cells that holds every cell of the index square once and nothing
else. -/
theorem RotOn.trace_pairs {n : Int} {m0 m : Mem α} (h : RotOn n (fun _ _ => True) m0 m)
    (ht : m0.trace = []) :
    m.trace.Nodup ∧
    ∃ pairs : List (Int × Int),
      m.trace = pairs.map (fun p => (p.2 * n + p.1, (n - 1 - p.1) * n + p.2)) ∧
      pairs.Nodup ∧
      ∀ r c, (r, c) ∈ pairs ↔ (0 ≤ r ∧ r < n ∧ 0 ≤ c ∧ c < n) := by
  obtain ⟨t, htr, hnd, hmem⟩ := h.trace
  rw [ht, List.nil_append] at htr
  rw [htr]
  have hround : t.map ((fun p : Int × Int => (p.2 * n + p.1, (n - 1 - p.1) * n + p.2)) ∘
      (fun e : Int × Int => (e.1 % n, e.1 / n))) = t := by
    conv_rhs => rw [← List.map_id t]
    apply List.map_congr_left
    intro e he
    obtain ⟨r, c, h1, h2, _, _, _, rfl⟩ := (hmem e).1 he
    obtain ⟨e1, e2⟩ := idx_decode (c := c) h1 h2
    simp only [Function.comp, e1, e2, id]
  have hmap : t = (t.map (fun e : Int × Int => (e.1 % n, e.1 / n))).map
      (fun p => (p.2 * n + p.1, (n - 1 - p.1) * n + p.2)) := by
    rw [List.map_map, hround]
  refine ⟨hnd, t.map (fun e : Int × Int => (e.1 % n, e.1 / n)), hmap, ?_, ?_⟩
  · apply List.Nodup.of_map (fun p : Int × Int => (p.2 * n + p.1, (n - 1 - p.1) * n + p.2))
    rw [← hmap]
    exact hnd
  · intro r c
    rw [List.mem_map]
    constructor
    · rintro ⟨e, he, hec⟩
      obtain ⟨r', c', h1, h2, h3, h4, _, rfl⟩ := (hmem e).1 he
      obtain ⟨e1, e2⟩ := idx_decode (c := c') h1 h2
      simp only [e1, e2, Prod.mk.injEq] at hec
      obtain ⟨rfl, rfl⟩ := hec
      exact ⟨h1, h2, h3, h4⟩
    · rintro ⟨h1, h2, h3, h4⟩
      refine ⟨(c * n + r, (n - 1 - r) * n + c),
        (hmem _).2 ⟨r, c, h1, h2, h3, h4, trivial, rfl⟩, ?_⟩
      obtain ⟨e1, e2⟩ := idx_decode (c := c) h1 h2
      simp only [e1, e2]

/-- Two complete rotations for the same `n`, both started with an empty trace,
perform the same assignments, in some order. -/
theorem RotOn.trace_perm {n : Int} {m0 m0' m m' : Mem α}
    (h : RotOn n (fun _ _ => True) m0 m) (h' : RotOn n (fun _ _ => True) m0' m')
    (ht : m0.trace = []) (ht' : m0'.trace = []) : m'.trace.Perm m.trace := by
  refine (List.perm_ext_iff_of_nodup (h'.trace_pairs ht').1 (h.trace_pairs ht).1).2 ?_
  intro e
  rw [h'.mem_trace ht' e, h.mem_trace ht e]

/-- The destination indices written by a complete rotation are the offsets
`0, ..., n * n - 1`, each once. -/
theorem RotOn.writes {n : Int} (hn : 0 < n) {m0 m : Mem α}
    (h : RotOn n (fun _ _ => True) m0 m) (ht : m0.trace = []) :
    (m.trace.map Prod.fst).Nodup ∧
      ∀ d, d ∈ m.trace.map Prod.fst ↔ (0 ≤ d ∧ d < n * n) := by
  obtain ⟨_, pairs, htr, hpn, hmem⟩ := h.trace_pairs ht
  have hfst : m.trace.map Prod.fst = pairs.map (fun p => p.2 * n + p.1) := by
    rw [htr, List.map_map]; rfl
  rw [hfst]
  constructor
  · refine List.Nodup.map_on ?_ hpn
    intro p hp q hq heq
    obtain ⟨p0, p1, _, _⟩ := (hmem p.1 p.2).1 hp
    obtain ⟨q0, q1, _, _⟩ := (hmem q.1 q.2).1 hq
    obtain ⟨h1, h2⟩ := idx_inj p0 p1 q0 q1 heq
    exact Prod.ext h1 h2
  · intro d
    rw [List.mem_map]
    constructor
    · rintro ⟨p, hp, rfl⟩
      obtain ⟨p0, p1, p2, p3⟩ := (hmem p.1 p.2).1 hp
      exact ⟨idx_nonneg p0 p2 hn, idx_lt p1 p3 hn⟩
    · rintro ⟨h0, h1⟩
      obtain ⟨⟨a1, a2⟩, ⟨b1, b2⟩, c1⟩ := offset_split hn h0 h1
      exact ⟨(d % n, d / n), (hmem _ _).2 ⟨a1, a2, b1, b2⟩, c1⟩

/-- The source indices read by a complete rotation are the offsets
`0, ..., n * n - 1`, each once. -/
theorem RotOn.reads {n : Int} (hn : 0 < n) {m0 m : Mem α}
    (h : RotOn n (fun _ _ => True) m0 m) (ht : m0.trace = []) :
    (m.trace.map Prod.snd).Nodup ∧
      ∀ d, d ∈ m.trace.map Prod.snd ↔ (0 ≤ d ∧ d < n * n) := by
  obtain ⟨_, pairs, htr, hpn, hmem⟩ := h.trace_pairs ht
  have hsnd : m.trace.map Prod.snd = pairs.map (fun p => (n - 1 - p.1) * n + p.2) := by
    rw [htr, List.map_map]; rfl
  rw [hsnd]
  constructor
  · refine List.Nodup.map_on ?_ hpn
    intro p hp q hq heq
    obtain ⟨_, _, p2, p3⟩ := (hmem p.1 p.2).1 hp
    obtain ⟨_, _, q2, q3⟩ := (hmem q.1 q.2).1 hq
    obtain ⟨h1, h2⟩ := idx_inj p2 p3 q2 q3 heq
    exact Prod.ext (by omega) h1
  · intro d
    rw [List.mem_map]
    constructor
    · rintro ⟨p, hp, rfl⟩
      obtain ⟨p0, p1, p2, p3⟩ := (hmem p.1 p.2).1 hp
      exact srcIdx_range p0 p1 p2 p3
    · rintro ⟨h0, h1⟩
      obtain ⟨⟨a1, a2⟩, ⟨b1, b2⟩, c1⟩ := offset_split hn h0 h1
      refine ⟨(n - 1 - d / n, d % n), (hmem _ _).2 ⟨by omega, by omega, a1, a2⟩, ?_⟩
      have : n - 1 - (n - 1 - d / n) = d / n := by omega
      simp only [this, c1]

/-- After a complete rotation `dest` is a rearrangement of `src`. -/
theorem RotOn.dest_perm {n : Int} (hn : 0 < n) {m0 m : Mem α}
    (h : RotOn n (fun _ _ => True) m0 m) (ht : m0.trace = [])
    (hs : (m0.src.length : Int) = n * n) (hd : (m0.dest.length : Int) = n * n) :
    m.dest.Perm m0.src := by
  have hlen : m.dest.length = m0.src.length := by rw [h.len_eq]; omega
  obtain ⟨hwn, hwm⟩ := h.writes hn ht
  obtain ⟨hrn, hrm⟩ := h.reads hn ht
  have hW : (m.trace.map Prod.fst).Perm
      ((List.range m0.src.length).map (fun k : Nat => (k : Int))) :=
    (List.perm_ext_iff_of_nodup hwn (nodup_intRange _)).2
      (fun d => by rw [hwm d, mem_intRange, hs])
  have hR : (m.trace.map Prod.snd).Perm
      ((List.range m0.src.length).map (fun k : Nat => (k : Int))) :=
    (List.perm_ext_iff_of_nodup hrn (nodup_intRange _)).2
      (fun d => by rw [hrm d, mem_intRange, hs])
  have hpt : (m.trace.map Prod.fst).map (readAt m.dest) =
      (m.trace.map Prod.snd).map (readAt m0.src) := by
    rw [List.map_map, List.map_map]
    apply List.map_congr_left
    intro e he
    obtain ⟨r, c, h1, h2, h3, h4, rfl⟩ := (h.mem_trace ht e).1 he
    exact h.done r c h1 h2 h3 h4 trivial
  have hperm : (m.dest.map some).Perm (m0.src.map some) := by
    rw [← map_readAt_intRange m.dest, ← map_readAt_intRange m0.src, hlen]
    exact ((hW.map (readAt m.dest)).symm.trans (hpt ▸ List.Perm.refl _)).trans
      (hR.map (readAt m0.src))
  have := hperm.filterMap id
  simpa [List.filterMap_map] using this

/-- With block size zero the tile at origin `(0, 0)` is empty: its two inner
loops return at once and leave the state as it is. -/
theorem tile_zero_empty (fuel : Nat) (n : Int) (m : Mem α) :
    forLoop (min (wrap32 (0 + 0)) n) 1 (fun bi m =>
      forLoop (min (wrap32 (0 + 0)) n) 1 (fun bj m =>
        m.copy (wrap32 (wrap32 (bj * n) + bi))
          (wrap32 (wrap32 (wrap32 (wrap32 (n - 1) - bi) * n) + bj)))
        fuel 0 m) fuel 0 m = .ok m := by
  have hw : wrap32 (0 + 0) = 0 := by decide
  rw [hw]
  have hnot : ¬ (0 : Int) < min 0 n := by omega
  cases fuel <;> simp only [forLoop, hnot, if_false]

/-- With block size zero the loop over tile columns never advances. -/
theorem tile_columns_zero_stuck (fuel inner : Nat) (n : Int) (m : Mem α) (hn : 0 < n) :
    forLoop n 0 (fun j m =>
      forLoop (min (wrap32 (0 + 0)) n) 1 (fun bi m =>
        forLoop (min (wrap32 (j + 0)) n) 1 (fun bj m =>
          m.copy (wrap32 (wrap32 (bj * n) + bi))
            (wrap32 (wrap32 (wrap32 (wrap32 (n - 1) - bi) * n) + bj)))
          inner j m) inner 0 m) fuel 0 m
      = .error .outOfFuel := by
  refine forLoop_stuck n _ 0 m hn (by decide) ?_ fuel
  exact tile_zero_empty inner n m

/-- With block size zero `rotate_blocked` runs out of any amount of fuel. -/
theorem rotate_blocked_zero (fuel : Nat) (n : Int) (m : Mem α) (hn : 0 < n) :
    rotate_blocked fuel n 0 m = .error .outOfFuel := by
  unfold rotate_blocked
  cases fuel with
  | zero => simp [forLoop, hn]
  | succ k =>
    have h := tile_columns_zero_stuck (k + 1) (k + 1) n m hn
    unfold forLoop
    rw [if_pos hn]
    simp only [h]

end Invariant

/-! ## Agreement of the 32-bit program with the unbounded reading -/

section Agreement
variable {α : Type}

theorem wrap32_range (x : Int) : -2147483648 ≤ wrap32 x ∧ wrap32 x < 2147483648 := by
  unfold wrap32
  omega

/-- For `1 ≤ n ≤ 46340` the square `n * n` is its own 32-bit value. -/
theorem wrap32_square {n : Int} (hn : 1 ≤ n) (hn' : n ≤ 46340) :
    wrap32 (n * n) = n * n ∧ 0 ≤ n * n ∧ n ≤ n * n := by
  have hsq := square_fits (by omega : (0 : Int) ≤ n) hn'
  have h1 : n * 1 ≤ n * n := mul_le_mul_of_nonneg_left hn (by omega)
  exact ⟨wrap32_eq (by omega) (by omega), by omega, by omega⟩

/-- For `1 ≤ n ≤ 46340` the index expressions of the rotators, evaluated in 32
bits at a cell of the index square, have their mathematical values. -/
theorem idx32 {n i j : Int} (hn : n ≤ 46340) (hi : 0 ≤ i) (hi1 : i < n) (hj : 0 ≤ j)
    (hj1 : j < n) :
    wrap32 (wrap32 (j * n) + i) = j * n + i ∧
    wrap32 (wrap32 (wrap32 (wrap32 (n - 1) - i) * n) + j) = (n - 1 - i) * n + j := by
  have hn0 : 0 < n := by omega
  have hsq := square_fits hn0.le hn
  have a1 : 0 ≤ j * n := mul_nonneg hj hn0.le
  have a2 : j * n + i < n * n := idx_lt hi1 hj1 hn0
  have b1 : 0 ≤ (n - 1 - i) * n := mul_nonneg (by omega) hn0.le
  have b2 := (srcIdx_range hi hi1 hj hj1).2
  constructor
  · rw [wrap32_eq (x := j * n) (by omega) (by omega), wrap32_eq (by omega) (by omega)]
  · rw [wrap32_eq (x := n - 1) (by omega) (by omega),
      wrap32_eq (x := n - 1 - i) (by omega) (by omega),
      wrap32_eq (x := (n - 1 - i) * n) (by omega) (by omega), wrap32_eq (by omega) (by omega)]

/-- For `1 ≤ n ≤ 46340` the program's `rotate_naive` computes what the loop
nest computes with mathematical integers. -/
theorem rotate_naive_eq (fuel : Nat) (n : Int) (m : Mem α) (hn : 1 ≤ n)
    (hn' : n ≤ 46340) : rotate_naive fuel n m = rotate_naive_unbounded fuel n m := by
  unfold rotate_naive rotate_naive_unbounded
  refine forLoop_eq (fun _ => True) n 1 0 _ _ (by omega) (by omega)
    (fun i _ _ _ => ⟨by omega, trivial⟩) ?_ fuel 0 m le_rfl trivial
  intro i s hi0 hi1 _
  refine forLoop_eq (fun _ => True) n 1 0 _ _ (by omega) (by omega)
    (fun i _ _ _ => ⟨by omega, trivial⟩) ?_ fuel 0 s le_rfl trivial
  intro j t hj0 hj1 _
  obtain ⟨e1, e2⟩ := idx32 hn' hi0 hi1 hj0 hj1
  rw [e1, e2]

/-- For `1 ≤ n ≤ 46340` and every `int` block size `B ≥ 1` the program's
`rotate_blocked` computes what the loop nest computes with mathematical
integers: a tile origin is `0` or at least `B`, so `i + B` stays below
`2 * n` or equals `B`. -/
theorem rotate_blocked_eq (fuel : Nat) (n B : Int) (m : Mem α) (hn : 1 ≤ n)
    (hn' : n ≤ 46340) (hB : 1 ≤ B) (hB' : B ≤ 2147483647) :
    rotate_blocked fuel n B m = rotate_blocked_unbounded fuel n B m := by
  unfold rotate_blocked rotate_blocked_unbounded
  refine forLoop_eq (fun i => i = 0 ∨ B ≤ i) n B 0 _ _ (by omega) (by omega)
    (fun i _ _ hP => ⟨by omega, by omega⟩) ?_ fuel 0 m le_rfl (Or.inl rfl)
  intro i s hi0 hi1 hPi
  refine forLoop_eq (fun j => j = 0 ∨ B ≤ j) n B 0 _ _ (by omega) (by omega)
    (fun j _ _ hP => ⟨by omega, by omega⟩) ?_ fuel 0 s le_rfl (Or.inl rfl)
  intro j t hj0 hj1 hPj
  have hwi : wrap32 (i + B) = i + B := wrap32_eq (by omega) (by omega)
  have hwj : wrap32 (j + B) = j + B := wrap32_eq (by omega) (by omega)
  rw [hwi]
  refine forLoop_eq (fun _ => True) _ 1 i _ _ (by omega) (by omega)
    (fun bi _ _ _ => ⟨by omega, trivial⟩) ?_ fuel i t le_rfl trivial
  intro bi u hbi0 hbi1 _
  rw [hwj]
  refine forLoop_eq (fun _ => True) _ 1 j _ _ (by omega) (by omega)
    (fun bj _ _ _ => ⟨by omega, trivial⟩) ?_ fuel j u le_rfl trivial
  intro bj v hbj0 hbj1 _
  obtain ⟨e1, e2⟩ := idx32 (i := bi) (j := bj) hn' (by omega) (by omega) (by omega) (by omega)
  rw [e1, e2]

/-- For `1 ≤ n ≤ 46340`, enough fuel and buffers of `n * n` elements
`rotate_naive` returns normally, having assigned every cell of the index
square. -/
theorem rotate_naive_spec (n : Int) (fuel : Nat) (m0 : Mem α) (hn : 1 ≤ n) (hn' : n ≤ 46340)
    (hfuel : n ≤ (fuel : Int)) (hs : (m0.src.length : Int) = n * n)
    (hd : (m0.dest.length : Int) = n * n) :
    ∃ m, rotate_naive fuel n m0 = .ok m ∧ RotOn n (fun _ _ => True) m0 m := by
  rw [rotate_naive_eq fuel n m0 hn hn']
  exact rotate_naive_unbounded_spec n fuel m0 (by omega) hfuel hs hd

/-- For `1 ≤ n ≤ 46340`, an `int` block size of at least one, enough fuel and
buffers of `n * n` elements `rotate_blocked` returns normally, having assigned
every cell of the index square. -/
theorem rotate_blocked_spec (n B : Int) (fuel : Nat) (m0 : Mem α) (hn : 1 ≤ n)
    (hn' : n ≤ 46340) (hB : 1 ≤ B) (hB' : B ≤ 2147483647)
    (hfuel : n ≤ (fuel : Int)) (hs : (m0.src.length : Int) = n * n)
    (hd : (m0.dest.length : Int) = n * n) :
    ∃ m, rotate_blocked fuel n B m0 = .ok m ∧ RotOn n (fun _ _ => True) m0 m := by
  rw [rotate_blocked_eq fuel n B m0 hn hn' hB hB']
  exact rotate_blocked_unbounded_spec n B fuel m0 (by omega) hB hfuel hs hd

end Agreement

/-! ## The first matrix size at which the index arithmetic overflows -/

section Overflow
variable {α : Type}

/-- At `n = 46341` the source index of the cell `(0, 41708)` is `2^31`, which
a 32-bit `int` holds as `-2^31`. -/
theorem read_index_overflow :
    (46341 - 1 - 0) * 46341 + 41708 = (2147483648 : Int) ∧
    wrap32 (wrap32 (wrap32 (wrap32 (46341 - 1) - 0) * 46341) + 41708) = -2147483648 := by
  decide

theorem Mem.copy_negative (m : Mem α) (w r : Int) (hr : r < 0) :
    m.copy w r = .error .outOfBounds := by
  have : ¬ 0 ≤ r := by omega
  simp [Mem.copy, readAt, this]

/-- An assignment between buffers that hold both indices succeeds and keeps
the source and the length of the destination. -/
theorem Mem.copy_ok (m : Mem α) (w r : Int) (hr0 : 0 ≤ r) (hr1 : r < (m.src.length : Int))
    (hw0 : 0 ≤ w) (hw1 : w < (m.dest.length : Int)) :
    ∃ m', m.copy w r = .ok m' ∧ m'.src = m.src ∧ m'.dest.length = m.dest.length := by
  obtain ⟨v, hv⟩ := readAt_of_lt m.src r hr0 hr1
  have hw := writeAt_of_lt m.dest w v hw0 hw1
  exact ⟨{ src := m.src, dest := m.dest.set w.toNat v, trace := m.trace ++ [(w, r)] },
    by simp [Mem.copy, hv, hw], rfl, by simp⟩

/-- A loop with step one whose body succeeds, keeping `I`, below an index `k`
and fails with `e` at `k` fails with `e`, given fuel to get there. -/
theorem forLoop_fault_at {σ : Type} (I : σ → Prop) (bound k lo : Int) (e : Halt)
    (body : Int → σ → Except Halt σ) (hk : k < bound) (hk' : k < 2147483647)
    (hlo : -2147483648 ≤ lo)
    (hok : ∀ i s, lo ≤ i → i < k → I s → ∃ s', body i s = .ok s' ∧ I s')
    (hfail : ∀ s, I s → body k s = .error e) :
    ∀ (fuel : Nat) (i : Int) (s : σ), lo ≤ i → i ≤ k → k - i < (fuel : Int) → I s →
      forLoop bound 1 body fuel i s = .error e := by
  intro fuel
  induction fuel with
  | zero => intro i s _ _ hf; simp at hf; omega
  | succ f ih =>
    intro i s hi hik hf hI
    have hlt : i < bound := by omega
    unfold forLoop
    rw [if_pos hlt]
    by_cases heq : i = k
    · subst heq
      rw [hfail s hI]
    · obtain ⟨s1, hb, hI1⟩ := hok i s hi (by omega) hI
      have hw : wrap32 (i + 1) = i + 1 := wrap32_eq (by omega) (by omega)
      rw [hb, hw]
      exact ih _ _ (by omega) (by omega) (by push_cast at hf; omega) hI1

/-- A loop with step `step ≥ 1` over tile origins, one of whose tiles would
contain an index `k` below the bound, never returns normally when the tile
holding `k` never does. -/
theorem forLoop_tile_never_ok {σ : Type} (bound step k : Int)
    (body : Int → σ → Except Halt σ) (hstep : 1 ≤ step) (hk : k < bound)
    (hk' : k < 2147483647)
    (hfail : ∀ j s s', 0 ≤ j → j ≤ k → k < j + step → (j = 0 ∨ step ≤ j) →
      body j s ≠ .ok s') :
    ∀ (fuel : Nat) (j : Int) (s s' : σ), 0 ≤ j → j ≤ k → (j = 0 ∨ step ≤ j) →
      forLoop bound step body fuel j s ≠ .ok s' := by
  intro fuel
  induction fuel with
  | zero =>
    intro j s s' _ hj _
    have : j < bound := by omega
    simp [forLoop, this]
  | succ f ih =>
    intro j s s' hj0 hj hP
    have hlt : j < bound := by omega
    unfold forLoop
    rw [if_pos hlt]
    split
    · rename_i s1 hb
      have hin : j + step ≤ k := by
        by_contra hcon
        exact hfail j s s1 hj0 hj (by omega) hP hb
      have hw : wrap32 (j + step) = j + step := wrap32_eq (by omega) (by omega)
      rw [hw]
      exact ih _ _ _ (by omega) hin (Or.inr (by omega))
    · intro h; cases h

/-- At `n = 46341` the assignment at the cell `(0, 41708)` fails in every
state. -/
theorem copy_overflow (s s' : Mem α) :
    s.copy (wrap32 (wrap32 (41708 * 46341) + 0))
      (wrap32 (wrap32 (wrap32 (wrap32 (46341 - 1) - 0) * 46341) + 41708)) ≠ .ok s' := by
  rw [read_index_overflow.2, Mem.copy_negative _ _ _ (by decide)]
  intro h
  cases h

/-- At `n = 46341` `rotate_naive` never returns normally, whatever the buffers
and the fuel. -/
theorem rotate_naive_overflow (fuel : Nat) (m m' : Mem α) :
    rotate_naive fuel 46341 m ≠ .ok m' := by
  unfold rotate_naive
  refine forLoop_first_never_ok 46341 1 0 _ m (by decide) ?_ fuel m'
  intro s'
  exact forLoop_never_ok 46341 41708 _ (by decide) (by decide)
    (fun s s' => copy_overflow s s') fuel 0 m s' (by decide) (by decide)

/-- At `n = 46341`, with buffers of exactly `n * n` elements and fuel for
`n` iterations per loop, `rotate_naive` stops at the cell `(0, 41708)` with an
access outside the source buffer. -/
theorem rotate_naive_overflow_fault (fuel : Nat) (m : Mem α) (hfuel : 41708 < fuel)
    (hs : (m.src.length : Int) = 46341 * 46341) (hd : (m.dest.length : Int) = 46341 * 46341) :
    rotate_naive fuel 46341 m = .error .outOfBounds := by
  unfold rotate_naive
  obtain ⟨f, rfl⟩ : ∃ f, fuel = f + 1 := ⟨fuel - 1, by omega⟩
  have hin := forLoop_fault_at
    (fun s : Mem α => (s.src.length : Int) = 46341 * 46341 ∧
      (s.dest.length : Int) = 46341 * 46341)
    46341 41708 0 .outOfBounds
    (fun j m => m.copy (wrap32 (wrap32 (j * 46341) + 0))
      (wrap32 (wrap32 (wrap32 (wrap32 (46341 - 1) - 0) * 46341) + j)))
    (by decide) (by decide) (by decide)
    (by
      intro j s hj0 hj1 hI
      have e1 : wrap32 (wrap32 (j * 46341) + 0) = j * 46341 := by
        unfold wrap32; omega
      have e2 : wrap32 (wrap32 (wrap32 (wrap32 (46341 - 1) - 0) * 46341) + j)
          = 2147441940 + j := by
        have : wrap32 (wrap32 (wrap32 (46341 - 1) - 0) * 46341) = 2147441940 := by decide
        rw [this]
        unfold wrap32; omega
      beta_reduce
      rw [e1, e2]
      obtain ⟨s1, h1, h2, h3⟩ := Mem.copy_ok s (j * 46341) (2147441940 + j)
        (by omega) (by rw [hI.1]; omega) (by omega) (by rw [hI.2]; omega)
      exact ⟨s1, h1, by rw [h2]; exact hI.1, by rw [h3]; exact hI.2⟩)
    (by
      intro s _
      beta_reduce
      rw [read_index_overflow.2]
      exact Mem.copy_negative _ _ _ (by decide))
    (f + 1) 0 m le_rfl (by decide) (by push_cast; omega) ⟨hs, hd⟩
  unfold forLoop
  rw [if_pos (by decide)]
  simp only [hin]

/-- The number of elements of a buffer of `46341 * 46341` equal elements. -/
theorem length_replicate_square (a : α) :
    ((List.replicate 2147488281 a).length : Int) = 46341 * 46341 := by
  rw [List.length_replicate]
  decide

/-- At `n = 46341`, on buffers of exactly `n * n = 2147488281` elements and
with fuel for `n` iterations per loop, `rotate_naive` stops with an access
outside the source buffer. -/
theorem rotate_naive_overflow_replicate (fuel : Nat) (a b : α) (hfuel : 41708 < fuel) :
    rotate_naive fuel 46341
      { src := List.replicate 2147488281 a, dest := List.replicate 2147488281 b, trace := [] }
      = .error .outOfBounds :=
  rotate_naive_overflow_fault fuel _ hfuel (length_replicate_square a)
    (length_replicate_square b)

/-- At `n = 46341` `rotate_blocked` never returns normally, for any `int`
block size of at least one, whatever the buffers and the fuel. -/
theorem rotate_blocked_overflow (fuel : Nat) (B : Int) (m m' : Mem α) (hB : 1 ≤ B)
    (hB' : B ≤ 2147483647) : rotate_blocked fuel 46341 B m ≠ .ok m' := by
  unfold rotate_blocked
  refine forLoop_first_never_ok 46341 B 0 _ m (by decide) ?_ fuel m'
  intro s'
  refine forLoop_tile_never_ok 46341 B 41708 _ hB (by decide) (by decide) ?_
    fuel 0 m s' le_rfl (by decide) (Or.inl rfl)
  intro j s s1 hj0 hj hkj hP
  have hw0 : wrap32 (0 + B) = B := by
    rw [zero_add]; exact wrap32_eq (by omega) (by omega)
  have hwj : wrap32 (j + B) = j + B := wrap32_eq (by omega) (by omega)
  rw [hw0, hwj]
  refine forLoop_first_never_ok _ 1 0 _ s (by omega) ?_ fuel s1
  intro s2
  exact forLoop_never_ok _ 41708 _ (by omega) (by decide)
    (fun t t' => copy_overflow t t') fuel j s s2 (by omega) hj

end Overflow

/-! ## Every larger matrix size overflows as well -/

section OverflowRange
variable {α : Type}

/-- An assignment with a negative destination index fails. -/
theorem Mem.copy_negative_write (m m' : Mem α) (w r : Int) (hw : w < 0) :
    m.copy w r ≠ .ok m' := by
  have hnot : ¬ (0 ≤ w ∧ w < (m.dest.length : Int)) := by omega
  unfold Mem.copy
  split
  · intro h; cases h
  · simp only [writeAt, hnot, if_false]
    intro h; cases h

/-- For every `int` `n ≥ 46342` there is a column `k < n`, at most `46341`,
whose destination index `k * n + 0` in row 0 lies in `[2^31, 2^32)`: the
program's `int` holds it as a negative number. -/
theorem write_index_overflow {n : Int} (hn : 46342 ≤ n) (hn' : n ≤ 2147483647) :
    ∃ k, 0 ≤ k ∧ k < n ∧ k ≤ 46341 ∧ wrap32 (wrap32 (k * n) + 0) < 0 := by
  have hn0 : 0 < n := by omega
  have h1 := Int.ediv_add_emod (2147483648 + n - 1) n
  have h2 := Int.emod_nonneg (2147483648 + n - 1) (by omega : n ≠ 0)
  have h3 := Int.emod_lt_of_pos (2147483648 + n - 1) hn0
  have h4 : 0 ≤ (2147483648 + n - 1) / n := Int.ediv_nonneg (by omega) hn0.le
  have hsq : 46342 * 46341 ≤ n * (n - 1) := by nlinarith
  have hcomm : n * ((2147483648 + n - 1) / n) = (2147483648 + n - 1) / n * n := mul_comm _ _
  generalize (2147483648 + n - 1) / n = k at h1 h4 hcomm
  generalize (2147483648 + n - 1) % n = r at h1 h2 h3
  have hlow : 2147483648 ≤ k * n := by omega
  have hupp : k * n < 2147483648 + n := by omega
  have hkn : k < n := by
    by_contra hcon
    have : n * n ≤ k * n := mul_le_mul_of_nonneg_right (by omega) hn0.le
    have : n * (n - 1) = n * n - n := by ring
    omega
  have hk : k ≤ 46341 := by
    by_contra hcon
    have h5 : (46342 : Int) * 46342 ≤ k * n := mul_le_mul (by omega) hn (by decide) h4
    have h6 : (k - 46342) * n + 46342 * n = k * n := by ring
    have h7 : 46342 * 46342 ≤ 46342 * n := by omega
    have h8 : 0 ≤ (k - 46342) * n := mul_nonneg (by omega) hn0.le
    have h9 : k * n - n = (k - 1) * n := by ring
    have h10 : (46341 : Int) * 46342 ≤ (k - 1) * n :=
      mul_le_mul (by omega) hn (by decide) (by omega)
    omega
  refine ⟨k, h4, hkn, hk, ?_⟩
  generalize k * n = t at hlow hupp
  unfold wrap32
  omega

/-- For every `int` `n ≥ 46341` `rotate_naive` never returns normally,
whatever the buffers and the fuel: some index of row 0 does not fit an
`int`. -/
theorem rotate_naive_overflow_range (fuel : Nat) (n : Int) (m m' : Mem α) (hn : 46341 ≤ n)
    (hn' : n ≤ 2147483647) : rotate_naive fuel n m ≠ .ok m' := by
  by_cases h : n = 46341
  · subst h
    exact rotate_naive_overflow fuel m m'
  · obtain ⟨k, hk0, hkn, hk, hneg⟩ := write_index_overflow (show 46342 ≤ n by omega) hn'
    unfold rotate_naive
    refine forLoop_first_never_ok n 1 0 _ m (by omega) ?_ fuel m'
    intro s'
    exact forLoop_never_ok n k _ hkn (by omega)
      (fun s s' => Mem.copy_negative_write s s' _ _ hneg) fuel 0 m s' (by decide) hk0

/-- For every `int` `n ≥ 46341` and every `int` block size of at least one
`rotate_blocked` never returns normally, whatever the buffers and the fuel. -/
theorem rotate_blocked_overflow_range (fuel : Nat) (n B : Int) (m m' : Mem α)
    (hn : 46341 ≤ n) (hn' : n ≤ 2147483647) (hB : 1 ≤ B) (hB' : B ≤ 2147483647) :
    rotate_blocked fuel n B m ≠ .ok m' := by
  by_cases h : n = 46341
  · subst h
    exact rotate_blocked_overflow fuel B m m' hB hB'
  · obtain ⟨k, hk0, hkn, hk, hneg⟩ := write_index_overflow (show 46342 ≤ n by omega) hn'
    unfold rotate_blocked
    refine forLoop_first_never_ok n B 0 _ m (by omega) ?_ fuel m'
    intro s'
    refine forLoop_tile_never_ok n B k _ hB hkn (by omega) ?_
      fuel 0 m s' le_rfl hk0 (Or.inl rfl)
    intro j s s1 hj0 hj hkj hP
    have hw0 : wrap32 (0 + B) = B := by
      rw [zero_add]; exact wrap32_eq (by omega) (by omega)
    have hwj : wrap32 (j + B) = j + B := wrap32_eq (by omega) (by omega)
    rw [hw0, hwj]
    refine forLoop_first_never_ok _ 1 0 _ s (by omega) ?_ fuel s1
    intro s2
    exact forLoop_never_ok _ k _ (by omega) (by omega)
      (fun t t' => Mem.copy_negative_write t t' _ _ hneg) fuel j s s2 (by omega) hj

end OverflowRange

/-! ## The validator -/

section Validator
variable {α : Type}

theorem allocate_of_nonneg {size : Int} (junk : Nat → α) (h : 0 ≤ size) :
    allocate size junk = .ok (newBuffer size junk) := by
  have : ¬ size < 0 := by omega
  simp [allocate, this]

theorem allocate_of_neg {size : Int} (junk : Nat → α) (h : size < 0) :
    allocate size junk = .error .badAlloc := by
  simp [allocate, h]

theorem length_newBuffer_of_nonneg {size : Int} (junk : Nat → α) (h : 0 ≤ size) :
    ((newBuffer size junk).length : Int) = size := by
  simp [newBuffer]
  omega

/-- The comparison loop, read with mathematical integers and started at index
`i`: it either calls `exit(1)`, and then some index from `i` on fails the
test, or returns, and then none does. -/
theorem compare_loop (exceeds : α → α → Bool) (N : Int) (a b : List α)
    (ha : (a.length : Int) = N) (hb : (b.length : Int) = N) :
    ∀ (fuel : Nat) (i : Int), 0 ≤ i → N - i ≤ (fuel : Int) →
      (forLoop_unbounded N 1 (fun i _ =>
          match readAt a i, readAt b i with
          | some x, some y => if exceeds x y then .error (.exit 1) else .ok ()
          | _, _ => .error .outOfBounds) fuel i () = .error (.exit 1) ∧
        ∃ k, i ≤ k ∧ k < N ∧ Mismatch exceeds a b k) ∨
      (forLoop_unbounded N 1 (fun i _ =>
          match readAt a i, readAt b i with
          | some x, some y => if exceeds x y then .error (.exit 1) else .ok ()
          | _, _ => .error .outOfBounds) fuel i () = .ok () ∧
        ∀ k, i ≤ k → k < N → ¬ Mismatch exceeds a b k) := by
  intro fuel
  induction fuel with
  | zero =>
    intro i _ hf
    have hnot : ¬ i < N := by simp at hf; omega
    exact Or.inr ⟨by simp [forLoop_unbounded, hnot],
      fun k h1 h2 => absurd (lt_of_le_of_lt h1 h2) hnot⟩
  | succ f ih =>
    intro i hi hf
    by_cases hlt : i < N
    · obtain ⟨x, hx⟩ := readAt_of_lt a i hi (by rw [ha]; exact hlt)
      obtain ⟨y, hy⟩ := readAt_of_lt b i hi (by rw [hb]; exact hlt)
      by_cases hm : exceeds x y = true
      · exact Or.inl ⟨by simp [forLoop_unbounded, hlt, hx, hy, hm], i, le_rfl, hlt,
          x, y, hx, hy, hm⟩
      · rcases ih (i + 1) (by omega) (by push_cast at hf; omega) with
          ⟨hrun, k, h1, h2, h3⟩ | ⟨hrun, hall⟩
        · exact Or.inl ⟨by simp [forLoop_unbounded, hlt, hx, hy, hm, hrun], k, by omega, h2, h3⟩
        · refine Or.inr ⟨by simp [forLoop_unbounded, hlt, hx, hy, hm, hrun], ?_⟩
          intro k h1 h2
          by_cases hk : k = i
          · subst hk
            rintro ⟨x', y', hx', hy', hm'⟩
            rw [hx] at hx'; rw [hy] at hy'
            cases hx'; cases hy'
            exact hm hm'
          · exact hall k (by omega) h2
    · exact Or.inr ⟨by simp [forLoop_unbounded, hlt],
        fun k h1 h2 => absurd (lt_of_le_of_lt h1 h2) hlt⟩

/-- The index of the comparison loop never leaves the 32-bit range. -/
theorem compare_results_unbounded (exceeds : α → α → Bool) (fuel : Nat) (n : Int)
    (a b : List α) :
    compare_results exceeds fuel n a b =
      forLoop_unbounded (wrap32 (n * n)) 1 (fun i _ =>
        match readAt a i, readAt b i with
        | some x, some y => if exceeds x y then .error (.exit 1) else .ok ()
        | _, _ => .error .outOfBounds) fuel 0 () := by
  unfold compare_results
  have hr := wrap32_range (n * n)
  exact forLoop_eq (fun _ => True) _ 1 0 _ _ (by omega) (by omega)
    (fun i _ _ _ => ⟨by omega, trivial⟩) (fun _ _ _ _ _ => rfl) fuel 0 () le_rfl trivial

theorem compare_results_exit_iff (exceeds : α → α → Bool) (fuel : Nat) (n : Int)
    (a b : List α) (hfuel : wrap32 (n * n) ≤ (fuel : Int))
    (ha : (a.length : Int) = wrap32 (n * n)) (hb : (b.length : Int) = wrap32 (n * n)) :
    compare_results exceeds fuel n a b = .error (.exit 1) ↔
      ∃ i, 0 ≤ i ∧ i < wrap32 (n * n) ∧ Mismatch exceeds a b i := by
  rw [compare_results_unbounded]
  rcases compare_loop exceeds _ a b ha hb fuel 0 le_rfl (by omega) with
    ⟨hrun, k, h1, h2, h3⟩ | ⟨hrun, hall⟩
  · rw [hrun]
    exact ⟨fun _ => ⟨k, h1, h2, h3⟩, fun _ => rfl⟩
  · rw [hrun]
    constructor
    · intro h; cases h
    · rintro ⟨i, h1, h2, h3⟩
      exact absurd h3 (hall i h1 h2)

theorem compare_results_ok_iff (exceeds : α → α → Bool) (fuel : Nat) (n : Int)
    (a b : List α) (hfuel : wrap32 (n * n) ≤ (fuel : Int))
    (ha : (a.length : Int) = wrap32 (n * n)) (hb : (b.length : Int) = wrap32 (n * n)) :
    compare_results exceeds fuel n a b = .ok () ↔
      ∀ i, 0 ≤ i → i < wrap32 (n * n) → ¬ Mismatch exceeds a b i := by
  rw [compare_results_unbounded]
  rcases compare_loop exceeds _ a b ha hb fuel 0 le_rfl (by omega) with
    ⟨hrun, k, h1, h2, h3⟩ | ⟨hrun, hall⟩
  · rw [hrun]
    constructor
    · intro h; cases h
    · intro h
      exact absurd h3 (h k h1 h2)
  · rw [hrun]
    exact ⟨fun _ => hall, fun _ => rfl⟩

/-- The only status the comparison loop ever exits with is 1. -/
theorem compare_results_error {exceeds : α → α → Bool} {fuel : Nat} {n : Int}
    {a b : List α} {e : Halt} (h : compare_results exceeds fuel n a b = .error e) :
    e = .outOfFuel ∨ e = .outOfBounds ∨ e = .exit 1 := by
  refine forLoop_error (fun e => e = .outOfFuel ∨ e = .outOfBounds ∨ e = .exit 1) _ _ _
    (Or.inl rfl) ?_ fuel 0 () e h
  intro i u e hb
  split at hb
  · split at hb
    · cases hb; exact Or.inr (Or.inr rfl)
    · cases hb
  · cases hb; exact Or.inr (Or.inl rfl)

/-- When the buffer size `n * n` is negative as an `int`, the first allocation
of `validate_results` throws. -/
theorem validate_results_of_neg (exceeds : α → α → Bool) (fuel : Nat) (n B : Int)
    (junk1 junk2 : Nat → α) (m : Mem α) (h : wrap32 (n * n) < 0) :
    validate_results exceeds fuel n B junk1 junk2 m = .error .badAlloc := by
  unfold validate_results
  rw [allocate_of_neg junk1 h]

/-- When the buffer size is not negative, `validate_results` is the naive
rotation, the blocked rotation and the comparison, in that order. -/
theorem validate_results_of_nonneg (exceeds : α → α → Bool) (fuel : Nat) (n B : Int)
    (junk1 junk2 : Nat → α) (m : Mem α) (h : 0 ≤ wrap32 (n * n)) :
    validate_results exceeds fuel n B junk1 junk2 m =
      match rotate_naive fuel n
          { src := m.src, dest := newBuffer (wrap32 (n * n)) junk1, trace := [] } with
      | .error e => .error e
      | .ok mn =>
        match rotate_blocked fuel n B
            { src := mn.src, dest := newBuffer (wrap32 (n * n)) junk2, trace := [] } with
        | .error e => .error e
        | .ok mb =>
          match compare_results exceeds fuel n mn.dest mb.dest with
          | .error e => .error e
          | .ok _ => .ok { src := mb.src, dest := m.dest, trace := m.trace } := by
  unfold validate_results
  rw [allocate_of_nonneg junk1 h]
  simp only [allocate_of_nonneg junk2 h]

/-- When `validate_results` returns, the caller's buffers are as before. -/
theorem validate_results_ok {exceeds : α → α → Bool} {fuel : Nat} {n B : Int}
    {junk1 junk2 : Nat → α} {m m' : Mem α}
    (h : validate_results exceeds fuel n B junk1 junk2 m = .ok m') : m' = m := by
  by_cases h0 : 0 ≤ wrap32 (n * n)
  · rw [validate_results_of_nonneg exceeds fuel n B junk1 junk2 m h0] at h
    split at h
    · cases h
    · rename_i mn hn
      split at h
      · cases h
      · rename_i mb hbl
        split at h
        · cases h
        · cases h
          have h1 := (rotate_blocked_frame hbl).1
          have h2 := (rotate_naive_frame hn).1
          simp only at h1 h2
          rw [h1, h2]
  · rw [validate_results_of_neg exceeds fuel n B junk1 junk2 m (by omega)] at h
    cases h

/-- The only status `validate_results` ever exits with is 1. -/
theorem validate_results_error {exceeds : α → α → Bool} {fuel : Nat} {n B : Int}
    {junk1 junk2 : Nat → α} {m : Mem α} {e : Halt}
    (h : validate_results exceeds fuel n B junk1 junk2 m = .error e) :
    e = .outOfFuel ∨ e = .outOfBounds ∨ e = .badAlloc ∨ e = .exit 1 := by
  by_cases h0 : 0 ≤ wrap32 (n * n)
  · rw [validate_results_of_nonneg exceeds fuel n B junk1 junk2 m h0] at h
    split at h
    · rename_i e1 hn
      cases h
      rcases rotate_naive_error hn with h | h
      · exact Or.inl h
      · exact Or.inr (Or.inl h)
    · split at h
      · rename_i e1 hbl
        cases h
        rcases rotate_blocked_error hbl with h | h
        · exact Or.inl h
        · exact Or.inr (Or.inl h)
      · split at h
        · rename_i e1 hc
          cases h
          rcases compare_results_error hc with h | h | h
          · exact Or.inl h
          · exact Or.inr (Or.inl h)
          · exact Or.inr (Or.inr (Or.inr h))
        · cases h
  · rw [validate_results_of_neg exceeds fuel n B junk1 junk2 m (by omega)] at h
    cases h
    exact Or.inr (Or.inr (Or.inl rfl))

/-- The validator calls `exit(1)` exactly when its buffers can be allocated,
both rotators return and their results fail the test somewhere. -/
theorem validate_results_exit_iff (exceeds : α → α → Bool) (fuel : Nat) (n B : Int)
    (junk1 junk2 : Nat → α) (m : Mem α) (hfuel : wrap32 (n * n) ≤ (fuel : Int)) :
    validate_results exceeds fuel n B junk1 junk2 m = .error (.exit 1) ↔
      0 ≤ wrap32 (n * n) ∧
      ∃ mn mb,
        rotate_naive fuel n
          { src := m.src, dest := newBuffer (wrap32 (n * n)) junk1, trace := [] } = .ok mn ∧
        rotate_blocked fuel n B
          { src := m.src, dest := newBuffer (wrap32 (n * n)) junk2, trace := [] } = .ok mb ∧
        ∃ i, 0 ≤ i ∧ i < wrap32 (n * n) ∧ Mismatch exceeds mn.dest mb.dest i := by
  by_cases h0 : 0 ≤ wrap32 (n * n)
  swap
  · rw [validate_results_of_neg exceeds fuel n B junk1 junk2 m (by omega)]
    constructor
    · intro h; cases h
    · rintro ⟨h, _⟩; exact absurd h h0
  rw [validate_results_of_nonneg exceeds fuel n B junk1 junk2 m h0]
  simp only [h0, true_and]
  split
  · rename_i e hn
    constructor
    · intro h
      cases h
      rcases rotate_naive_error hn with h | h <;> cases h
    · rintro ⟨mn, mb, h1, _⟩
      rw [hn] at h1; cases h1
  · rename_i mn hn
    have hsrc : mn.src = m.src := (rotate_naive_frame hn).1
    have hlen : (mn.dest.length : Int) = wrap32 (n * n) := by
      rw [(rotate_naive_frame hn).2]; exact length_newBuffer_of_nonneg junk1 h0
    rw [hsrc]
    split
    · rename_i e hbl
      constructor
      · intro h
        cases h
        rcases rotate_blocked_error hbl with h | h <;> cases h
      · rintro ⟨mn', mb, _, h2, _⟩
        rw [hbl] at h2; cases h2
    · rename_i mb hbl
      have hlen' : (mb.dest.length : Int) = wrap32 (n * n) := by
        rw [(rotate_blocked_frame hbl).2]; exact length_newBuffer_of_nonneg junk2 h0
      have key := compare_results_exit_iff exceeds fuel n mn.dest mb.dest hfuel hlen hlen'
      split
      · rename_i e hc
        constructor
        · intro h
          cases h
          exact ⟨mn, mb, hn, hbl, key.1 hc⟩
        · rintro ⟨mn', mb', h1, h2, h3⟩
          rw [hn] at h1; rw [hbl] at h2
          cases h1; cases h2
          rw [key.2 h3] at hc
          cases hc
          rfl
      · rename_i u hc
        constructor
        · intro h; cases h
        · rintro ⟨mn', mb', h1, h2, h3⟩
          rw [hn] at h1; rw [hbl] at h2
          cases h1; cases h2
          rw [key.2 h3] at hc
          cases hc

/-- With the program's own rotators the comparison finds nothing: for
`1 ≤ n ≤ 46340`, an `int` block size `B ≥ 1`, a source of `n * n` elements
and a test that no element fails against itself, `validate_results` returns,
and the caller's buffers are as before. -/
theorem validate_results_pass (exceeds : α → α → Bool) (fuel : Nat) (n B : Int)
    (junk1 junk2 : Nat → α) (m : Mem α) (hex : ∀ x, exceeds x x = false)
    (hn : 1 ≤ n) (hn' : n ≤ 46340) (hB : 1 ≤ B) (hB' : B ≤ 2147483647)
    (hfuel : n * n ≤ (fuel : Int)) (hs : (m.src.length : Int) = n * n) :
    validate_results exceeds fuel n B junk1 junk2 m = .ok m := by
  obtain ⟨hw, h0, hle⟩ := wrap32_square hn hn'
  have hfuel' : n ≤ (fuel : Int) := by omega
  have hn0 : 0 < n := by omega
  obtain ⟨mn, hrn, hRn⟩ := rotate_naive_spec n fuel
    ⟨m.src, newBuffer (n * n) junk1, []⟩ hn hn' hfuel' hs (length_newBuffer n junk1)
  obtain ⟨mb, hrb, hRb⟩ := rotate_blocked_spec n B fuel
    ⟨m.src, newBuffer (n * n) junk2, []⟩ hn hn' hB hB' hfuel' hs (length_newBuffer n junk2)
  have hsrc : mn.src = m.src := hRn.src_eq
  have hsrc' : mb.src = m.src := hRb.src_eq
  have heq : mb.dest = mn.dest :=
    RotOn.dest_eq hn0 hRn hRb rfl (length_newBuffer n junk1) (length_newBuffer n junk2)
  have hlen : (mn.dest.length : Int) = wrap32 (n * n) := by
    rw [hRn.len_eq, hw]; exact length_newBuffer n junk1
  have hcmp : compare_results exceeds fuel n mn.dest mb.dest = .ok () := by
    rw [heq]
    refine (compare_results_ok_iff exceeds fuel n _ _ (by omega) hlen hlen).2 ?_
    rintro i _ _ ⟨x, y, hx, hy, hgt⟩
    rw [hx] at hy
    cases hy
    rw [hex x] at hgt
    cases hgt
  rw [validate_results_of_nonneg exceeds fuel n B junk1 junk2 m (by omega), hw, hrn]
  simp only [hsrc]
  rw [hrb]
  simp only [hcmp, hsrc']

/-- With block size zero `validate_results` never gets past its blocked
rotation. -/
theorem validate_results_zero (exceeds : α → α → Bool) (fuel : Nat) (n : Int)
    (junk1 junk2 : Nat → α) (m : Mem α) (hn : 0 < n) :
    ∃ e, validate_results exceeds fuel n 0 junk1 junk2 m = .error e ∧
      (e = .outOfFuel ∨ e = .outOfBounds ∨ e = .badAlloc) := by
  by_cases h0 : 0 ≤ wrap32 (n * n)
  · rw [validate_results_of_nonneg exceeds fuel n 0 junk1 junk2 m h0]
    split
    · rename_i e hrn
      rcases rotate_naive_error hrn with h | h
      · exact ⟨e, rfl, Or.inl h⟩
      · exact ⟨e, rfl, Or.inr (Or.inl h)⟩
    · rw [rotate_blocked_zero fuel n _ hn]
      exact ⟨.outOfFuel, rfl, Or.inl rfl⟩
  · rw [validate_results_of_neg exceeds fuel n 0 junk1 junk2 m (by omega)]
    exact ⟨.badAlloc, rfl, Or.inr (Or.inr rfl)⟩

/-- For `1 ≤ n ≤ 46340` and an `int` block size `B ≥ 1` the program's
`validate_results` computes what its body computes with mathematical
integers. -/
theorem validate_results_eq (exceeds : α → α → Bool) (fuel : Nat) (n B : Int)
    (junk1 junk2 : Nat → α) (m : Mem α) (hn : 1 ≤ n) (hn' : n ≤ 46340) (hB : 1 ≤ B)
    (hB' : B ≤ 2147483647) :
    validate_results exceeds fuel n B junk1 junk2 m =
      validate_results_unbounded exceeds fuel n B junk1 junk2 m := by
  obtain ⟨hw, h0, _⟩ := wrap32_square hn hn'
  have key : ∀ a b : List α,
      compare_results exceeds fuel n a b =
        forLoop_unbounded (n * n) 1 (fun i _ =>
          match readAt a i, readAt b i with
          | some x, some y => if exceeds x y then .error (.exit 1) else .ok ()
          | _, _ => .error .outOfBounds) fuel 0 () := by
    intro a b
    rw [compare_results_unbounded, hw]
  rw [validate_results_of_nonneg exceeds fuel n B junk1 junk2 m (by omega)]
  unfold validate_results_unbounded
  simp only [hw, key, rotate_naive_eq fuel n _ hn hn',
    rotate_blocked_eq fuel n B _ hn hn' hB hB']

end Validator

/-! ## The harness -/

section Harness
variable {α : Type}

/-- When the buffer size `n * n` is negative as an `int`, the first allocation
of `main` throws. -/
theorem main_of_neg (exceeds : α → α → Bool) (fuel : Nat) (method : String) (n argv4 : Int)
    (content junk0 junk1 junk2 : Nat → α) (h : wrap32 (n * n) < 0) :
    main exceeds fuel method n argv4 content junk0 junk1 junk2 = .error .badAlloc := by
  unfold main
  simp only [allocate_of_neg content h]

/-- A run with a method other than `blocked` is one call of `rotate_naive` on
the loaded state, reported with block size `n`. -/
theorem main_naive_run (exceeds : α → α → Bool) (fuel : Nat) (method : String)
    (n argv4 : Int) (content junk0 junk1 junk2 : Nat → α) (hm : method ≠ "blocked")
    (h : 0 ≤ wrap32 (n * n)) :
    main exceeds fuel method n argv4 content junk0 junk1 junk2 =
      match rotate_naive fuel n
          { src := newBuffer (wrap32 (n * n)) content,
            dest := newBuffer (wrap32 (n * n)) junk0, trace := [] } with
      | .error e => .error e
      | .ok m2 => .ok { status := 0, block_size := n, mem := m2 } := by
  unfold main
  simp only [allocate_of_nonneg content h, allocate_of_nonneg junk0 h, hm, if_false]

/-- A run with method `blocked` is `validate_results` followed by one call of
`rotate_blocked`, both with the block size read from the fourth argument. -/
theorem main_blocked_run (exceeds : α → α → Bool) (fuel : Nat) (n argv4 : Int)
    (content junk0 junk1 junk2 : Nat → α) (h : 0 ≤ wrap32 (n * n)) :
    main exceeds fuel "blocked" n argv4 content junk0 junk1 junk2 =
      match validate_results exceeds fuel n argv4 junk1 junk2
          { src := newBuffer (wrap32 (n * n)) content,
            dest := newBuffer (wrap32 (n * n)) junk0, trace := [] } with
      | .error e => .error e
      | .ok m1 =>
        match rotate_blocked fuel n argv4 m1 with
        | .error e => .error e
        | .ok m2 => .ok { status := 0, block_size := argv4, mem := m2 } := by
  unfold main
  simp only [allocate_of_nonneg content h, allocate_of_nonneg junk0 h, if_true]

/-- The harness ends with status 1 exactly when the method is blocked and the
validator calls `exit(1)`. -/
theorem main_exit_one_iff (exceeds : α → α → Bool) (fuel : Nat) (method : String)
    (n argv4 : Int) (content junk0 junk1 junk2 : Nat → α) :
    exitStatus (main exceeds fuel method n argv4 content junk0 junk1 junk2) = some 1 ↔
      method = "blocked" ∧
        validate_results exceeds fuel n argv4 junk1 junk2
          { src := newBuffer (wrap32 (n * n)) content,
            dest := newBuffer (wrap32 (n * n)) junk0, trace := [] }
          = .error (.exit 1) := by
  by_cases h0 : 0 ≤ wrap32 (n * n)
  swap
  · rw [main_of_neg exceeds fuel method n argv4 content junk0 junk1 junk2 (by omega),
      validate_results_of_neg exceeds fuel n argv4 junk1 junk2 _ (by omega)]
    constructor
    · intro h; cases h
    · rintro ⟨_, h⟩; cases h
  by_cases hm : method = "blocked"
  · subst hm
    rw [main_blocked_run exceeds fuel n argv4 content junk0 junk1 junk2 h0]
    simp only [true_and]
    split
    · rename_i e hv
      constructor
      · intro h
        cases e <;> simp [exitStatus] at h
        subst h; exact hv
      · intro h
        rw [h] at hv; cases hv
        rfl
    · rename_i m1 hv
      constructor
      · intro h
        exfalso
        split at h
        · rename_i e hr
          rcases rotate_blocked_error hr with h' | h' <;> subst h' <;> simp [exitStatus] at h
        · simp [exitStatus] at h
      · intro h
        rw [h] at hv; cases hv
  · rw [main_naive_run exceeds fuel method n argv4 content junk0 junk1 junk2 hm h0]
    simp only [hm, false_and, iff_false]
    intro h
    split at h
    · rename_i e hr
      rcases rotate_naive_error hr with h' | h' <;> subst h' <;> simp [exitStatus] at h
    · simp [exitStatus] at h

/-- A run of the harness that reaches `return 0` has status 0, its buffers
could be allocated, and they are as left by one call of the selected rotator
on the loaded state. -/
theorem main_ok {exceeds : α → α → Bool} {fuel : Nat} {method : String} {n argv4 : Int}
    {content junk0 junk1 junk2 : Nat → α} {r : Report α}
    (h : main exceeds fuel method n argv4 content junk0 junk1 junk2 = .ok r) :
    r.status = 0 ∧ 0 ≤ wrap32 (n * n) ∧
      ((method = "blocked" ∧ r.block_size = argv4 ∧
          validate_results exceeds fuel n argv4 junk1 junk2
            { src := newBuffer (wrap32 (n * n)) content,
              dest := newBuffer (wrap32 (n * n)) junk0, trace := [] }
            = .ok { src := newBuffer (wrap32 (n * n)) content,
                    dest := newBuffer (wrap32 (n * n)) junk0, trace := [] } ∧
          rotate_blocked fuel n argv4
            { src := newBuffer (wrap32 (n * n)) content,
              dest := newBuffer (wrap32 (n * n)) junk0, trace := [] }
            = .ok r.mem) ∨
       (method ≠ "blocked" ∧ r.block_size = n ∧
          rotate_naive fuel n
            { src := newBuffer (wrap32 (n * n)) content,
              dest := newBuffer (wrap32 (n * n)) junk0, trace := [] }
            = .ok r.mem)) := by
  by_cases h0 : 0 ≤ wrap32 (n * n)
  swap
  · rw [main_of_neg exceeds fuel method n argv4 content junk0 junk1 junk2 (by omega)] at h
    cases h
  by_cases hm : method = "blocked"
  · subst hm
    rw [main_blocked_run exceeds fuel n argv4 content junk0 junk1 junk2 h0] at h
    split at h
    · cases h
    · rename_i m1 hv
      have hm1 := validate_results_ok hv
      subst hm1
      split at h
      · cases h
      · rename_i m2 hr
        cases h
        exact ⟨rfl, h0, Or.inl ⟨rfl, rfl, hv, hr⟩⟩
  · rw [main_naive_run exceeds fuel method n argv4 content junk0 junk1 junk2 hm h0] at h
    split at h
    · cases h
    · rename_i m2 hr
      cases h
      exact ⟨rfl, h0, Or.inr ⟨hm, rfl, hr⟩⟩

/-- The only status with which the harness ever calls `exit` is 1. -/
theorem main_error {exceeds : α → α → Bool} {fuel : Nat} {method : String} {n argv4 : Int}
    {content junk0 junk1 junk2 : Nat → α} {e : Halt}
    (h : main exceeds fuel method n argv4 content junk0 junk1 junk2 = .error e) :
    e = .outOfFuel ∨ e = .outOfBounds ∨ e = .badAlloc ∨ e = .exit 1 := by
  by_cases h0 : 0 ≤ wrap32 (n * n)
  swap
  · rw [main_of_neg exceeds fuel method n argv4 content junk0 junk1 junk2 (by omega)] at h
    cases h
    exact Or.inr (Or.inr (Or.inl rfl))
  by_cases hm : method = "blocked"
  · subst hm
    rw [main_blocked_run exceeds fuel n argv4 content junk0 junk1 junk2 h0] at h
    split at h
    · rename_i e1 hv
      cases h
      exact validate_results_error hv
    · split at h
      · rename_i e1 hr
        cases h
        rcases rotate_blocked_error hr with h | h
        · exact Or.inl h
        · exact Or.inr (Or.inl h)
      · cases h
  · rw [main_naive_run exceeds fuel method n argv4 content junk0 junk1 junk2 hm h0] at h
    split at h
    · rename_i e1 hr
      cases h
      rcases rotate_naive_error hr with h | h
      · exact Or.inl h
      · exact Or.inr (Or.inl h)
    · cases h

/-- For `1 ≤ n ≤ 46340` a run with a method other than `blocked` reaches
`return 0` with what `rotate_naive` leaves. -/
theorem main_naive_result (exceeds : α → α → Bool) (fuel : Nat) (method : String)
    (n argv4 : Int) (content junk0 junk1 junk2 : Nat → α) (hm : method ≠ "blocked")
    (hn : 1 ≤ n) (hn' : n ≤ 46340) (hfuel : n ≤ (fuel : Int)) :
    ∃ mn, rotate_naive fuel n
        { src := newBuffer (n * n) content, dest := newBuffer (n * n) junk0, trace := [] }
        = .ok mn ∧
      RotOn n (fun _ _ => True)
        { src := newBuffer (n * n) content, dest := newBuffer (n * n) junk0, trace := [] } mn ∧
      main exceeds fuel method n argv4 content junk0 junk1 junk2 =
        .ok { status := 0, block_size := n, mem := mn } := by
  obtain ⟨hw, h0, _⟩ := wrap32_square hn hn'
  obtain ⟨mn, hrn, hRn⟩ := rotate_naive_spec n fuel
    ⟨newBuffer (n * n) content, newBuffer (n * n) junk0, []⟩ hn hn' hfuel
    (length_newBuffer n content) (length_newBuffer n junk0)
  refine ⟨mn, hrn, hRn, ?_⟩
  rw [main_naive_run exceeds fuel method n argv4 content junk0 junk1 junk2 hm (by omega), hw]
  simp only [hrn]

/-- For `1 ≤ n ≤ 46340`, an `int` block size of at least one and a test that
no element fails against itself, a `blocked` run passes validation and
reports what the timed `rotate_blocked` call leaves. -/
theorem main_blocked_result (exceeds : α → α → Bool) (fuel : Nat) (n argv4 : Int)
    (content junk0 junk1 junk2 : Nat → α) (hex : ∀ x, exceeds x x = false)
    (hn : 1 ≤ n) (hn' : n ≤ 46340) (hB : 1 ≤ argv4) (hB' : argv4 ≤ 2147483647)
    (hfuel : n * n ≤ (fuel : Int)) :
    ∃ mb, rotate_blocked fuel n argv4
        { src := newBuffer (n * n) content, dest := newBuffer (n * n) junk0, trace := [] }
        = .ok mb ∧
      RotOn n (fun _ _ => True)
        { src := newBuffer (n * n) content, dest := newBuffer (n * n) junk0, trace := [] } mb ∧
      main exceeds fuel "blocked" n argv4 content junk0 junk1 junk2 =
        .ok { status := 0, block_size := argv4, mem := mb } := by
  obtain ⟨hw, h0, hle⟩ := wrap32_square hn hn'
  have hfuel' : n ≤ (fuel : Int) := by omega
  obtain ⟨mb, hrb, hRb⟩ := rotate_blocked_spec n argv4 fuel
    ⟨newBuffer (n * n) content, newBuffer (n * n) junk0, []⟩ hn hn' hB hB' hfuel'
    (length_newBuffer n content) (length_newBuffer n junk0)
  refine ⟨mb, hrb, hRb, ?_⟩
  rw [main_blocked_run exceeds fuel n argv4 content junk0 junk1 junk2 (by omega), hw,
    validate_results_pass exceeds fuel n argv4 junk1 junk2 _ hex hn hn' hB hB' hfuel
      (length_newBuffer n content)]
  simp only [hrb]

/-- For `1 ≤ n ≤ 46340` and, when the method is `blocked`, an `int` block
size of at least one and a test that no element fails against itself, the
harness reaches `return 0`. -/
theorem main_status_zero (exceeds : α → α → Bool) (fuel : Nat) (method : String)
    (n argv4 : Int) (content junk0 junk1 junk2 : Nat → α) (hn : 1 ≤ n) (hn' : n ≤ 46340)
    (hB : method = "blocked" → 1 ≤ argv4 ∧ argv4 ≤ 2147483647 ∧ ∀ x, exceeds x x = false)
    (hfuel : n * n ≤ (fuel : Int)) :
    exitStatus (main exceeds fuel method n argv4 content junk0 junk1 junk2) = some 0 := by
  obtain ⟨hw, h0, hle⟩ := wrap32_square hn hn'
  by_cases hm : method = "blocked"
  · obtain ⟨h1, h2, hex⟩ := hB hm
    subst hm
    obtain ⟨mb, _, _, hmain⟩ := main_blocked_result exceeds fuel n argv4 content junk0 junk1
      junk2 hex hn hn' h1 h2 hfuel
    rw [hmain]
    rfl
  · obtain ⟨mn, _, _, hmain⟩ := main_naive_result exceeds fuel method n argv4 content junk0
      junk1 junk2 hm hn hn' (by omega)
    rw [hmain]
    rfl

/-- A `blocked` run whose block-size argument parses to zero never comes to an
end. -/
theorem main_blocked_zero (exceeds : α → α → Bool) (fuel : Nat) (n : Int)
    (content junk0 junk1 junk2 : Nat → α) (hn : 0 < n) :
    exitStatus (main exceeds fuel "blocked" n 0 content junk0 junk1 junk2) = none := by
  by_cases h0 : 0 ≤ wrap32 (n * n)
  · obtain ⟨e, hv, he⟩ := validate_results_zero exceeds fuel n junk1 junk2
      { src := newBuffer (wrap32 (n * n)) content,
        dest := newBuffer (wrap32 (n * n)) junk0, trace := [] } hn
    rw [main_blocked_run exceeds fuel n 0 content junk0 junk1 junk2 h0, hv]
    rcases he with he | he | he <;> subst he <;> rfl
  · rw [main_of_neg exceeds fuel "blocked" n 0 content junk0 junk1 junk2 (by omega)]
    rfl

/-- What is left of a `blocked` run with block size zero once the naive half
of the validation is through: the blocked rotation, out of fuel. -/
theorem main_blocked_zero_timeout (exceeds : α → α → Bool) (fuel : Nat) (n : Int)
    (content junk0 junk1 junk2 : Nat → α) (hn : 0 < n) (hn' : n ≤ 46340)
    (hfuel : n ≤ (fuel : Int)) :
    main exceeds fuel "blocked" n 0 content junk0 junk1 junk2 = .error .outOfFuel := by
  obtain ⟨hw, h0, _⟩ := wrap32_square (show 1 ≤ n by omega) hn'
  obtain ⟨mn, hrn, _⟩ := rotate_naive_spec n fuel
    ⟨newBuffer (n * n) content, newBuffer (n * n) junk1, []⟩ (by omega) hn' hfuel
    (length_newBuffer n content) (length_newBuffer n junk1)
  rw [main_blocked_run exceeds fuel n 0 content junk0 junk1 junk2 (by omega),
    validate_results_of_nonneg exceeds fuel n 0 junk1 junk2 _ (by omega), hw]
  simp only [hrn, rotate_blocked_zero fuel n _ hn]

end Harness

/-! ## The validator and the harness beyond `n = 46340` -/

section HarnessRange
variable {α : Type}

/-- For every `int` `n ≥ 46341` `validate_results` never returns: either its
first allocation throws or its naive rotation does not return. -/
theorem validate_results_overflow_range (exceeds : α → α → Bool) (fuel : Nat) (n B : Int)
    (junk1 junk2 : Nat → α) (m m' : Mem α) (hn : 46341 ≤ n) (hn' : n ≤ 2147483647) :
    validate_results exceeds fuel n B junk1 junk2 m ≠ .ok m' := by
  by_cases h0 : 0 ≤ wrap32 (n * n)
  · rw [validate_results_of_nonneg exceeds fuel n B junk1 junk2 m h0]
    split
    · intro h; cases h
    · rename_i mn hrn
      exact absurd hrn (rotate_naive_overflow_range fuel n _ mn hn hn')
  · rw [validate_results_of_neg exceeds fuel n B junk1 junk2 m (by omega)]
    intro h; cases h

/-- For every `int` `n ≥ 46341` no run of the harness reaches `return 0`,
whatever the method. -/
theorem main_overflow_range (exceeds : α → α → Bool) (fuel : Nat) (method : String)
    (n argv4 : Int) (content junk0 junk1 junk2 : Nat → α) (r : Report α) (hn : 46341 ≤ n)
    (hn' : n ≤ 2147483647) :
    main exceeds fuel method n argv4 content junk0 junk1 junk2 ≠ .ok r := by
  intro h
  obtain ⟨_, _, hcase⟩ := main_ok h
  rcases hcase with ⟨_, _, hv, _⟩ | ⟨_, _, hrn⟩
  · exact validate_results_overflow_range exceeds fuel n argv4 junk1 junk2 _ _ hn hn' hv
  · exact rotate_naive_overflow_range fuel n _ _ hn hn' hrn

end HarnessRange

/-! ## The rotators: equivalence, contract, scenarios -/

section RotatorClaims
variable {α : Type}

/-- C1, as stated, fails at `n = 46341`, `B = n`: on a source and destinations
of `n * n = 2147488281` elements `rotate_naive` stops at the cell `(0, 41708)`,
whose source index `2^31` does not fit an `int`, with an access outside the
source buffer, and `rotate_blocked` does not return either, whatever the
fuel. Neither leaves a destination array. The same holds at every larger
`int` size: from `n = 46341` on neither rotator ever returns. -/
theorem rotate_blocked_eq_rotate_naive_counterexample :
    rotate_naive 46341 46341
        { src := List.replicate 2147488281 (0 : ℚ), dest := List.replicate 2147488281 0,
          trace := [] } = .error .outOfBounds ∧
    (¬ ∃ (fuel : Nat) (mb : Mem ℚ),
      rotate_blocked fuel 46341 46341
        { src := List.replicate 2147488281 (0 : ℚ), dest := List.replicate 2147488281 0,
          trace := [] } = .ok mb) ∧
    (¬ ∃ (n : Int) (fuel : Nat) (m0 m : Mem ℚ),
      46341 ≤ n ∧ n ≤ 2147483647 ∧ rotate_naive fuel n m0 = .ok m) ∧
    (¬ ∃ (n B : Int) (fuel : Nat) (m0 m : Mem ℚ),
      46341 ≤ n ∧ n ≤ 2147483647 ∧ 1 ≤ B ∧ B ≤ 2147483647 ∧
        rotate_blocked fuel n B m0 = .ok m) :=
  ⟨rotate_naive_overflow_replicate 46341 _ _ (by decide),
    fun ⟨fuel, mb, h⟩ => rotate_blocked_overflow fuel 46341 _ mb (by decide) (by decide) h,
    fun ⟨n, fuel, m0, m, hn, hn', h⟩ => rotate_naive_overflow_range fuel n m0 m hn hn' h,
    fun ⟨n, B, fuel, m0, m, hn, hn', hB, hB', h⟩ =>
      rotate_blocked_overflow_range fuel n B m0 m hn hn' hB hB' h⟩

/-- C1, amended: for every `n` with `1 ≤ n ≤ 46340`, every block size `B` with
`1 ≤ B ≤ n` (dividing `n` or not) and every source of `n * n` elements,
`rotate_blocked` and `rotate_naive` both return and leave exactly the same
destination array of `n * n` elements, whatever the two destination buffers
held before. -/
theorem rotate_blocked_eq_rotate_naive (n B : Int) (fuel : Nat) (src dn db : List α)
    (hn : 1 ≤ n) (hn' : n ≤ 46340) (hB : 1 ≤ B) (hBn : B ≤ n) (hfuel : n ≤ (fuel : Int))
    (hs : (src.length : Int) = n * n) (hdn : (dn.length : Int) = n * n)
    (hdb : (db.length : Int) = n * n) :
    ∃ mn mb,
      rotate_naive fuel n { src := src, dest := dn, trace := [] } = .ok mn ∧
      rotate_blocked fuel n B { src := src, dest := db, trace := [] } = .ok mb ∧
      mb.dest = mn.dest ∧ (mn.dest.length : Int) = n * n := by
  obtain ⟨mn, hrn, hRn⟩ := rotate_naive_spec n fuel ⟨src, dn, []⟩ hn hn' hfuel hs hdn
  obtain ⟨mb, hrb, hRb⟩ := rotate_blocked_spec n B fuel ⟨src, db, []⟩ hn hn' hB (by omega)
    hfuel hs hdb
  exact ⟨mn, mb, hrn, hrb, RotOn.dest_eq (by omega) hRn hRb rfl hdn hdb,
    by rw [hRn.len_eq]; exact hdn⟩

theorem rotate_blocked_eq_rotate_naive_witness :
    ∃ mn mb : Mem ℚ,
      rotate_naive 3 3 { src := ([1, 2, 3, 4, 5, 6, 7, 8, 9] : List ℚ),
                         dest := [0, 0, 0, 0, 0, 0, 0, 0, 0], trace := [] } = .ok mn ∧
      rotate_blocked 3 3 2 { src := ([1, 2, 3, 4, 5, 6, 7, 8, 9] : List ℚ),
                             dest := [9, 9, 9, 9, 9, 9, 9, 9, 9], trace := [] } = .ok mb ∧
      mb.dest = mn.dest ∧ (mn.dest.length : Int) = 3 * 3 :=
  rotate_blocked_eq_rotate_naive 3 2 3 ([1, 2, 3, 4, 5, 6, 7, 8, 9] : List ℚ)
    [0, 0, 0, 0, 0, 0, 0, 0, 0] [9, 9, 9, 9, 9, 9, 9, 9, 9]
    (by decide) (by decide) (by decide) (by decide) (by decide) (by decide) (by decide)
    (by decide)

/-- C2, as stated, fails at `n = 46341`: for `row = 0`, `col = 41708` the
source index `(n - 1 - row) * n + col` is `2^31`, which the program's `int`
holds as `-2^31`, and on buffers of `n * n = 2147488281` elements
`rotate_naive` stops there with an access outside the source buffer instead of
leaving the rotated matrix in `dest`. At no `int` size from `46341` on does
`rotate_naive` ever return. -/
theorem rotate_naive_contract_counterexample :
    (46341 - 1 - 0) * 46341 + 41708 = (2147483648 : Int) ∧
    wrap32 (wrap32 (wrap32 (wrap32 (46341 - 1) - 0) * 46341) + 41708) = -2147483648 ∧
    rotate_naive 46341 46341
        { src := List.replicate 2147488281 (1 : ℚ), dest := List.replicate 2147488281 0,
          trace := [] } = .error .outOfBounds ∧
    (¬ ∃ (n : Int) (fuel : Nat) (m0 m : Mem ℚ),
      46341 ≤ n ∧ n ≤ 2147483647 ∧ rotate_naive fuel n m0 = .ok m) :=
  ⟨by decide, by decide, rotate_naive_overflow_replicate 46341 _ _ (by decide),
    fun ⟨n, fuel, m0, m, hn, hn', h⟩ => rotate_naive_overflow_range fuel n m0 m hn hn' h⟩

/-- C2, amended: for every `n` with `1 ≤ n ≤ 46340` and every source of `n * n`
elements, `rotate_naive` returns and afterwards
`dest[col * n + row] = src[(n - 1 - row) * n + col]` for all `row`, `col` in
`[0, n)`; equivalently the destination at matrix position `(r, c)` is the
source at `(n - 1 - c, r)`. -/
theorem rotate_naive_contract (n : Int) (fuel : Nat) (m0 : Mem α) (hn : 1 ≤ n)
    (hn' : n ≤ 46340) (hfuel : n ≤ (fuel : Int)) (hs : (m0.src.length : Int) = n * n)
    (hd : (m0.dest.length : Int) = n * n) :
    ∃ m, rotate_naive fuel n m0 = .ok m ∧ (m.dest.length : Int) = n * n ∧
      (∀ row col, 0 ≤ row → row < n → 0 ≤ col → col < n →
        ∃ v, readAt m0.src ((n - 1 - row) * n + col) = some v ∧
          readAt m.dest (col * n + row) = some v) ∧
      (∀ r c, 0 ≤ r → r < n → 0 ≤ c → c < n →
        ∃ v, readAt m0.src ((n - 1 - c) * n + r) = some v ∧
          readAt m.dest (r * n + c) = some v) := by
  obtain ⟨m, hrun, hR⟩ := rotate_naive_spec n fuel m0 hn hn' hfuel hs hd
  exact ⟨m, hrun, by rw [hR.len_eq]; exact hd,
    fun row col h1 h2 h3 h4 => hR.read hs h1 h2 h3 h4,
    fun r c h1 h2 h3 h4 => hR.read hs h3 h4 h1 h2⟩

theorem rotate_naive_contract_witness :
    ∃ m, rotate_naive 2 2 { src := ([1, 2, 3, 4] : List ℚ), dest := [0, 0, 0, 0], trace := [] }
        = .ok m ∧ (m.dest.length : Int) = 2 * 2 ∧
      (∀ row col, 0 ≤ row → row < 2 → 0 ≤ col → col < 2 →
        ∃ v, readAt ([1, 2, 3, 4] : List ℚ) ((2 - 1 - row) * 2 + col) = some v ∧
          readAt m.dest (col * 2 + row) = some v) ∧
      (∀ r c, 0 ≤ r → r < 2 → 0 ≤ c → c < 2 →
        ∃ v, readAt ([1, 2, 3, 4] : List ℚ) ((2 - 1 - c) * 2 + r) = some v ∧
          readAt m.dest (r * 2 + c) = some v) :=
  rotate_naive_contract 2 2 { src := ([1, 2, 3, 4] : List ℚ), dest := [0, 0, 0, 0], trace := [] }
    (by decide) (by decide) (by decide) (by decide) (by decide)

/-- C3: `rotate_naive` with `n = 3` on the row-major source `[1, ..., 9]`
returns, whatever the destination held before, with the row-major destination
`[7, 4, 1, 8, 5, 2, 9, 6, 3]` (any fuel of at least three iterations per loop). -/
theorem rotate_naive_three_by_three (fuel : Nat) (d0 d1 d2 d3 d4 d5 d6 d7 d8 : ℚ) :
    ∃ m, rotate_naive (fuel + 3) 3
        { src := [1, 2, 3, 4, 5, 6, 7, 8, 9],
          dest := [d0, d1, d2, d3, d4, d5, d6, d7, d8], trace := [] } = .ok m ∧
      m.dest = [7, 4, 1, 8, 5, 2, 9, 6, 3] := by
  cases fuel <;> exact ⟨_, rfl, rfl⟩

/-- C4, as stated, fails at `n = 46341`: the destination index
`(n - 1) * n + (n - 1)` of the corner `(n - 1, n - 1)` is `2147488280`, which
the program's `int` holds as `-2147479016`, and `rotate_naive` does not return
on any buffers, whatever the fuel, so no corner is moved to a destination that
the call leaves behind. Nor does it return at any larger `int` size. -/
theorem rotate_naive_corners_counterexample :
    (46341 - 1) * 46341 + (46341 - 1) = (2147488280 : Int) ∧
    wrap32 (wrap32 ((46341 - 1) * 46341) + (46341 - 1)) = -2147479016 ∧
    (¬ ∃ (fuel : Nat) (m0 m : Mem ℚ), rotate_naive fuel 46341 m0 = .ok m) ∧
    (¬ ∃ (n : Int) (fuel : Nat) (m0 m : Mem ℚ),
      46341 ≤ n ∧ n ≤ 2147483647 ∧ rotate_naive fuel n m0 = .ok m) :=
  ⟨by decide, by decide, fun ⟨fuel, m0, m, h⟩ => rotate_naive_overflow fuel m0 m h,
    fun ⟨n, fuel, m0, m, hn, hn', h⟩ => rotate_naive_overflow_range fuel n m0 m hn hn' h⟩

/-- C4, amended: for every `n` with `1 ≤ n ≤ 46340` and every source of
`n * n` elements, after `rotate_naive` the source element at `(0, 0)` is at
destination `(0, n - 1)`, the one at `(n - 1, 0)` is at `(0, 0)` and the one at
`(0, n - 1)` is at `(n - 1, n - 1)`. -/
theorem rotate_naive_corners (n : Int) (fuel : Nat) (m0 : Mem α) (hn : 1 ≤ n)
    (hn' : n ≤ 46340) (hfuel : n ≤ (fuel : Int)) (hs : (m0.src.length : Int) = n * n)
    (hd : (m0.dest.length : Int) = n * n) :
    ∃ m, rotate_naive fuel n m0 = .ok m ∧
      (∃ v, readAt m0.src 0 = some v ∧ readAt m.dest (0 * n + (n - 1)) = some v) ∧
      (∃ v, readAt m0.src ((n - 1) * n) = some v ∧ readAt m.dest 0 = some v) ∧
      (∃ v, readAt m0.src (n - 1) = some v ∧
        readAt m.dest ((n - 1) * n + (n - 1)) = some v) := by
  obtain ⟨m, hrun, hR⟩ := rotate_naive_spec n fuel m0 hn hn' hfuel hs hd
  have h1 := hR.read hs (r := n - 1) (c := 0) (by omega) (by omega) le_rfl (by omega)
  have h2 := hR.read hs (r := 0) (c := 0) le_rfl (by omega) le_rfl (by omega)
  have h3 := hR.read hs (r := n - 1) (c := n - 1) (by omega) (by omega) (by omega) (by omega)
  have e1 : (n - 1 - (n - 1)) * n + 0 = 0 := by ring
  have e2 : (n - 1 - 0) * n + 0 = (n - 1) * n := by ring
  have e2' : 0 * n + 0 = 0 := by ring
  have e3 : (n - 1 - (n - 1)) * n + (n - 1) = n - 1 := by ring
  rw [e1] at h1
  rw [e2, e2'] at h2
  rw [e3] at h3
  exact ⟨m, hrun, h1, h2, h3⟩

theorem rotate_naive_corners_witness :
    ∃ m, rotate_naive 2 2 { src := ([1, 2, 3, 4] : List ℚ), dest := [0, 0, 0, 0], trace := [] }
        = .ok m ∧
      (∃ v, readAt ([1, 2, 3, 4] : List ℚ) 0 = some v ∧
        readAt m.dest (0 * 2 + (2 - 1)) = some v) ∧
      (∃ v, readAt ([1, 2, 3, 4] : List ℚ) ((2 - 1) * 2) = some v ∧ readAt m.dest 0 = some v) ∧
      (∃ v, readAt ([1, 2, 3, 4] : List ℚ) (2 - 1) = some v ∧
        readAt m.dest ((2 - 1) * 2 + (2 - 1)) = some v) :=
  rotate_naive_corners 2 2 { src := ([1, 2, 3, 4] : List ℚ), dest := [0, 0, 0, 0], trace := [] }
    (by decide) (by decide) (by decide) (by decide) (by decide)

/-- C5, as stated, fails at `n = 46341`: already the first of the four
rotations does not return, whatever the matrix, the destination and the fuel,
for `rotate_naive` and for `rotate_blocked` with `B = 1`; nor does either
rotator ever return at a larger `int` size. -/
theorem rotate_four_times_identity_counterexample :
    (¬ ∃ (fuel : Nat) (M d1 : List ℚ) (m1 : Mem ℚ),
      rotate_naive fuel 46341 { src := M, dest := d1, trace := [] } = .ok m1) ∧
    (¬ ∃ (fuel : Nat) (M d1 : List ℚ) (m1 : Mem ℚ),
      rotate_blocked fuel 46341 1 { src := M, dest := d1, trace := [] } = .ok m1) ∧
    (¬ ∃ (n : Int) (fuel : Nat) (m0 m : Mem ℚ),
      46341 ≤ n ∧ n ≤ 2147483647 ∧ rotate_naive fuel n m0 = .ok m) ∧
    (¬ ∃ (n B : Int) (fuel : Nat) (m0 m : Mem ℚ),
      46341 ≤ n ∧ n ≤ 2147483647 ∧ 1 ≤ B ∧ B ≤ 2147483647 ∧
        rotate_blocked fuel n B m0 = .ok m) :=
  ⟨fun ⟨fuel, _, _, m1, h⟩ => rotate_naive_overflow fuel _ m1 h,
    fun ⟨fuel, _, _, m1, h⟩ => rotate_blocked_overflow fuel 1 _ m1 (by decide) (by decide) h,
    fun ⟨n, fuel, m0, m, hn, hn', h⟩ => rotate_naive_overflow_range fuel n m0 m hn hn' h,
    fun ⟨n, B, fuel, m0, m, hn, hn', hB, hB', h⟩ =>
      rotate_blocked_overflow_range fuel n B m0 m hn hn' hB hB' h⟩

/-- C5, amended: for every `n` with `1 ≤ n ≤ 46340` and every matrix `M` of
`n * n` elements, four successive runs of `rotate_naive`, each taking the
previous destination as its source, return and leave exactly `M` in the last
destination; the same holds for `rotate_blocked` with any `B` in `[1, n]`. -/
theorem rotate_four_times_identity (n B : Int) (fuel : Nat) (M d1 d2 d3 d4 : List α)
    (hn : 1 ≤ n) (hn' : n ≤ 46340) (hB : 1 ≤ B) (hBn : B ≤ n) (hfuel : n ≤ (fuel : Int))
    (hM : (M.length : Int) = n * n)
    (h1 : (d1.length : Int) = n * n) (h2 : (d2.length : Int) = n * n)
    (h3 : (d3.length : Int) = n * n) (h4 : (d4.length : Int) = n * n) :
    (∃ m1 m2 m3 m4,
      rotate_naive fuel n { src := M, dest := d1, trace := [] } = .ok m1 ∧
      rotate_naive fuel n { src := m1.dest, dest := d2, trace := [] } = .ok m2 ∧
      rotate_naive fuel n { src := m2.dest, dest := d3, trace := [] } = .ok m3 ∧
      rotate_naive fuel n { src := m3.dest, dest := d4, trace := [] } = .ok m4 ∧
      m4.dest = M) ∧
    (∃ m1 m2 m3 m4,
      rotate_blocked fuel n B { src := M, dest := d1, trace := [] } = .ok m1 ∧
      rotate_blocked fuel n B { src := m1.dest, dest := d2, trace := [] } = .ok m2 ∧
      rotate_blocked fuel n B { src := m2.dest, dest := d3, trace := [] } = .ok m3 ∧
      rotate_blocked fuel n B { src := m3.dest, dest := d4, trace := [] } = .ok m4 ∧
      m4.dest = M) :=
  ⟨four_rotations n (by omega) (rotate_naive fuel n)
      (fun m0 hs hd => rotate_naive_spec n fuel m0 hn hn' hfuel hs hd)
      M d1 d2 d3 d4 hM h1 h2 h3 h4,
   four_rotations n (by omega) (rotate_blocked fuel n B)
      (fun m0 hs hd => rotate_blocked_spec n B fuel m0 hn hn' hB (by omega) hfuel hs hd)
      M d1 d2 d3 d4 hM h1 h2 h3 h4⟩

theorem rotate_four_times_identity_witness :
    (∃ m1 m2 m3 m4 : Mem ℚ,
      rotate_naive 2 2 { src := ([1, 2, 3, 4] : List ℚ), dest := [0, 0, 0, 0], trace := [] } = .ok m1 ∧
      rotate_naive 2 2 { src := m1.dest, dest := [5, 5, 5, 5], trace := [] } = .ok m2 ∧
      rotate_naive 2 2 { src := m2.dest, dest := [6, 6, 6, 6], trace := [] } = .ok m3 ∧
      rotate_naive 2 2 { src := m3.dest, dest := [7, 7, 7, 7], trace := [] } = .ok m4 ∧
      m4.dest = [1, 2, 3, 4]) ∧
    (∃ m1 m2 m3 m4 : Mem ℚ,
      rotate_blocked 2 2 1 { src := ([1, 2, 3, 4] : List ℚ), dest := [0, 0, 0, 0], trace := [] } = .ok m1 ∧
      rotate_blocked 2 2 1 { src := m1.dest, dest := [5, 5, 5, 5], trace := [] } = .ok m2 ∧
      rotate_blocked 2 2 1 { src := m2.dest, dest := [6, 6, 6, 6], trace := [] } = .ok m3 ∧
      rotate_blocked 2 2 1 { src := m3.dest, dest := [7, 7, 7, 7], trace := [] } = .ok m4 ∧
      m4.dest = [1, 2, 3, 4]) :=
  rotate_four_times_identity 2 1 2 ([1, 2, 3, 4] : List ℚ) [0, 0, 0, 0] [5, 5, 5, 5]
    [6, 6, 6, 6] [7, 7, 7, 7] (by decide) (by decide) (by decide) (by decide) (by decide)
    (by decide) (by decide) (by decide) (by decide) (by decide)

/-- C6, as stated, fails at `n = 46341`: with `B = 1` and with `B = n`
`rotate_blocked` does not return, whatever the buffers and the fuel, and
neither does `rotate_naive`, so there are no results to be identical; the
same holds at every larger `int` size, for every `int` block size `B ≥ 1`. -/
theorem rotate_blocked_boundary_block_sizes_counterexample :
    (¬ ∃ (fuel : Nat) (m0 mb : Mem ℚ), rotate_blocked fuel 46341 1 m0 = .ok mb) ∧
    (¬ ∃ (fuel : Nat) (m0 mb : Mem ℚ), rotate_blocked fuel 46341 46341 m0 = .ok mb) ∧
    (¬ ∃ (fuel : Nat) (m0 mn : Mem ℚ), rotate_naive fuel 46341 m0 = .ok mn) ∧
    (¬ ∃ (n : Int) (fuel : Nat) (m0 m : Mem ℚ),
      46341 ≤ n ∧ n ≤ 2147483647 ∧ rotate_naive fuel n m0 = .ok m) ∧
    (¬ ∃ (n B : Int) (fuel : Nat) (m0 m : Mem ℚ),
      46341 ≤ n ∧ n ≤ 2147483647 ∧ 1 ≤ B ∧ B ≤ 2147483647 ∧
        rotate_blocked fuel n B m0 = .ok m) :=
  ⟨fun ⟨fuel, m0, mb, h⟩ => rotate_blocked_overflow fuel 1 m0 mb (by decide) (by decide) h,
    fun ⟨fuel, m0, mb, h⟩ =>
      rotate_blocked_overflow fuel 46341 m0 mb (by decide) (by decide) h,
    fun ⟨fuel, m0, mn, h⟩ => rotate_naive_overflow fuel m0 mn h,
    fun ⟨n, fuel, m0, m, hn, hn', h⟩ => rotate_naive_overflow_range fuel n m0 m hn hn' h,
    fun ⟨n, B, fuel, m0, m, hn, hn', hB, hB', h⟩ =>
      rotate_blocked_overflow_range fuel n B m0 m hn hn' hB hB' h⟩

/-- C6, amended: for every `n` with `1 ≤ n ≤ 46340` and every source of
`n * n` elements, `rotate_blocked` with `B = 1`, with `B = n`, and with any
`int` `B ≥ 1` that does not divide `n` leaves the same destination as
`rotate_naive`; in particular so does `n = 5`, `B = 2` on every source of 25
elements, and `n = 3`, `B = 2` on the source `[1, ..., 9]` leaves
`[7, 4, 1, 8, 5, 2, 9, 6, 3]`. -/
theorem rotate_blocked_boundary_block_sizes (n : Int) (fuel : Nat) (src dn db : List α)
    (hn : 1 ≤ n) (hn' : n ≤ 46340) (hfuel : n ≤ (fuel : Int))
    (hs : (src.length : Int) = n * n)
    (hdn : (dn.length : Int) = n * n) (hdb : (db.length : Int) = n * n) :
    (∃ mn mb,
      rotate_naive fuel n { src := src, dest := dn, trace := [] } = .ok mn ∧
      rotate_blocked fuel n 1 { src := src, dest := db, trace := [] } = .ok mb ∧
      mb.dest = mn.dest) ∧
    (∃ mn mb,
      rotate_naive fuel n { src := src, dest := dn, trace := [] } = .ok mn ∧
      rotate_blocked fuel n n { src := src, dest := db, trace := [] } = .ok mb ∧
      mb.dest = mn.dest) ∧
    (∀ B : Int, 1 ≤ B → B ≤ 2147483647 → ¬ B ∣ n →
      ∃ mn mb,
        rotate_naive fuel n { src := src, dest := dn, trace := [] } = .ok mn ∧
        rotate_blocked fuel n B { src := src, dest := db, trace := [] } = .ok mb ∧
        mb.dest = mn.dest) ∧
    (∀ (f : Nat) (s a b : List α), 5 ≤ f → s.length = 25 → a.length = 25 → b.length = 25 →
      ∃ mn mb,
        rotate_naive f 5 { src := s, dest := a, trace := [] } = .ok mn ∧
        rotate_blocked f 5 2 { src := s, dest := b, trace := [] } = .ok mb ∧
        mb.dest = mn.dest) ∧
    (∀ (f : Nat) (e0 e1 e2 e3 e4 e5 e6 e7 e8 : ℚ),
      ∃ mn mb,
        rotate_naive (f + 3) 3
          { src := [1, 2, 3, 4, 5, 6, 7, 8, 9],
            dest := [e0, e1, e2, e3, e4, e5, e6, e7, e8], trace := [] } = .ok mn ∧
        rotate_blocked (f + 3) 3 2
          { src := [1, 2, 3, 4, 5, 6, 7, 8, 9],
            dest := [e0, e1, e2, e3, e4, e5, e6, e7, e8], trace := [] } = .ok mb ∧
        mb.dest = [7, 4, 1, 8, 5, 2, 9, 6, 3] ∧ mb.dest = mn.dest) := by
  have key : ∀ (n B : Int) (fuel : Nat) (src dn db : List α), 1 ≤ n → n ≤ 46340 → 1 ≤ B →
      B ≤ 2147483647 →
      n ≤ (fuel : Int) → (src.length : Int) = n * n → (dn.length : Int) = n * n →
      (db.length : Int) = n * n →
      ∃ mn mb,
        rotate_naive fuel n { src := src, dest := dn, trace := [] } = .ok mn ∧
        rotate_blocked fuel n B { src := src, dest := db, trace := [] } = .ok mb ∧
        mb.dest = mn.dest := by
    intro n B fuel src dn db hn hn' hB hB' hfuel hs hdn hdb
    obtain ⟨mn, hrn, hRn⟩ := rotate_naive_spec n fuel ⟨src, dn, []⟩ hn hn' hfuel hs hdn
    obtain ⟨mb, hrb, hRb⟩ := rotate_blocked_spec n B fuel ⟨src, db, []⟩ hn hn' hB hB' hfuel
      hs hdb
    exact ⟨mn, mb, hrn, hrb, RotOn.dest_eq (by omega) hRn hRb rfl hdn hdb⟩
  refine ⟨key n 1 fuel src dn db hn hn' le_rfl (by decide) hfuel hs hdn hdb,
    key n n fuel src dn db hn hn' (by omega) (by omega) hfuel hs hdn hdb,
    fun B hB hB' _ => key n B fuel src dn db hn hn' hB hB' hfuel hs hdn hdb, ?_, ?_⟩
  · intro f s a b hf hs' ha hb
    exact key 5 2 f s a b (by decide) (by decide) (by decide) (by decide) (by omega)
      (by omega) (by omega) (by omega)
  · intro f e0 e1 e2 e3 e4 e5 e6 e7 e8
    cases f <;> exact ⟨_, _, rfl, rfl, rfl, rfl⟩

theorem rotate_blocked_boundary_block_sizes_witness :
    (∃ mn mb : Mem ℚ,
      rotate_naive 3 3
        { src := ([1, 2, 3, 4, 5, 6, 7, 8, 9] : List ℚ),
          dest := [0, 0, 0, 0, 0, 0, 0, 0, 0], trace := [] } = .ok mn ∧
      rotate_blocked 3 3 1
        { src := ([1, 2, 3, 4, 5, 6, 7, 8, 9] : List ℚ),
          dest := [5, 5, 5, 5, 5, 5, 5, 5, 5], trace := [] } = .ok mb ∧
      mb.dest = mn.dest) ∧
    (∃ mn mb : Mem ℚ,
      rotate_naive 3 3
        { src := ([1, 2, 3, 4, 5, 6, 7, 8, 9] : List ℚ),
          dest := [0, 0, 0, 0, 0, 0, 0, 0, 0], trace := [] } = .ok mn ∧
      rotate_blocked 3 3 3
        { src := ([1, 2, 3, 4, 5, 6, 7, 8, 9] : List ℚ),
          dest := [5, 5, 5, 5, 5, 5, 5, 5, 5], trace := [] } = .ok mb ∧
      mb.dest = mn.dest) ∧
    (∃ mn mb : Mem ℚ,
      rotate_naive 3 3
        { src := ([1, 2, 3, 4, 5, 6, 7, 8, 9] : List ℚ),
          dest := [0, 0, 0, 0, 0, 0, 0, 0, 0], trace := [] } = .ok mn ∧
      rotate_blocked 3 3 2
        { src := ([1, 2, 3, 4, 5, 6, 7, 8, 9] : List ℚ),
          dest := [5, 5, 5, 5, 5, 5, 5, 5, 5], trace := [] } = .ok mb ∧
      mb.dest = mn.dest) :=
  have h := rotate_blocked_boundary_block_sizes 3 3 ([1, 2, 3, 4, 5, 6, 7, 8, 9] : List ℚ)
    [0, 0, 0, 0, 0, 0, 0, 0, 0] [5, 5, 5, 5, 5, 5, 5, 5, 5]
    (by decide) (by decide) (by decide) (by decide) (by decide) (by decide)
  ⟨h.1, h.2.1, h.2.2.1 2 (by decide) (by decide) (by decide)⟩

/-- C8, as stated, fails at `n = 46341`: at `i = 0`, `j = 41708` the index
`(n - 1 - i) * n + j` that `rotate_naive` reads from `src` is `2^31` as a
number and `-2^31` as the program's `int`, outside `[0, n * n)`, and with
buffers of exactly `n * n = 2147488281` elements `rotate_naive` performs an
access out of bounds; `rotate_blocked` (here with `B = 2`, which does not
divide `n`) does not return either. At every larger `int` size, too, neither
rotator returns: an index is negative as an `int`. -/
theorem rotators_stay_in_bounds_counterexample :
    wrap32 (wrap32 (wrap32 (wrap32 (46341 - 1) - 0) * 46341) + 41708) = -2147483648 ∧
    ¬ (0 ≤ wrap32 (wrap32 (wrap32 (wrap32 (46341 - 1) - 0) * 46341) + 41708)) ∧
    ((List.replicate 2147488281 (0 : ℚ)).length : Int) = 46341 * 46341 ∧
    rotate_naive 46341 46341
        { src := List.replicate 2147488281 (0 : ℚ), dest := List.replicate 2147488281 1,
          trace := [] } = .error .outOfBounds ∧
    (¬ ∃ (fuel : Nat) (mb : Mem ℚ),
      rotate_blocked fuel 46341 2
        { src := List.replicate 2147488281 (0 : ℚ), dest := List.replicate 2147488281 1,
          trace := [] } = .ok mb) ∧
    (¬ ∃ (n : Int) (fuel : Nat) (m0 m : Mem ℚ),
      46341 ≤ n ∧ n ≤ 2147483647 ∧ rotate_naive fuel n m0 = .ok m) ∧
    (¬ ∃ (n B : Int) (fuel : Nat) (m0 m : Mem ℚ),
      46341 ≤ n ∧ n ≤ 2147483647 ∧ 1 ≤ B ∧ B ≤ 2147483647 ∧
        rotate_blocked fuel n B m0 = .ok m) :=
  ⟨by decide, by decide, length_replicate_square 0,
    rotate_naive_overflow_replicate 46341 _ _ (by decide),
    fun ⟨fuel, mb, h⟩ => rotate_blocked_overflow fuel 2 _ mb (by decide) (by decide) h,
    fun ⟨n, fuel, m0, m, hn, hn', h⟩ => rotate_naive_overflow_range fuel n m0 m hn hn' h,
    fun ⟨n, B, fuel, m0, m, hn, hn', hB, hB', h⟩ =>
      rotate_blocked_overflow_range fuel n B m0 m hn hn' hB hB' h⟩

/-- C8, amended: for every `n` with `1 ≤ n ≤ 46340` and every `int` `B ≥ 1`
(dividing `n` or not), with buffers of exactly `n * n` elements
`rotate_blocked` returns without any out-of-bounds access, the accesses it
performs are exactly the assignments
`dest[bj * n + bi] = src[(n - 1 - bi) * n + bj]` with `bi`, `bj` in `[0, n)`, and
every index read from `src` and every index written to `dest` lies in
`[0, n * n)`; the same holds for `rotate_naive` with `(n - 1 - i) * n + j` and
`j * n + i`. -/
theorem rotators_stay_in_bounds (n B : Int) (fuel : Nat) (src dest : List α)
    (hn : 1 ≤ n) (hn' : n ≤ 46340) (hB : 1 ≤ B) (hB' : B ≤ 2147483647)
    (hfuel : n ≤ (fuel : Int))
    (hs : (src.length : Int) = n * n) (hd : (dest.length : Int) = n * n) :
    (∃ m, rotate_blocked fuel n B { src := src, dest := dest, trace := [] } = .ok m ∧
      (∀ e, e ∈ m.trace ↔ ∃ bi bj, 0 ≤ bi ∧ bi < n ∧ 0 ≤ bj ∧ bj < n ∧
        e = (bj * n + bi, (n - 1 - bi) * n + bj)) ∧
      (∀ e, e ∈ m.trace → (0 ≤ e.1 ∧ e.1 < n * n) ∧ (0 ≤ e.2 ∧ e.2 < n * n))) ∧
    (∃ m, rotate_naive fuel n { src := src, dest := dest, trace := [] } = .ok m ∧
      (∀ e, e ∈ m.trace ↔ ∃ i j, 0 ≤ i ∧ i < n ∧ 0 ≤ j ∧ j < n ∧
        e = (j * n + i, (n - 1 - i) * n + j)) ∧
      (∀ e, e ∈ m.trace → (0 ≤ e.1 ∧ e.1 < n * n) ∧ (0 ≤ e.2 ∧ e.2 < n * n))) := by
  obtain ⟨mn, hrn, hRn⟩ := rotate_naive_spec n fuel ⟨src, dest, []⟩ hn hn' hfuel hs hd
  obtain ⟨mb, hrb, hRb⟩ := rotate_blocked_spec n B fuel ⟨src, dest, []⟩ hn hn' hB hB' hfuel
    hs hd
  exact ⟨⟨mb, hrb, hRb.mem_trace rfl, hRb.trace_range rfl⟩,
    ⟨mn, hrn, hRn.mem_trace rfl, hRn.trace_range rfl⟩⟩

theorem rotators_stay_in_bounds_witness :
    (∃ m : Mem ℚ, rotate_blocked 3 3 2
        { src := ([1, 2, 3, 4, 5, 6, 7, 8, 9] : List ℚ),
          dest := [0, 0, 0, 0, 0, 0, 0, 0, 0], trace := [] } = .ok m ∧
      (∀ e, e ∈ m.trace ↔ ∃ bi bj, 0 ≤ bi ∧ bi < 3 ∧ 0 ≤ bj ∧ bj < 3 ∧
        e = (bj * 3 + bi, (3 - 1 - bi) * 3 + bj)) ∧
      (∀ e, e ∈ m.trace → (0 ≤ e.1 ∧ e.1 < 3 * 3) ∧ (0 ≤ e.2 ∧ e.2 < 3 * 3))) ∧
    (∃ m : Mem ℚ, rotate_naive 3 3
        { src := ([1, 2, 3, 4, 5, 6, 7, 8, 9] : List ℚ),
          dest := [0, 0, 0, 0, 0, 0, 0, 0, 0], trace := [] } = .ok m ∧
      (∀ e, e ∈ m.trace ↔ ∃ i j, 0 ≤ i ∧ i < 3 ∧ 0 ≤ j ∧ j < 3 ∧
        e = (j * 3 + i, (3 - 1 - i) * 3 + j)) ∧
      (∀ e, e ∈ m.trace → (0 ≤ e.1 ∧ e.1 < 3 * 3) ∧ (0 ≤ e.2 ∧ e.2 < 3 * 3))) :=
  rotators_stay_in_bounds 3 2 3 ([1, 2, 3, 4, 5, 6, 7, 8, 9] : List ℚ)
    [0, 0, 0, 0, 0, 0, 0, 0, 0]
    (by decide) (by decide) (by decide) (by decide) (by decide) (by decide) (by decide)

/-- C9: with `src` and `dest` two distinct buffers of the state, whenever
`rotate_naive` or `rotate_blocked` returns, for any `n`, any `B` and any
buffers at all, every element of `src` is afterwards what it was before: the
only buffer written is `dest`. For `1 ≤ n ≤ 46340`, an `int` `B ≥ 1` and
buffers of `n * n` elements both calls do return. -/
theorem rotators_leave_src_unchanged (n B : Int) (fuel : Nat) (m0 : Mem α) :
    (∀ m, rotate_naive fuel n m0 = .ok m →
      m.src = m0.src ∧ ∀ k, readAt m.src k = readAt m0.src k) ∧
    (∀ m, rotate_blocked fuel n B m0 = .ok m →
      m.src = m0.src ∧ ∀ k, readAt m.src k = readAt m0.src k) ∧
    (1 ≤ n → n ≤ 46340 → 1 ≤ B → B ≤ 2147483647 → n ≤ (fuel : Int) →
      (m0.src.length : Int) = n * n → (m0.dest.length : Int) = n * n →
      (∃ m, rotate_naive fuel n m0 = .ok m ∧ m.src = m0.src) ∧
      (∃ m, rotate_blocked fuel n B m0 = .ok m ∧ m.src = m0.src)) := by
  refine ⟨fun m h => ?_, fun m h => ?_, ?_⟩
  · have := (rotate_naive_frame h).1
    exact ⟨this, fun k => by rw [this]⟩
  · have := (rotate_blocked_frame h).1
    exact ⟨this, fun k => by rw [this]⟩
  · intro hn hn' hB hB' hfuel hs hd
    obtain ⟨mn, hrn, hRn⟩ := rotate_naive_spec n fuel m0 hn hn' hfuel hs hd
    obtain ⟨mb, hrb, hRb⟩ := rotate_blocked_spec n B fuel m0 hn hn' hB hB' hfuel hs hd
    exact ⟨⟨mn, hrn, hRn.src_eq⟩, ⟨mb, hrb, hRb.src_eq⟩⟩

theorem rotators_leave_src_unchanged_witness :
    (∃ m, rotate_naive 2 2 { src := ([1, 2, 3, 4] : List ℚ), dest := [0, 0, 0, 0], trace := [] }
        = .ok m ∧ m.src = [1, 2, 3, 4]) ∧
    (∃ m, rotate_blocked 2 2 1
        { src := ([1, 2, 3, 4] : List ℚ), dest := [0, 0, 0, 0], trace := [] }
        = .ok m ∧ m.src = [1, 2, 3, 4]) :=
  (rotators_leave_src_unchanged 2 1 2
    { src := ([1, 2, 3, 4] : List ℚ), dest := [0, 0, 0, 0], trace := [] }).2.2
    (by decide) (by decide) (by decide) (by decide) (by decide) (by decide) (by decide)

end RotatorClaims

/-! ## The harness: exit status -/

section HarnessClaims
variable {α : Type}

/-- C10: the harness ends with status 1 exactly when the method is `blocked`
and `validate_results` calls `exit(1)`, which, given fuel for the comparison
loop, is exactly when the validator's buffers can be allocated, both rotators
return into them and at some index the naive and the blocked result fail the
validator's test. Every other run that comes to an end has status 0, reached
`return 0`, and its buffers are those left by exactly one call of the selected
rotator on the loaded state (after a validation that passed and changed
nothing, when the method is `blocked`). For `1 ≤ n ≤ 46340` and, for method
`blocked`, an `int` block size of at least one and a test that no element
fails against itself, the run does come to an end, with status 0. -/
theorem harness_exit_status (exceeds : α → α → Bool) (fuel : Nat) (method : String)
    (n argv4 : Int) (content junk0 junk1 junk2 : Nat → α) :
    (exitStatus (main exceeds fuel method n argv4 content junk0 junk1 junk2) = some 1 ↔
      method = "blocked" ∧
        validate_results exceeds fuel n argv4 junk1 junk2
          { src := newBuffer (wrap32 (n * n)) content,
            dest := newBuffer (wrap32 (n * n)) junk0, trace := [] } = .error (.exit 1)) ∧
    (wrap32 (n * n) ≤ (fuel : Int) →
      (exitStatus (main exceeds fuel method n argv4 content junk0 junk1 junk2) = some 1 ↔
        method = "blocked" ∧ 0 ≤ wrap32 (n * n) ∧
          ∃ mn mb,
            rotate_naive fuel n
              { src := newBuffer (wrap32 (n * n)) content,
                dest := newBuffer (wrap32 (n * n)) junk1, trace := [] } = .ok mn ∧
            rotate_blocked fuel n argv4
              { src := newBuffer (wrap32 (n * n)) content,
                dest := newBuffer (wrap32 (n * n)) junk2, trace := [] } = .ok mb ∧
            ∃ i, 0 ≤ i ∧ i < wrap32 (n * n) ∧ ∃ x y, readAt mn.dest i = some x ∧
              readAt mb.dest i = some y ∧ exceeds x y = true)) ∧
    (∀ k, exitStatus (main exceeds fuel method n argv4 content junk0 junk1 junk2) = some k →
      k ≠ 1 →
      k = 0 ∧ ∃ r, main exceeds fuel method n argv4 content junk0 junk1 junk2 = .ok r ∧
        r.status = 0 ∧
        ((method = "blocked" ∧
            validate_results exceeds fuel n argv4 junk1 junk2
              { src := newBuffer (wrap32 (n * n)) content,
                dest := newBuffer (wrap32 (n * n)) junk0, trace := [] }
              = .ok { src := newBuffer (wrap32 (n * n)) content,
                      dest := newBuffer (wrap32 (n * n)) junk0, trace := [] } ∧
            rotate_blocked fuel n argv4
              { src := newBuffer (wrap32 (n * n)) content,
                dest := newBuffer (wrap32 (n * n)) junk0, trace := [] } = .ok r.mem) ∨
         (method ≠ "blocked" ∧
            rotate_naive fuel n
              { src := newBuffer (wrap32 (n * n)) content,
                dest := newBuffer (wrap32 (n * n)) junk0, trace := [] } = .ok r.mem))) ∧
    (1 ≤ n → n ≤ 46340 →
      (method = "blocked" → 1 ≤ argv4 ∧ argv4 ≤ 2147483647 ∧ ∀ x, exceeds x x = false) →
      n * n ≤ (fuel : Int) →
      exitStatus (main exceeds fuel method n argv4 content junk0 junk1 junk2) = some 0) := by
  refine ⟨main_exit_one_iff exceeds fuel method n argv4 content junk0 junk1 junk2, ?_, ?_,
    fun hn hn' hB hfuel =>
      main_status_zero exceeds fuel method n argv4 content junk0 junk1 junk2 hn hn' hB hfuel⟩
  · intro hfuel
    rw [main_exit_one_iff, validate_results_exit_iff exceeds fuel n argv4 junk1 junk2 _ hfuel]
    exact Iff.rfl
  · intro k hk hk1
    cases hrun : main exceeds fuel method n argv4 content junk0 junk1 junk2 with
    | error e =>
      rw [hrun] at hk
      rcases main_error hrun with h | h | h | h <;> subst h <;> simp [exitStatus] at hk
      exact absurd hk.symm hk1
    | ok r =>
      rw [hrun] at hk
      obtain ⟨h0, _, hrest⟩ := main_ok hrun
      simp only [exitStatus, h0, Option.some.injEq] at hk
      refine ⟨hk.symm, r, rfl, h0, ?_⟩
      rcases hrest with ⟨h1, _, h2, h3⟩ | ⟨h1, _, h2⟩
      · exact Or.inl ⟨h1, h2, h3⟩
      · exact Or.inr ⟨h1, h2⟩

/-- Two runs with elements exact rationals and the test `|a - b| > 1/10^10`: a
`blocked` run on a 2 x 2 matrix ends with status 0; a `blocked` run with
`n = -1` compares the one element of each of the two temporary buffers, which
no rotation has written, and ends with status 1 when these differ. -/
theorem harness_exit_status_witness :
    exitStatus (main (fun a b : ℚ => decide (|a - b| > 1 / 10 ^ 10)) 4 "blocked" 2 1
      (fun k => (k : ℚ)) (fun _ => 0) (fun _ => 0) (fun _ => 0)) = some 0 ∧
    exitStatus (main (fun a b : ℚ => decide (|a - b| > 1 / 10 ^ 10)) 1 "blocked" (-1) 1
      (fun k => (k : ℚ)) (fun _ => 0) (fun _ => 0) (fun _ => 1)) = some 1 :=
  ⟨(harness_exit_status (fun a b : ℚ => decide (|a - b| > 1 / 10 ^ 10)) 4 "blocked" 2 1
      (fun k => (k : ℚ)) (fun _ => 0) (fun _ => 0) (fun _ => 0)).2.2.2
      (by decide) (by decide)
      (fun _ => ⟨by decide, by decide, fun x => decide_eq_false (by norm_num)⟩) (by decide),
    ((harness_exit_status (fun a b : ℚ => decide (|a - b| > 1 / 10 ^ 10)) 1 "blocked" (-1) 1
      (fun k => (k : ℚ)) (fun _ => 0) (fun _ => 0) (fun _ => 1)).2.1 (by decide)).2
      ⟨rfl, by decide, _, _, rfl, rfl, 0, by decide, by decide, 0, 1, rfl, rfl,
        decide_eq_true (by norm_num)⟩⟩

end HarnessClaims

/-! ## In-place claim, validation outcome and frame of the validator -/

section ValidationClaims
variable {α : Type}

/-- C11, as stated, fails: on the 2 x 2 source `[1, 2, 3, 4]` `rotate_naive`
returns with the rotated matrix `[3, 1, 4, 2]` in `dest`, while `src` still
holds `[1, 2, 3, 4]`, which is not the rotated matrix. -/
theorem rotate_naive_in_place_counterexample :
    ∃ m, rotate_naive 2 2 { src := ([1, 2, 3, 4] : List ℚ), dest := [0, 0, 0, 0], trace := [] }
        = .ok m ∧ m.dest = [3, 1, 4, 2] ∧ m.src = [1, 2, 3, 4] ∧ m.src ≠ [3, 1, 4, 2] :=
  ⟨_, rfl, rfl, rfl, by simp⟩

/-- C11, amended: `rotate_naive` is not in place. Whenever it returns, `src`
is what it was before the call; and for every `n` with `1 ≤ n ≤ 46340`, with
`src` and `dest` two buffers of `n * n` elements, it returns with `src`
unchanged and with the rotated matrix in `dest`:
`dest[col * n + row] = src[(n - 1 - row) * n + col]`. -/
theorem rotate_naive_out_of_place (n : Int) (fuel : Nat) (m0 : Mem α) (hn : 1 ≤ n)
    (hn' : n ≤ 46340) (hfuel : n ≤ (fuel : Int)) (hs : (m0.src.length : Int) = n * n)
    (hd : (m0.dest.length : Int) = n * n) :
    (∃ m, rotate_naive fuel n m0 = .ok m ∧ m.src = m0.src ∧
      ∀ row col, 0 ≤ row → row < n → 0 ≤ col → col < n →
        ∃ v, readAt m0.src ((n - 1 - row) * n + col) = some v ∧
          readAt m.dest (col * n + row) = some v) ∧
    (∀ (f : Nat) (k : Int) (m1 m2 : Mem α), rotate_naive f k m1 = .ok m2 → m2.src = m1.src) := by
  obtain ⟨m, hrun, hR⟩ := rotate_naive_spec n fuel m0 hn hn' hfuel hs hd
  exact ⟨⟨m, hrun, hR.src_eq, fun row col h1 h2 h3 h4 => hR.read hs h1 h2 h3 h4⟩,
    fun _ _ _ _ h => (rotate_naive_frame h).1⟩

theorem rotate_naive_out_of_place_witness :
    ∃ m, rotate_naive 2 2 { src := ([1, 2, 3, 4] : List ℚ), dest := [0, 0, 0, 0], trace := [] }
        = .ok m ∧ m.src = [1, 2, 3, 4] ∧
      ∀ row col, 0 ≤ row → row < 2 → 0 ≤ col → col < 2 →
        ∃ v, readAt ([1, 2, 3, 4] : List ℚ) ((2 - 1 - row) * 2 + col) = some v ∧
          readAt m.dest (col * 2 + row) = some v :=
  (rotate_naive_out_of_place 2 2
    { src := ([1, 2, 3, 4] : List ℚ), dest := [0, 0, 0, 0], trace := [] }
    (by decide) (by decide) (by decide) (by decide) (by decide)).1

/-- C12, as stated, fails at `n = 46341`, `B = 1`: the buffer size `n * n` is
`-2147479015` as an `int`, so the first allocation of `validate_results`
throws, and a `blocked` run of the harness stops at its own first allocation:
it never continues to the timed rotation and has no exit status. At no `int`
size from `46341` on does `validate_results` return or a run of the harness
reach `return 0`. -/
theorem validation_never_fails_counterexample :
    wrap32 (46341 * 46341) = -2147479015 ∧
    validate_results (fun a b : ℚ => decide (|a - b| > 1 / 10 ^ 10)) 46341 46341 1
      (fun _ => 0) (fun _ => 0)
      { src := List.replicate 2147488281 (0 : ℚ), dest := List.replicate 2147488281 0,
        trace := [] } = .error .badAlloc ∧
    main (fun a b : ℚ => decide (|a - b| > 1 / 10 ^ 10)) 46341 "blocked" 46341 1
      (fun k => (k : ℚ)) (fun _ => 0) (fun _ => 0) (fun _ => 0) = .error .badAlloc ∧
    exitStatus (main (fun a b : ℚ => decide (|a - b| > 1 / 10 ^ 10)) 46341 "blocked" 46341 1
      (fun k => (k : ℚ)) (fun _ => 0) (fun _ => 0) (fun _ => 0)) = none ∧
    (¬ ∃ (exceeds : ℚ → ℚ → Bool) (n B : Int) (fuel : Nat) (junk1 junk2 : Nat → ℚ)
        (m m' : Mem ℚ),
      46341 ≤ n ∧ n ≤ 2147483647 ∧
        validate_results exceeds fuel n B junk1 junk2 m = .ok m') ∧
    (¬ ∃ (exceeds : ℚ → ℚ → Bool) (n B : Int) (fuel : Nat)
        (content junk0 junk1 junk2 : Nat → ℚ) (r : Report ℚ),
      46341 ≤ n ∧ n ≤ 2147483647 ∧
        main exceeds fuel "blocked" n B content junk0 junk1 junk2 = .ok r) := by
  have h : wrap32 (46341 * 46341) < 0 := by decide
  refine ⟨by decide, validate_results_of_neg _ _ _ _ _ _ _ h, main_of_neg _ _ _ _ _ _ _ _ _ h,
    ?_, ?_, ?_⟩
  · rw [main_of_neg _ _ _ _ _ _ _ _ _ h]
    rfl
  · rintro ⟨ex, n, B, fuel, j1, j2, m, m', hn, hn', hv⟩
    exact validate_results_overflow_range ex fuel n B j1 j2 m m' hn hn' hv
  · rintro ⟨ex, n, B, fuel, c, j0, j1, j2, r, hn, hn', hr⟩
    exact main_overflow_range ex fuel "blocked" n B c j0 j1 j2 r hn hn' hr

/-- C12, amended: for every `n` with `1 ≤ n ≤ 46340`, every `int` `B ≥ 1`,
every source of `n * n` elements and a test that no element fails against
itself (as is the case for `|a - b| > 1e-10`), the naive and the blocked
results are equal at every index, so no index fails the test;
`validate_results` returns and never takes its `exit(1)` branch; and a
`blocked` run of the harness goes on to the timed rotation and ends with
status 0 and with `dest` equal to the naive rotation of `src`. -/
theorem validation_never_fails (exceeds : α → α → Bool) (fuel : Nat) (n B : Int)
    (content junk0 junk1 junk2 : Nat → α) (m : Mem α) (hex : ∀ x, exceeds x x = false)
    (hn : 1 ≤ n) (hn' : n ≤ 46340) (hB : 1 ≤ B) (hB' : B ≤ 2147483647)
    (hfuel : n * n ≤ (fuel : Int)) (hs : (m.src.length : Int) = n * n) :
    (∃ mn mb,
      rotate_naive fuel n { src := m.src, dest := newBuffer (n * n) junk1, trace := [] }
        = .ok mn ∧
      rotate_blocked fuel n B { src := m.src, dest := newBuffer (n * n) junk2, trace := [] }
        = .ok mb ∧
      ∀ i, 0 ≤ i → i < n * n →
        ∃ x y, readAt mn.dest i = some x ∧ readAt mb.dest i = some y ∧ x = y ∧
          exceeds x y = false) ∧
    validate_results exceeds fuel n B junk1 junk2 m = .ok m ∧
    validate_results exceeds fuel n B junk1 junk2 m ≠ .error (.exit 1) ∧
    (∃ r mn,
      main exceeds fuel "blocked" n B content junk0 junk1 junk2 = .ok r ∧ r.status = 0 ∧
      exitStatus (main exceeds fuel "blocked" n B content junk0 junk1 junk2) = some 0 ∧
      rotate_naive fuel n
        { src := newBuffer (n * n) content, dest := newBuffer (n * n) junk0, trace := [] }
        = .ok mn ∧
      r.mem.dest = mn.dest) := by
  obtain ⟨_, _, hle⟩ := wrap32_square hn hn'
  have hfuel' : n ≤ (fuel : Int) := by omega
  have hn0 : 0 < n := by omega
  have hpass := validate_results_pass exceeds fuel n B junk1 junk2 m hex hn hn' hB hB' hfuel hs
  have hne : validate_results exceeds fuel n B junk1 junk2 m ≠ .error (.exit 1) := by
    rw [hpass]
    intro h
    cases h
  refine ⟨?_, hpass, hne, ?_⟩
  · obtain ⟨mn, hrn, hRn⟩ := rotate_naive_spec n fuel
      ⟨m.src, newBuffer (n * n) junk1, []⟩ hn hn' hfuel' hs (length_newBuffer n junk1)
    obtain ⟨mb, hrb, hRb⟩ := rotate_blocked_spec n B fuel
      ⟨m.src, newBuffer (n * n) junk2, []⟩ hn hn' hB hB' hfuel' hs (length_newBuffer n junk2)
    have heq : mb.dest = mn.dest :=
      RotOn.dest_eq hn0 hRn hRb rfl (length_newBuffer n junk1) (length_newBuffer n junk2)
    refine ⟨mn, mb, hrn, hrb, fun i h0 h1 => ?_⟩
    obtain ⟨x, hx⟩ := readAt_of_lt mn.dest i h0
      (by rw [hRn.len_eq]; exact (length_newBuffer n junk1).symm ▸ h1)
    exact ⟨x, x, hx, by rw [heq]; exact hx, rfl, hex x⟩
  · obtain ⟨mb, hrb, hRb, hmain⟩ :=
      main_blocked_result exceeds fuel n B content junk0 junk1 junk2 hex hn hn' hB hB' hfuel
    obtain ⟨mn, hrn, hRn⟩ := rotate_naive_spec n fuel
      ⟨newBuffer (n * n) content, newBuffer (n * n) junk0, []⟩ hn hn' hfuel'
      (length_newBuffer n content) (length_newBuffer n junk0)
    exact ⟨_, mn, hmain, rfl, by rw [hmain]; rfl, hrn,
      RotOn.dest_eq hn0 hRn hRb rfl (length_newBuffer n junk0) (length_newBuffer n junk0)⟩

theorem validation_never_fails_witness :
    validate_results (fun a b : ℚ => decide (|a - b| > 1 / 10 ^ 10)) 4 2 1
        (fun _ => 7) (fun _ => 9)
        { src := ([1, 2, 3, 4] : List ℚ), dest := [0, 0, 0, 0], trace := [] }
      = .ok { src := ([1, 2, 3, 4] : List ℚ), dest := [0, 0, 0, 0], trace := [] } :=
  (validation_never_fails (fun a b : ℚ => decide (|a - b| > 1 / 10 ^ 10)) 4 2 1
    (fun k => (k : ℚ)) (fun _ => 0) (fun _ => 7) (fun _ => 9)
    { src := ([1, 2, 3, 4] : List ℚ), dest := [0, 0, 0, 0], trace := [] }
    (fun x => decide_eq_false (by norm_num))
    (by decide) (by decide) (by decide) (by decide) (by decide) (by decide)).2.1

/-- C16: whenever `validate_results` returns, the caller's `src` and `dest`
hold exactly what they held before the call; whenever a `blocked` run of the
harness returns, the state it reports is the one left by the timed
`rotate_blocked` call on the loaded state, in which the validator's temporary
buffers do not occur. For `1 ≤ n ≤ 46340`, an `int` `B ≥ 1`, a source of
`n * n` elements and a test that no element fails against itself,
`validate_results` does return, and the reported state is the same whatever
the temporary buffers contained. -/
theorem validate_results_leaves_buffers (exceeds : α → α → Bool) (fuel : Nat) (n B : Int)
    (content junk0 junk1 junk2 : Nat → α) (m : Mem α) :
    (∀ m', validate_results exceeds fuel n B junk1 junk2 m = .ok m' →
      m'.src = m.src ∧ m'.dest = m.dest ∧ m' = m) ∧
    (∀ r, main exceeds fuel "blocked" n B content junk0 junk1 junk2 = .ok r →
      rotate_blocked fuel n B
        { src := newBuffer (wrap32 (n * n)) content,
          dest := newBuffer (wrap32 (n * n)) junk0, trace := [] } = .ok r.mem) ∧
    (1 ≤ n → n ≤ 46340 → 1 ≤ B → B ≤ 2147483647 → (∀ x, exceeds x x = false) →
      n * n ≤ (fuel : Int) → (m.src.length : Int) = n * n →
      ∃ m', validate_results exceeds fuel n B junk1 junk2 m = .ok m' ∧
        m'.src = m.src ∧ m'.dest = m.dest) ∧
    (1 ≤ n → n ≤ 46340 → 1 ≤ B → B ≤ 2147483647 → (∀ x, exceeds x x = false) →
      n * n ≤ (fuel : Int) →
      ∃ mb,
        rotate_blocked fuel n B
          { src := newBuffer (n * n) content, dest := newBuffer (n * n) junk0, trace := [] }
          = .ok mb ∧
        ∀ j1 j2 : Nat → α,
          main exceeds fuel "blocked" n B content junk0 j1 j2 =
            .ok { status := 0, block_size := B, mem := mb }) := by
  refine ⟨?_, ?_, ?_, ?_⟩
  · intro m' h
    have := validate_results_ok h
    subst this
    exact ⟨rfl, rfl, rfl⟩
  · intro r hr
    obtain ⟨_, _, hcase⟩ := main_ok hr
    rcases hcase with ⟨_, _, _, hrot⟩ | ⟨hne, _⟩
    · exact hrot
    · exact absurd rfl hne
  · intro hn hn' hB hB' hex hfuel hs
    exact ⟨m, validate_results_pass exceeds fuel n B junk1 junk2 m hex hn hn' hB hB' hfuel hs,
      rfl, rfl⟩
  · intro hn hn' hB hB' hex hfuel
    obtain ⟨mb, hrb, _, _⟩ :=
      main_blocked_result exceeds fuel n B content junk0 junk1 junk2 hex hn hn' hB hB' hfuel
    refine ⟨mb, hrb, fun j1 j2 => ?_⟩
    obtain ⟨mb', hrb', _, hmain⟩ :=
      main_blocked_result exceeds fuel n B content junk0 j1 j2 hex hn hn' hB hB' hfuel
    rw [hrb] at hrb'
    cases hrb'
    exact hmain

theorem validate_results_leaves_buffers_witness :
    ∃ m', validate_results (fun a b : ℚ => decide (|a - b| > 1 / 10 ^ 10)) 4 2 1
        (fun _ => 7) (fun _ => 9)
        { src := ([1, 2, 3, 4] : List ℚ), dest := [0, 0, 0, 0], trace := [] } = .ok m' ∧
      m'.src = [1, 2, 3, 4] ∧ m'.dest = [0, 0, 0, 0] :=
  (validate_results_leaves_buffers (fun a b : ℚ => decide (|a - b| > 1 / 10 ^ 10)) 4 2 1
    (fun k => (k : ℚ)) (fun _ => 0) (fun _ => 7)
    (fun _ => 9) { src := ([1, 2, 3, 4] : List ℚ), dest := [0, 0, 0, 0], trace := [] }).2.2.1
    (by decide) (by decide) (by decide) (by decide)
    (fun x => decide_eq_false (by norm_num)) (by decide) (by decide)

end ValidationClaims

/-! ## Termination -/

section TerminationClaims
variable {α : Type}

/-- C14, as stated, fails at `n = 46341`: neither rotator runs to completion.
On buffers of `n * n = 2147488281` elements `rotate_naive` stops at the cell
`(0, 41708)` with an access outside the source buffer, and for no fuel at all
does `rotate_naive`, or `rotate_blocked` with `B = 1` or `B = n`, return. The
same holds at every larger `int` size and for every `int` block size
`B ≥ 1`. -/
theorem rotators_run_to_completion_counterexample :
    rotate_naive 46341 46341
        { src := List.replicate 2147488281 (2 : ℚ), dest := List.replicate 2147488281 0,
          trace := [] } = .error .outOfBounds ∧
    (¬ ∃ (fuel : Nat) (m0 mn : Mem ℚ), rotate_naive fuel 46341 m0 = .ok mn) ∧
    (¬ ∃ (fuel : Nat) (B : Int) (m0 mb : Mem ℚ),
      (B = 1 ∨ B = 46341) ∧ rotate_blocked fuel 46341 B m0 = .ok mb) ∧
    (¬ ∃ (n : Int) (fuel : Nat) (m0 m : Mem ℚ),
      46341 ≤ n ∧ n ≤ 2147483647 ∧ rotate_naive fuel n m0 = .ok m) ∧
    (¬ ∃ (n B : Int) (fuel : Nat) (m0 m : Mem ℚ),
      46341 ≤ n ∧ n ≤ 2147483647 ∧ 1 ≤ B ∧ B ≤ 2147483647 ∧
        rotate_blocked fuel n B m0 = .ok m) :=
  ⟨rotate_naive_overflow_replicate 46341 _ _ (by decide),
    fun ⟨fuel, m0, mn, h⟩ => rotate_naive_overflow fuel m0 mn h,
    fun ⟨fuel, B, m0, mb, hB, h⟩ =>
      rotate_blocked_overflow fuel B m0 mb (by omega) (by omega) h,
    fun ⟨n, fuel, m0, m, hn, hn', h⟩ => rotate_naive_overflow_range fuel n m0 m hn hn' h,
    fun ⟨n, B, fuel, m0, m, hn, hn', hB, hB', h⟩ =>
      rotate_blocked_overflow_range fuel n B m0 m hn hn' hB hB' h⟩

/-- C14, amended: for every `n` with `1 ≤ n ≤ 46340`, every `B` with
`1 ≤ B ≤ n` and buffers of `n * n` elements, `rotate_naive` and
`rotate_blocked` run to completion: each has one result, returned for every
fuel of at least `n` iterations per loop. Moreover, whatever the buffers are,
neither of them runs out of such fuel: every loop advances its index by a
positive step (`B` or `1`) towards a bound that is at most `n`. -/
theorem rotators_run_to_completion (n B : Int) (m0 : Mem α) (hn : 1 ≤ n) (hn' : n ≤ 46340)
    (hB : 1 ≤ B) (hBn : B ≤ n) (hs : (m0.src.length : Int) = n * n)
    (hd : (m0.dest.length : Int) = n * n) :
    (∃ mn, ∀ fuel : Nat, n ≤ (fuel : Int) → rotate_naive fuel n m0 = .ok mn) ∧
    (∃ mb, ∀ fuel : Nat, n ≤ (fuel : Int) → rotate_blocked fuel n B m0 = .ok mb) ∧
    (∀ (fuel : Nat) (m : Mem α), n ≤ (fuel : Int) →
      rotate_naive fuel n m ≠ .error .outOfFuel ∧
      rotate_blocked fuel n B m ≠ .error .outOfFuel) := by
  have hB' : B ≤ 2147483647 := by omega
  obtain ⟨mn, hrn, _⟩ := rotate_naive_spec n n.toNat m0 hn hn' (by omega) hs hd
  obtain ⟨mb, hrb, _⟩ := rotate_blocked_spec n B n.toNat m0 hn hn' hB hB' (by omega) hs hd
  rw [rotate_naive_eq _ n m0 hn hn'] at hrn
  rw [rotate_blocked_eq _ n B m0 hn hn' hB hB'] at hrb
  refine ⟨⟨mn, fun fuel hf => ?_⟩, ⟨mb, fun fuel hf => ?_⟩, fun fuel m hf => ⟨?_, ?_⟩⟩
  · rw [rotate_naive_eq fuel n m0 hn hn']
    exact rotate_naive_unbounded_fuel_mono (by omega) hrn
  · rw [rotate_blocked_eq fuel n B m0 hn hn' hB hB']
    exact rotate_blocked_unbounded_fuel_mono (by omega) hrb
  · rw [rotate_naive_eq fuel n m hn hn']
    exact rotate_naive_unbounded_no_timeout fuel n m hf
  · rw [rotate_blocked_eq fuel n B m hn hn' hB hB']
    exact rotate_blocked_unbounded_no_timeout fuel n B m hB hf

theorem rotators_run_to_completion_witness :
    (∃ mn, ∀ fuel : Nat, (3 : Int) ≤ (fuel : Int) →
      rotate_naive fuel 3
        { src := ([1, 2, 3, 4, 5, 6, 7, 8, 9] : List ℚ),
          dest := [0, 0, 0, 0, 0, 0, 0, 0, 0], trace := [] } = .ok mn) ∧
    (∃ mb, ∀ fuel : Nat, (3 : Int) ≤ (fuel : Int) →
      rotate_blocked fuel 3 2
        { src := ([1, 2, 3, 4, 5, 6, 7, 8, 9] : List ℚ),
          dest := [0, 0, 0, 0, 0, 0, 0, 0, 0], trace := [] } = .ok mb) :=
  have h := rotators_run_to_completion 3 2
    { src := ([1, 2, 3, 4, 5, 6, 7, 8, 9] : List ℚ),
      dest := [0, 0, 0, 0, 0, 0, 0, 0, 0], trace := [] }
    (by decide) (by decide) (by decide) (by decide) (by decide) (by decide)
  ⟨h.1, h.2.1⟩

/-- C18: the block size is used unchecked, and for `B = 0` and every `n > 0`
`rotate_blocked` does not terminate: no amount of fuel is enough. The tile at
origin `(0, 0)` is empty, so its body returns the state as it is, and after any
number `k` of executions of that body the loop over tile columns is at index
`0` in the same state, nothing written. A `blocked` run of the harness whose
block-size argument parses to `0` therefore never comes to an end: it has no
exit status for any `n > 0`; for `n ≤ 46340`, where its buffers can be
allocated and the naive half of the validation returns, what it runs out of
is the fuel of the blocked rotation, and where `n * n` is negative as an
`int` (as for `n = 46341`) it is stopped by its first allocation. -/
theorem rotate_blocked_zero_block_size (exceeds : α → α → Bool) (n : Int) (m : Mem α)
    (content junk0 junk1 junk2 : Nat → α) (hn : 0 < n) :
    (∀ fuel : Nat, rotate_blocked fuel n 0 m = .error .outOfFuel) ∧
    (∀ fuel : Nat,
      forLoop (min (wrap32 (0 + 0)) n) 1 (fun bi m =>
        forLoop (min (wrap32 (0 + 0)) n) 1 (fun bj m =>
          m.copy (wrap32 (wrap32 (bj * n) + bi))
            (wrap32 (wrap32 (wrap32 (wrap32 (n - 1) - bi) * n) + bj)))
          fuel 0 m) fuel 0 m = .ok m) ∧
    (∀ k fuel inner : Nat,
      forLoop n 0 (fun j m =>
        forLoop (min (wrap32 (0 + 0)) n) 1 (fun bi m =>
          forLoop (min (wrap32 (j + 0)) n) 1 (fun bj m =>
            m.copy (wrap32 (wrap32 (bj * n) + bi))
              (wrap32 (wrap32 (wrap32 (wrap32 (n - 1) - bi) * n) + bj)))
            inner j m) inner 0 m) (k + fuel) 0 m
      = forLoop n 0 (fun j m =>
        forLoop (min (wrap32 (0 + 0)) n) 1 (fun bi m =>
          forLoop (min (wrap32 (j + 0)) n) 1 (fun bj m =>
            m.copy (wrap32 (wrap32 (bj * n) + bi))
              (wrap32 (wrap32 (wrap32 (wrap32 (n - 1) - bi) * n) + bj)))
            inner j m) inner 0 m) fuel 0 m) ∧
    (∀ fuel : Nat,
      exitStatus (main exceeds fuel "blocked" n 0 content junk0 junk1 junk2) = none) ∧
    (n ≤ 46340 → ∀ fuel : Nat, n ≤ (fuel : Int) →
      main exceeds fuel "blocked" n 0 content junk0 junk1 junk2 = .error .outOfFuel) ∧
    (wrap32 (n * n) < 0 → ∀ fuel : Nat,
      main exceeds fuel "blocked" n 0 content junk0 junk1 junk2 = .error .badAlloc) := by
  refine ⟨fun fuel => rotate_blocked_zero fuel n m hn, fun fuel => tile_zero_empty fuel n m,
    ?_, fun fuel => main_blocked_zero exceeds fuel n content junk0 junk1 junk2 hn,
    fun hn' fuel hf =>
      main_blocked_zero_timeout exceeds fuel n content junk0 junk1 junk2 hn hn' hf,
    fun h fuel => main_of_neg exceeds fuel "blocked" n 0 content junk0 junk1 junk2 h⟩
  intro k fuel inner
  refine forLoop_stuck_steps n _ 0 m hn (by decide) ?_ k fuel
  exact tile_zero_empty inner n m

theorem rotate_blocked_zero_block_size_witness :
    rotate_blocked 1000 2 0
      { src := ([1, 2, 3, 4] : List ℚ), dest := [0, 0, 0, 0], trace := [] }
      = .error .outOfFuel :=
  (rotate_blocked_zero_block_size (fun a b : ℚ => decide (|a - b| > 1 / 10 ^ 10)) 2
    { src := ([1, 2, 3, 4] : List ℚ), dest := [0, 0, 0, 0], trace := [] }
    (fun k => (k : ℚ)) (fun _ => 0) (fun _ => 0) (fun _ => 0) (by decide)).1 1000

end TerminationClaims

/-! ## Parameter handling of the harness -/

section ParameterClaims
variable {α : Type}

/-- C15: the fourth argument is consulted only for method `blocked`. For any
other method string the run does not depend on the fourth argument nor on
anything the validator would use (its test and its temporary buffers), it is
one call of `rotate_naive` on the loaded state, and the block size reported is
`n`. For method `blocked` the block size is the fourth argument, the run is
`validate_results` followed by one call of `rotate_blocked`, and a failing
validation ends the run. The descriptions of the run as a sequence of calls
suppose that `main` could allocate its two buffers; for `1 ≤ n ≤ 46340` it
can, and the run returns. -/
theorem harness_parameter_handling (exceeds : α → α → Bool) (fuel : Nat) (method : String)
    (n argv4 : Int) (content junk0 junk1 junk2 : Nat → α) :
    (method ≠ "blocked" →
      (∀ (ex : α → α → Bool) (a : Int) (j1 j2 : Nat → α),
        main ex fuel method n a content junk0 j1 j2 =
          main exceeds fuel method n argv4 content junk0 junk1 junk2) ∧
      (0 ≤ wrap32 (n * n) →
        main exceeds fuel method n argv4 content junk0 junk1 junk2 =
          (match rotate_naive fuel n
              { src := newBuffer (wrap32 (n * n)) content,
                dest := newBuffer (wrap32 (n * n)) junk0, trace := [] } with
            | .error e => .error e
            | .ok m2 => .ok { status := 0, block_size := n, mem := m2 })) ∧
      (∀ r, main exceeds fuel method n argv4 content junk0 junk1 junk2 = .ok r →
        r.block_size = n ∧
        rotate_naive fuel n
          { src := newBuffer (wrap32 (n * n)) content,
            dest := newBuffer (wrap32 (n * n)) junk0, trace := [] } = .ok r.mem) ∧
      (1 ≤ n → n ≤ 46340 → n ≤ (fuel : Int) →
        ∃ r, main exceeds fuel method n argv4 content junk0 junk1 junk2 = .ok r ∧
          r.block_size = n)) ∧
    (method = "blocked" →
      (0 ≤ wrap32 (n * n) →
        main exceeds fuel method n argv4 content junk0 junk1 junk2 =
          (match validate_results exceeds fuel n argv4 junk1 junk2
              { src := newBuffer (wrap32 (n * n)) content,
                dest := newBuffer (wrap32 (n * n)) junk0, trace := [] } with
            | .error e => .error e
            | .ok m1 =>
              match rotate_blocked fuel n argv4 m1 with
              | .error e => .error e
              | .ok m2 => .ok { status := 0, block_size := argv4, mem := m2 })) ∧
      (∀ e, validate_results exceeds fuel n argv4 junk1 junk2
          { src := newBuffer (wrap32 (n * n)) content,
            dest := newBuffer (wrap32 (n * n)) junk0, trace := [] } = .error e →
        main exceeds fuel method n argv4 content junk0 junk1 junk2 = .error e) ∧
      (∀ r, main exceeds fuel method n argv4 content junk0 junk1 junk2 = .ok r →
        r.block_size = argv4 ∧
        validate_results exceeds fuel n argv4 junk1 junk2
          { src := newBuffer (wrap32 (n * n)) content,
            dest := newBuffer (wrap32 (n * n)) junk0, trace := [] }
          = .ok { src := newBuffer (wrap32 (n * n)) content,
                  dest := newBuffer (wrap32 (n * n)) junk0, trace := [] } ∧
        rotate_blocked fuel n argv4
          { src := newBuffer (wrap32 (n * n)) content,
            dest := newBuffer (wrap32 (n * n)) junk0, trace := [] } = .ok r.mem) ∧
      (1 ≤ n → n ≤ 46340 → 1 ≤ argv4 → argv4 ≤ 2147483647 → (∀ x, exceeds x x = false) →
        n * n ≤ (fuel : Int) →
        ∃ r, main exceeds fuel method n argv4 content junk0 junk1 junk2 = .ok r ∧
          r.block_size = argv4)) := by
  constructor
  · intro hm
    refine ⟨?_, fun h0 =>
      main_naive_run exceeds fuel method n argv4 content junk0 junk1 junk2 hm h0, ?_, ?_⟩
    · intro ex a j1 j2
      by_cases h0 : 0 ≤ wrap32 (n * n)
      · rw [main_naive_run exceeds fuel method n argv4 content junk0 junk1 junk2 hm h0,
          main_naive_run ex fuel method n a content junk0 j1 j2 hm h0]
      · rw [main_of_neg exceeds fuel method n argv4 content junk0 junk1 junk2 (by omega),
          main_of_neg ex fuel method n a content junk0 j1 j2 (by omega)]
    · intro r hr
      obtain ⟨_, _, hcase⟩ := main_ok hr
      rcases hcase with ⟨h1, _⟩ | ⟨_, h2, h3⟩
      · exact absurd h1 hm
      · exact ⟨h2, h3⟩
    · intro hn hn' hfuel
      obtain ⟨mn, _, _, hmain⟩ := main_naive_result exceeds fuel method n argv4 content junk0
        junk1 junk2 hm hn hn' hfuel
      exact ⟨_, hmain, rfl⟩
  · intro hm
    subst hm
    refine ⟨fun h0 => main_blocked_run exceeds fuel n argv4 content junk0 junk1 junk2 h0,
      ?_, ?_, ?_⟩
    · intro e he
      by_cases h0 : 0 ≤ wrap32 (n * n)
      · rw [main_blocked_run exceeds fuel n argv4 content junk0 junk1 junk2 h0, he]
      · rw [validate_results_of_neg exceeds fuel n argv4 junk1 junk2 _ (by omega)] at he
        cases he
        exact main_of_neg exceeds fuel "blocked" n argv4 content junk0 junk1 junk2 (by omega)
    · intro r hr
      obtain ⟨_, _, hcase⟩ := main_ok hr
      rcases hcase with ⟨_, h2, hv, hrot⟩ | ⟨hne, _⟩
      · exact ⟨h2, hv, hrot⟩
      · exact absurd rfl hne
    · intro hn hn' hB hB' hex hfuel
      obtain ⟨mb, _, _, hmain⟩ :=
        main_blocked_result exceeds fuel n argv4 content junk0 junk1 junk2 hex hn hn' hB hB'
          hfuel
      exact ⟨_, hmain, rfl⟩

theorem harness_parameter_handling_witness :
    (∃ r, main (fun a b : ℚ => decide (|a - b| > 1 / 10 ^ 10)) 2 "naive" 2 0
        (fun k => (k : ℚ)) (fun _ => 0) (fun _ => 0) (fun _ => 0) = .ok r ∧
      r.block_size = 2) ∧
    (∃ r, main (fun a b : ℚ => decide (|a - b| > 1 / 10 ^ 10)) 4 "blocked" 2 1
        (fun k => (k : ℚ)) (fun _ => 0) (fun _ => 0) (fun _ => 0) = .ok r ∧
      r.block_size = 1) :=
  ⟨((harness_parameter_handling (fun a b : ℚ => decide (|a - b| > 1 / 10 ^ 10)) 2 "naive" 2 0
      (fun k => (k : ℚ)) (fun _ => 0) (fun _ => 0) (fun _ => 0)).1 (by decide)).2.2.2
      (by decide) (by decide) (by decide),
    ((harness_parameter_handling (fun a b : ℚ => decide (|a - b| > 1 / 10 ^ 10)) 4 "blocked"
      2 1 (fun k => (k : ℚ)) (fun _ => 0) (fun _ => 0) (fun _ => 0)).2 rfl).2.2.2
      (by decide) (by decide) (by decide) (by decide)
      (fun x => decide_eq_false (by norm_num)) (by decide)⟩

end ParameterClaims

/-! ## The order of the assignments -/

section OrderClaims
variable {α : Type}

/-- C13, as stated, fails at `n = 46341`: for `B = 1`, `B = 3` and `B = n`
`rotate_blocked` does not return, whatever the buffers and the fuel: it
cannot get past the pair `(0, 41708)`, whose source index does not fit an
`int`, so the assignments it performs do not cover the index square. At no
`int` size from `46341` on, and for no `int` block size `B ≥ 1`, does
`rotate_blocked` ever return. -/
theorem blocked_assignments_permute_naive_counterexample :
    wrap32 (wrap32 (wrap32 (wrap32 (46341 - 1) - 0) * 46341) + 41708) = -2147483648 ∧
    (¬ ∃ (fuel : Nat) (B : Int) (m0 mb : Mem ℚ),
      (B = 1 ∨ B = 3 ∨ B = 46341) ∧ rotate_blocked fuel 46341 B m0 = .ok mb) ∧
    (¬ ∃ (n B : Int) (fuel : Nat) (m0 m : Mem ℚ),
      46341 ≤ n ∧ n ≤ 2147483647 ∧ 1 ≤ B ∧ B ≤ 2147483647 ∧
        rotate_blocked fuel n B m0 = .ok m) :=
  ⟨by decide, fun ⟨fuel, B, m0, mb, hB, h⟩ =>
    rotate_blocked_overflow fuel B m0 mb (by omega) (by omega) h,
    fun ⟨n, B, fuel, m0, m, hn, hn', hB, hB', h⟩ =>
      rotate_blocked_overflow_range fuel n B m0 m hn hn' hB hB' h⟩

/-- C13, amended: for every `n` with `1 ≤ n ≤ 46340` and every `int` `B ≥ 1`
the sequence of index pairs `(bi, bj)` at which `rotate_blocked` performs
`dest[bj * n + bi] = src[(n - 1 - bi) * n + bj]` holds every pair of
`[0, n) x [0, n)` exactly once and no other pair, and the sequence of
assignments of `rotate_blocked` is a permutation of that of `rotate_naive`.
The tiles partition the index square: every pair lies in exactly one tile
`[a * B, min (a * B + B) n) x [b * B, min (b * B + B) n)` with origin below
`n`. -/
theorem blocked_assignments_permute_naive (n B : Int) (fuel : Nat) (src dest : List α)
    (hn : 1 ≤ n) (hn' : n ≤ 46340) (hB : 1 ≤ B) (hB' : B ≤ 2147483647)
    (hfuel : n ≤ (fuel : Int))
    (hs : (src.length : Int) = n * n) (hd : (dest.length : Int) = n * n) :
    ∃ mb mn,
      rotate_blocked fuel n B { src := src, dest := dest, trace := [] } = .ok mb ∧
      rotate_naive fuel n { src := src, dest := dest, trace := [] } = .ok mn ∧
      (∃ pairs : List (Int × Int),
        mb.trace = pairs.map (fun p => (p.2 * n + p.1, (n - 1 - p.1) * n + p.2)) ∧
        pairs.Nodup ∧
        (∀ bi bj, (bi, bj) ∈ pairs ↔ (0 ≤ bi ∧ bi < n ∧ 0 ≤ bj ∧ bj < n)) ∧
        (∀ bi bj, 0 ≤ bi → bi < n → 0 ≤ bj → bj < n → pairs.count (bi, bj) = 1)) ∧
      mb.trace.Perm mn.trace ∧
      (∀ bi bj, 0 ≤ bi → bi < n → 0 ≤ bj → bj < n →
        ∃ a b,
          ((0 ≤ a ∧ a * B < n ∧ a * B ≤ bi ∧ bi < min (a * B + B) n) ∧
           (0 ≤ b ∧ b * B < n ∧ b * B ≤ bj ∧ bj < min (b * B + B) n)) ∧
          ∀ a' b',
            ((0 ≤ a' ∧ a' * B < n ∧ a' * B ≤ bi ∧ bi < min (a' * B + B) n) ∧
             (0 ≤ b' ∧ b' * B < n ∧ b' * B ≤ bj ∧ bj < min (b' * B + B) n)) →
            a' = a ∧ b' = b) := by
  obtain ⟨mb, hrb, hRb⟩ := rotate_blocked_spec n B fuel ⟨src, dest, []⟩ hn hn' hB hB' hfuel
    hs hd
  obtain ⟨mn, hrn, hRn⟩ := rotate_naive_spec n fuel ⟨src, dest, []⟩ hn hn' hfuel hs hd
  obtain ⟨_, pairs, htr, hnd, hmem⟩ := hRb.trace_pairs rfl
  refine ⟨mb, mn, hrb, hrn, ⟨pairs, htr, hnd, hmem, ?_⟩, RotOn.trace_perm hRn hRb rfl rfl, ?_⟩
  · intro bi bj h1 h2 h3 h4
    exact count_eq_one_of_nodup hnd ((hmem bi bj).2 ⟨h1, h2, h3, h4⟩)
  · intro bi bj h1 h2 h3 h4
    obtain ⟨a, ha, hua⟩ := tile_unique (n := n) hB h1 h2
    obtain ⟨b, hb, hub⟩ := tile_unique (n := n) hB h3 h4
    exact ⟨a, b, ⟨ha, hb⟩, fun a' b' h => ⟨hua a' h.1, hub b' h.2⟩⟩

theorem blocked_assignments_permute_naive_witness :
    ∃ mb mn : Mem ℚ,
      rotate_blocked 3 3 2
        { src := ([1, 2, 3, 4, 5, 6, 7, 8, 9] : List ℚ),
          dest := [0, 0, 0, 0, 0, 0, 0, 0, 0], trace := [] } = .ok mb ∧
      rotate_naive 3 3
        { src := ([1, 2, 3, 4, 5, 6, 7, 8, 9] : List ℚ),
          dest := [0, 0, 0, 0, 0, 0, 0, 0, 0], trace := [] } = .ok mn ∧
      mb.trace.Perm mn.trace :=
  have ⟨mb, mn, h1, h2, _, h3, _⟩ := blocked_assignments_permute_naive 3 2 3
    ([1, 2, 3, 4, 5, 6, 7, 8, 9] : List ℚ) [0, 0, 0, 0, 0, 0, 0, 0, 0]
    (by decide) (by decide) (by decide) (by decide) (by decide) (by decide) (by decide)
  ⟨mb, mn, h1, h2, h3⟩

/-- C17, as stated, fails at `n = 46341`: the source offset
`(n - 1 - i) * n + j` that the program computes at `i = 0`, `j = 41708` is
`-2^31`, outside `[0, n * n)`, and neither `rotate_naive` nor `rotate_blocked`
(here with `B = 1`) returns, whatever the buffers and the fuel: no destination
is left that could be a permutation of `src`. The same holds at every larger
`int` size. -/
theorem rotation_is_a_permutation_counterexample :
    wrap32 (wrap32 (wrap32 (wrap32 (46341 - 1) - 0) * 46341) + 41708) = -2147483648 ∧
    (-2147483648 : Int) ∉ Set.Ico (0 : Int) (46341 * 46341) ∧
    (¬ ∃ (fuel : Nat) (src d : List ℚ) (mn : Mem ℚ),
      rotate_naive fuel 46341 { src := src, dest := d, trace := [] } = .ok mn) ∧
    (¬ ∃ (fuel : Nat) (src d : List ℚ) (mb : Mem ℚ),
      rotate_blocked fuel 46341 1 { src := src, dest := d, trace := [] } = .ok mb) ∧
    (¬ ∃ (n : Int) (fuel : Nat) (m0 m : Mem ℚ),
      46341 ≤ n ∧ n ≤ 2147483647 ∧ rotate_naive fuel n m0 = .ok m) ∧
    (¬ ∃ (n B : Int) (fuel : Nat) (m0 m : Mem ℚ),
      46341 ≤ n ∧ n ≤ 2147483647 ∧ 1 ≤ B ∧ B ≤ 2147483647 ∧
        rotate_blocked fuel n B m0 = .ok m) :=
  ⟨by decide, by simp [Set.mem_Ico],
    fun ⟨fuel, _, _, mn, h⟩ => rotate_naive_overflow fuel _ mn h,
    fun ⟨fuel, _, _, mb, h⟩ => rotate_blocked_overflow fuel 1 _ mb (by decide) (by decide) h,
    fun ⟨n, fuel, m0, m, hn, hn', h⟩ => rotate_naive_overflow_range fuel n m0 m hn hn' h,
    fun ⟨n, B, fuel, m0, m, hn, hn', hB, hB', h⟩ =>
      rotate_blocked_overflow_range fuel n B m0 m hn hn' hB hB' h⟩

/-- C17, amended: for every `k > 0` the rotation's map from the source offset
`(k - 1 - i) * k + j` to the destination offset `j * k + i`, taken over the
integers, is a bijection of `[0, k * k)` onto itself. For every `n` with
`1 ≤ n ≤ 46340`, where the program computes these offsets, `rotate_naive`, and
`rotate_blocked` for an `int` `B ≥ 1`, write every destination cell exactly
once, their result does not depend on what `dest` held before, and the
resulting `dest` is a permutation of `src`: every value occurs in it as often
as in `src`. -/
theorem rotation_is_a_permutation (n B : Int) (fuel : Nat) (src d d' : List α)
    (hn : 1 ≤ n) (hn' : n ≤ 46340) (hB : 1 ≤ B) (hB' : B ≤ 2147483647)
    (hfuel : n ≤ (fuel : Int))
    (hs : (src.length : Int) = n * n) (hd : (d.length : Int) = n * n)
    (hd' : (d'.length : Int) = n * n) :
    (∀ k : Int, 0 < k →
      (∀ i j, 0 ≤ i → i < k → 0 ≤ j → j < k →
        (fun s : Int => s % k * k + (k - 1 - s / k)) ((k - 1 - i) * k + j) = j * k + i) ∧
      Set.BijOn (fun s : Int => s % k * k + (k - 1 - s / k))
        (Set.Ico 0 (k * k)) (Set.Ico 0 (k * k))) ∧
    ∃ mn mb mn' mb',
      rotate_naive fuel n { src := src, dest := d, trace := [] } = .ok mn ∧
      rotate_blocked fuel n B { src := src, dest := d, trace := [] } = .ok mb ∧
      rotate_naive fuel n { src := src, dest := d', trace := [] } = .ok mn' ∧
      rotate_blocked fuel n B { src := src, dest := d', trace := [] } = .ok mb' ∧
      (∀ k, 0 ≤ k → k < n * n →
        (mn.trace.map Prod.fst).count k = 1 ∧ (mb.trace.map Prod.fst).count k = 1) ∧
      mn'.dest = mn.dest ∧ mb'.dest = mb.dest ∧
      mn.dest.Perm src ∧ mb.dest.Perm src ∧
      (∀ [DecidableEq α] (v : α),
        mn.dest.count v = src.count v ∧ mb.dest.count v = src.count v) := by
  have hn0 : 0 < n := by omega
  refine ⟨fun k hk => index_map_bijOn hk, ?_⟩
  obtain ⟨mn, hrn, hRn⟩ := rotate_naive_spec n fuel ⟨src, d, []⟩ hn hn' hfuel hs hd
  obtain ⟨mb, hrb, hRb⟩ := rotate_blocked_spec n B fuel ⟨src, d, []⟩ hn hn' hB hB' hfuel hs hd
  obtain ⟨mn', hrn', hRn'⟩ := rotate_naive_spec n fuel ⟨src, d', []⟩ hn hn' hfuel hs hd'
  obtain ⟨mb', hrb', hRb'⟩ := rotate_blocked_spec n B fuel ⟨src, d', []⟩ hn hn' hB hB' hfuel
    hs hd'
  have pn : mn.dest.Perm src := RotOn.dest_perm hn0 hRn rfl hs hd
  have pb : mb.dest.Perm src := RotOn.dest_perm hn0 hRb rfl hs hd
  refine ⟨mn, mb, mn', mb', hrn, hrb, hrn', hrb', ?_,
    RotOn.dest_eq hn0 hRn hRn' rfl hd hd', RotOn.dest_eq hn0 hRb hRb' rfl hd hd', pn, pb, ?_⟩
  · intro k h0 h1
    obtain ⟨wn, wm⟩ := hRn.writes hn0 rfl
    obtain ⟨wn', wm'⟩ := hRb.writes hn0 rfl
    exact ⟨count_eq_one_of_nodup wn ((wm k).2 ⟨h0, h1⟩),
      count_eq_one_of_nodup wn' ((wm' k).2 ⟨h0, h1⟩)⟩
  · intro _ v
    exact ⟨pn.count_eq v, pb.count_eq v⟩

theorem rotation_is_a_permutation_witness :
    ∃ mn : Mem ℚ,
      rotate_naive 3 3
        { src := ([1, 2, 3, 4, 5, 6, 7, 8, 9] : List ℚ),
          dest := [0, 0, 0, 0, 0, 0, 0, 0, 0], trace := [] } = .ok mn ∧
      mn.dest.Perm [1, 2, 3, 4, 5, 6, 7, 8, 9] :=
  have ⟨_, mn, _, _, _, h1, _, _, _, _, _, _, h2, _⟩ := rotation_is_a_permutation 3 2 3
    ([1, 2, 3, 4, 5, 6, 7, 8, 9] : List ℚ) [0, 0, 0, 0, 0, 0, 0, 0, 0]
    [5, 5, 5, 5, 5, 5, 5, 5, 5]
    (by decide) (by decide) (by decide) (by decide) (by decide) (by decide) (by decide)
    (by decide)
  ⟨mn, h1, h2⟩

end OrderClaims

/-! ## 32-bit index arithmetic -/

section IntegerClaims

/-- C19: for every `n` with `1 ≤ n ≤ 46340` and every `B` with `1 ≤ B ≤ n`,
every integer expression of `rotate_naive`, `rotate_blocked` and
`validate_results`, at every cell `(i, j)` of the index square (the cells
`(bi, bj)` range over the same square), lies in `[0, 2^31 - 1]`, sub-expressions
included, and the three functions, which compute with 32-bit `int`
operations, are equal to the same loops computed with unbounded integers.
For `n = 46341` the expression `n * n` exceeds `2^31 - 1` and its 32-bit value
is not `n * n`. -/
theorem int32_arithmetic_is_exact {α : Type} (n B : Int) (hn : 1 ≤ n) (hn' : n ≤ 46340)
    (hB : 1 ≤ B) (hBn : B ≤ n) :
    (0 ≤ n * n ∧ n * n ≤ 2147483647) ∧
    (∀ i j, 0 ≤ i → i < n → 0 ≤ j → j < n →
      (0 ≤ j * n ∧ j * n ≤ 2147483647) ∧
      (0 ≤ j * n + i ∧ j * n + i ≤ 2147483647) ∧
      (0 ≤ n - 1 ∧ n - 1 ≤ 2147483647) ∧
      (0 ≤ n - 1 - i ∧ n - 1 - i ≤ 2147483647) ∧
      (0 ≤ (n - 1 - i) * n ∧ (n - 1 - i) * n ≤ 2147483647) ∧
      (0 ≤ (n - 1 - i) * n + j ∧ (n - 1 - i) * n + j ≤ 2147483647) ∧
      (0 ≤ i + B ∧ i + B ≤ 2147483647) ∧
      (0 ≤ j + B ∧ j + B ≤ 2147483647) ∧
      (0 ≤ i + 1 ∧ i + 1 ≤ 2147483647)) ∧
    (∀ (fuel : Nat) (m : Mem α), rotate_naive fuel n m = rotate_naive_unbounded fuel n m) ∧
    (∀ (fuel : Nat) (m : Mem α),
      rotate_blocked fuel n B m = rotate_blocked_unbounded fuel n B m) ∧
    (∀ (exceeds : α → α → Bool) (fuel : Nat) (junk1 junk2 : Nat → α) (m : Mem α),
      validate_results exceeds fuel n B junk1 junk2 m =
        validate_results_unbounded exceeds fuel n B junk1 junk2 m) ∧
    ((2147483647 : Int) < 46341 * 46341 ∧ wrap32 (46341 * 46341) = -2147479015 ∧
      wrap32 (46341 * 46341) ≠ 46341 * 46341) := by
  have hn0 : 0 < n := by omega
  have hsq := square_fits hn0.le hn'
  have hsq0 := mul_self_nonneg n
  refine ⟨⟨hsq0, by omega⟩, ?_, fun fuel m => rotate_naive_eq fuel n m hn hn',
    fun fuel m => rotate_blocked_eq fuel n B m hn hn' hB (by omega),
    fun ex fuel j1 j2 m => validate_results_eq ex fuel n B j1 j2 m hn hn' hB (by omega),
    by decide, by decide, by decide⟩
  intro i j hi hi1 hj hj1
  have a1 : 0 ≤ j * n := mul_nonneg hj hn0.le
  have a2 : j * n + i < n * n := idx_lt hi1 hj1 hn0
  have b1 : 0 ≤ (n - 1 - i) * n := mul_nonneg (by omega) hn0.le
  have b2 := (srcIdx_range hi hi1 hj hj1).2
  refine ⟨⟨a1, by omega⟩, ⟨by omega, by omega⟩, ⟨by omega, by omega⟩, ⟨by omega, by omega⟩,
    ⟨b1, by omega⟩, ⟨by omega, by omega⟩, ⟨by omega, by omega⟩, ⟨by omega, by omega⟩,
    ⟨by omega, by omega⟩⟩

theorem int32_arithmetic_is_exact_witness :
    rotate_blocked 3 3 2
        { src := ([1, 2, 3, 4, 5, 6, 7, 8, 9] : List ℚ),
          dest := [0, 0, 0, 0, 0, 0, 0, 0, 0], trace := [] }
      = rotate_blocked_unbounded 3 3 2
        { src := ([1, 2, 3, 4, 5, 6, 7, 8, 9] : List ℚ),
          dest := [0, 0, 0, 0, 0, 0, 0, 0, 0], trace := [] } :=
  (int32_arithmetic_is_exact 3 2 (by decide) (by decide) (by decide) (by decide)).2.2.2.1 3
    { src := ([1, 2, 3, 4, 5, 6, 7, 8, 9] : List ℚ),
      dest := [0, 0, 0, 0, 0, 0, 0, 0, 0], trace := [] }

end IntegerClaims

end MatrixRotation
